import Mathlib

/-!
# The mirror engine of the TANK command line client

A shallow embedding of the `mirror` command of `cli.cpp` (the block
`else if (cmd.Eq(_S("mirror")))` of `main`), followed by theorems about it.

The broker client (`TankClient`, declared in `tank_client.h`) is a collaborator
of the command: it is modelled from its interface, and everything the network
decides (whether a request can be scheduled, what a `poll` round brings) is an
explicit input of the model.

Machine integers are natural numbers; where the source computes with a fixed
width the reduction is written out (`% 2 ^ 64` for `uint64_t` and `size_t`,
`% 65536` for `uint16_t`). Printing (`Print`, `consider_fault`, the verbose
traces) does not change the state and is left out, and so are the timeouts
handed to `poll`.
-/

namespace Tank

/-! ## Data exchanged with the broker client -/

/-- Fault kinds, `TankClient::fault::Type`; `Other` stands for the `default:` arm
of `consider_fault`. -/
inductive FaultType
  | BoundaryCheck
  | UnknownTopic
  | UnknownPartition
  | Access
  | SystemFail
  | InvalidReq
  | Network
  | Other
  deriving DecidableEq

/-- A fault reported by a client handle, `TankClient::fault`. -/
structure fault where
  type : FaultType
  topic : String
  firstAvailSeqNum : Nat
  highWaterMark : Nat
  deriving DecidableEq

/-- A message as handed over by a consume response (`m->seqNum`, `m->ts`,
`m->key`, `m->content`); key and content are byte strings, the key a
`strwlen8_t` (its `len` a `uint8_t`) and the content a `strwlen32_t` (its `len` a
`uint32_t`). -/
structure consumed_msg where
  seqNum : Nat
  ts : Nat
  key : List Nat
  content : List Nat
  deriving DecidableEq

/-- A message to produce, `TankClient::msg`, built as `{m->content, m->ts, m->key}`. -/
structure msg where
  content : List Nat
  ts : Nat
  key : List Nat
  deriving DecidableEq

/-- The `next` member of a consume result: where to continue from. -/
structure next_ctx where
  seqNum : Nat
  minFetchSize : Nat
  deriving DecidableEq

/-- One entry of `tankClient.consumed()`: the messages of one partition, whose
id is a `uint16_t` like the keys of `map`. -/
structure partition_content where
  partition : Nat
  msgs : List consumed_msg
  next : next_ctx
  deriving DecidableEq

/-- One entry of `dest.produce_acks()`. -/
structure produce_ack where
  partition : Nat
  deriving DecidableEq

/-- One entry of `discovered_partitions()`: per partition the pair
(first available sequence number, last assigned sequence number). Partition ids
are `uint16_t` values and the command keeps the number of partitions in a
`uint16_t`; the statements about discovery are made for answers whose number of
partitions fits. -/
structure discovered_topic_partitions where
  clientReqId : Nat
  watermarks : List (Nat × Nat)
  deriving DecidableEq

/-- A `TankClient::topic_partition`. -/
abbrev topic_partition := String × Nat

/-- The element type of `inputs`: a partition with (sequence number, minimum fetch size). -/
abbrev consume_input := topic_partition × (Nat × Nat)

/-- The element type of `outputs`: a partition with the messages of one batch. -/
abbrev produce_output := topic_partition × List msg

/-- A request handed to a client handle. -/
inductive Request
  | discover_partitions (topic : String)
  | consume (inputs : List consume_input) (maxWait : Nat) (minSize : Nat)
  | produce (outputs : List produce_output)
  | produce_with_base (outputs : List (topic_partition × (Nat × List msg)))
  deriving DecidableEq

/-- What one `poll` round brings when the answer to a request has arrived. -/
structure Arrival where
  faults : List fault
  watermarks : Option (List (Nat × Nat))
  consumed : List partition_content
  produce_acks : List produce_ack
  deriving DecidableEq

/-- Modelled from the spec: the broker client `TankClient` of `tank_client.h`,
which is not among the sources. `outstanding` holds the ids of the requests that
wait for their answer, `calls` records every request handed to the client, and
the four result queues hold what the last `poll` delivered. -/
structure TankClient where
  reqSeq : Nat
  outstanding : List Nat
  calls : List Request
  faults : List fault
  discovered_partitions : List discovered_topic_partitions
  consumed : List partition_content
  produce_acks : List produce_ack
  deriving DecidableEq

namespace TankClient

/-- A client handle right after construction. -/
def fresh : TankClient :=
  { reqSeq := 0, outstanding := [], calls := [], faults := [],
    discovered_partitions := [], consumed := [], produce_acks := [] }

/-- Modelled from the spec: `shouldPoll()` is true iff a request is outstanding. -/
def should_poll (c : TankClient) : Bool :=
  !c.outstanding.isEmpty

/-- Modelled from the spec: handing a request to the client. When the request can
be scheduled (`ok`) it gets the next request id, which is never 0, and becomes
outstanding; otherwise the call returns 0. -/
def request (c : TankClient) (r : Request) (ok : Bool) : Nat × TankClient :=
  if ok then
    (c.reqSeq + 1,
      { c with reqSeq := c.reqSeq + 1,
               outstanding := c.outstanding ++ [c.reqSeq + 1],
               calls := c.calls ++ [r] })
  else
    (0, { c with calls := c.calls ++ [r] })

/-- The call `discover_partitions(topic)`. -/
def discover (c : TankClient) (topic : String) (ok : Bool) : Nat × TankClient :=
  c.request (Request.discover_partitions topic) ok

/-- The call `consume(inputs, maxWait, minSize)`. -/
def consume (c : TankClient) (inputs : List consume_input) (maxWait minSize : Nat)
    (ok : Bool) : Nat × TankClient :=
  c.request (Request.consume inputs maxWait minSize) ok

/-- The call `produce(outputs)`. -/
def produce (c : TankClient) (outputs : List produce_output) (ok : Bool) :
    Nat × TankClient :=
  c.request (Request.produce outputs) ok

/-- The call `produce_with_base(outputs)`: each partition comes with the sequence
number its first message is to get. -/
def produce_with_base (c : TankClient)
    (outputs : List (topic_partition × (Nat × List msg))) (ok : Bool) :
    Nat × TankClient :=
  c.request (Request.produce_with_base outputs) ok

/-- Modelled from the spec: `poll(timeout)` drains one round of completed I/O.
The result queues are cleared and refilled. With `none` nothing arrived within
the timeout; with `some a` the answer to the oldest outstanding request arrived,
that request is no longer outstanding, and a discovery record carries its id. -/
def poll (c : TankClient) (arrived : Option Arrival) : TankClient :=
  match arrived with
  | none =>
    { c with faults := [], discovered_partitions := [], consumed := [],
             produce_acks := [] }
  | some a =>
    { c with outstanding := c.outstanding.tail,
             faults := a.faults,
             discovered_partitions :=
               match a.watermarks with
               | none => []
               | some w => [{ clientReqId := c.outstanding.headD 0, watermarks := w }],
             consumed := a.consumed,
             produce_acks := a.produce_acks }

end TankClient

/-! ## The forwarding batcher (cli.cpp, lines 594-614) -/

/-- The message pushed by `msgs.push_back({m->content, m->ts, m->key})`. -/
def to_msg (m : consumed_msg) : msg :=
  { content := m.content, ts := m.ts, key := m.key }

/-- The estimated payload of one consumed message: its key length plus its
content length plus 32. -/
def msg_estimate (m : consumed_msg) : Nat :=
  m.key.length + m.content.length + 32

/-- The amount line 609 adds to `sum` for one message, the value of
`m->key.len + m->content.len + 32`: the operands are a `uint8_t`, a `uint32_t`
and an `int`, so the sum is taken in 32-bit unsigned arithmetic. -/
def msg_addend (m : consumed_msg) : Nat :=
  (m.key.length + m.content.length + 32) % 2 ^ 32

/-- The loop `for (const auto m : it.msgs)` of the batcher, with its three
variables `msgs`, `sum` (a `size_t`) and `outputs`; the result is `outputs` after
the loop and the final `outputs.push_back` of line 613. -/
def batch_msgs (tp : topic_partition) :
    List consumed_msg → List msg → Nat → List produce_output → List produce_output
  | [], msgs, _, outputs => outputs ++ [(tp, msgs)]
  | m :: rest, msgs, sum, outputs =>
    if msgs.length = 256 ∨ sum > 4 * 1024 * 1024 then
      batch_msgs tp rest ([] ++ [to_msg m]) ((0 + msg_addend m) % 2 ^ 64)
        (outputs ++ [(tp, msgs)])
    else
      batch_msgs tp rest (msgs ++ [to_msg m]) ((sum + msg_addend m) % 2 ^ 64) outputs

/-- The estimated payload of a batch of produced messages: for each message its
key length plus its content length plus 32. -/
def batch_estimate (b : List msg) : Nat :=
  (b.map fun m => m.key.length + m.content.length + 32).sum

/-! ## State of the mirror command (cli.cpp, lines 418-484) -/

/-- The per-partition context `struct partition_ctx`. -/
structure partition_ctx where
  id : Nat
  pending : Bool
  next : Nat
  deriving DecidableEq

/-- The local variables of the mirror command. The objects handed out by
`allocator.Alloc<partition_ctx>()` are the entries of `allocator`, and a
`partition_ctx *` is the position of its object there; `map` is the
`std::unordered_map<uint16_t, partition_ctx *>` as a list of (key, pointer). -/
structure MirrorState where
  tankClient : TankClient
  dest : TankClient
  reqId1 : Nat
  reqId2 : Nat
  srcPartitionsCnt : Nat
  allocator : List partition_ctx
  map : List (Nat × Nat)
  pending : List Nat
  inputs : List consume_input
  outputs : List produce_output
  deriving DecidableEq

/-- How a run of the command stands: `exit code` is a `return code` of `main`,
`abort` a failed `require`, `undefined` the use of a null `partition_ctx *`, and
`blocked` a discovery loop that still polls when the recorded poll rounds end. -/
inductive Halt
  | exit (code : Nat)
  | abort
  | undefined
  | blocked
  deriving DecidableEq

/-- The result of running a part of the command: still running in state `s`, or
halted, with the state reached at that point. -/
inductive Outcome
  | running (s : MirrorState)
  | halted (h : Halt) (s : MirrorState)
  deriving DecidableEq

namespace Outcome

/-- The state an outcome carries. -/
def state : Outcome → MirrorState
  | running s => s
  | halted _ s => s

/-- Sequencing: continue with `f` while the command is running. -/
def bind (o : Outcome) (f : MirrorState → Outcome) : Outcome :=
  match o with
  | running s => f s
  | halted h s => halted h s

end Outcome

/-- The object a `partition_ctx *` points to. Every pointer of `pending` and
`map` comes from the allocator, so the default is never read. -/
def deref (a : List partition_ctx) (p : Nat) : partition_ctx :=
  a.getD p { id := 0, pending := false, next := 0 }

/-- The assignment `p->pending = b`. -/
def set_pending (a : List partition_ctx) (p : Nat) (b : Bool) : List partition_ctx :=
  a.set p { deref a p with pending := b }

/-- The assignment `p->next = n`. -/
def set_next (a : List partition_ctx) (p : Nat) (n : Nat) : List partition_ctx :=
  a.set p { deref a p with next := n }

/-- The call `map.insert({id, p})`: an existing key keeps its value. -/
def map_insert (m : List (Nat × Nat)) (id p : Nat) : List (Nat × Nat) :=
  match m.lookup id with
  | some _ => m
  | none => m ++ [(id, p)]

/-! ## Discovery and the topology check (cli.cpp, lines 457-543) -/

/-- The loop `for (const auto p : v.watermarks)` of lines 521-530: one
`partition_ctx` per destination partition, its `uint16_t id` being
`pending.size()` and its `next` one past the last assigned sequence number. -/
def seed_partitions : List (Nat × Nat) → MirrorState → MirrorState
  | [], s => s
  | p :: ps, s =>
    let partition : partition_ctx :=
      { id := s.pending.length % 65536, pending := true, next := (p.2 + 1) % 2 ^ 64 }
    seed_partitions ps
      { s with allocator := s.allocator ++ [partition],
               pending := s.pending ++ [s.allocator.length],
               map := map_insert s.map partition.id s.allocator.length }

/-- The loop `while (tankClient.should_poll())` of lines 486-503; each element
of the list is what one `poll` round brings. `srcPartitionsCnt` is a `uint16_t`. -/
def discover_source : MirrorState → List (Option Arrival) → Outcome
  | s, [] =>
    if s.tankClient.should_poll then Outcome.halted Halt.blocked s else Outcome.running s
  | s, a :: rest =>
    if s.tankClient.should_poll then
      let s1 := { s with tankClient := s.tankClient.poll a }
      if s1.tankClient.faults ≠ [] then Outcome.halted (Halt.exit 1) s1
      else
        match s1.tankClient.discovered_partitions with
        | [] => discover_source s1 rest
        | v :: _ =>
          if v.clientReqId = s1.reqId1 then
            discover_source { s1 with srcPartitionsCnt := v.watermarks.length % 65536 } rest
          else Outcome.halted Halt.abort s1
    else Outcome.running s

/-- The loop `while (dest.should_poll())` of lines 505-532. -/
def discover_dest : MirrorState → List (Option Arrival) → Outcome
  | s, [] =>
    if s.dest.should_poll then Outcome.halted Halt.blocked s else Outcome.running s
  | s, a :: rest =>
    if s.dest.should_poll then
      let s1 := { s with dest := s.dest.poll a }
      if s1.dest.faults ≠ [] then Outcome.halted (Halt.exit 1) s1
      else
        match s1.dest.discovered_partitions with
        | [] => discover_dest s1 rest
        | v :: _ =>
          if v.clientReqId = s1.reqId2 then
            discover_dest (seed_partitions v.watermarks s1) rest
          else Outcome.halted Halt.abort s1
    else Outcome.running s

/-- The checks of lines 534-543: nothing discovered in the destination, or a
different number of partitions in the source. -/
def topology_check (s : MirrorState) : Outcome :=
  if s.pending.isEmpty then Outcome.halted (Halt.exit 1) s
  else if s.srcPartitionsCnt ≠ s.pending.length then Outcome.halted (Halt.exit 1) s
  else Outcome.running s

/-- What the network decides during discovery: whether each discovery request
can be scheduled, and what the poll rounds of each handle bring. -/
structure DiscoveryEnv where
  srcOk : Bool
  dstOk : Bool
  srcPolls : List (Option Arrival)
  dstPolls : List (Option Arrival)
  deriving DecidableEq

/-- The state in which the command starts: two client handles and empty containers. -/
def mirror_start : MirrorState :=
  { tankClient := TankClient.fresh, dest := TankClient.fresh, reqId1 := 0, reqId2 := 0,
    srcPartitionsCnt := 0, allocator := [], map := [], pending := [], inputs := [],
    outputs := [] }

/-- The command from `reqId1 = tankClient.discover_partitions(...)` (line 458)
up to the head of the main loop, `for (reqId1 = 0;;)` (line 550). -/
def mirror_discovery (topic : String) (env : DiscoveryEnv) : Outcome :=
  let s0 := mirror_start
  let r1 := s0.tankClient.discover topic env.srcOk
  let s1 := { s0 with tankClient := r1.2, reqId1 := r1.1 }
  if s1.reqId1 = 0 then Outcome.halted (Halt.exit 1) s1
  else
    let r2 := s1.dest.discover topic env.dstOk
    let s2 := { s1 with dest := r2.2, reqId2 := r2.1 }
    if s2.reqId2 = 0 then Outcome.halted (Halt.exit 1) s2
    else
      ((discover_source s2 env.srcPolls).bind fun s3 =>
        (discover_dest s3 env.dstPolls).bind fun s4 =>
          topology_check s4).bind fun s5 =>
            Outcome.running { s5 with reqId1 := 0 }

/-! ## The main loop (cli.cpp, lines 550-667) -/

/-- The body of `for (const auto it : pending)` of lines 555-562: the context is
marked not pending and its (partition, next) pair is appended to `inputs`. -/
def schedule_one (topic : String) (s : MirrorState) (it : Nat) : MirrorState :=
  { s with allocator := set_pending s.allocator it false,
           inputs := s.inputs ++
             [((topic, (deref s.allocator it).id),
               ((deref s.allocator it).next, 4 * 1024 * 1024))] }

/-- The condition of line 552: `!reqId1 && pending.size() && !dest.should_poll()`. -/
def schedule_cond (s : MirrorState) : Bool :=
  s.reqId1 == 0 && !s.pending.isEmpty && !s.dest.should_poll

/-- Lines 552-572: when the condition holds, one consume request for all pending
partitions is built and handed to the source client. `consumeOk` tells whether
the client can schedule it. -/
def schedule (topic : String) (s : MirrorState) (consumeOk : Bool) : Outcome :=
  if schedule_cond s then
    let s1 := s.pending.foldl (schedule_one topic) { s with inputs := [] }
    let r := s1.tankClient.consume s1.inputs 4000 0 consumeOk
    let s2 := { s1 with tankClient := r.2, reqId1 := r.1 }
    if s2.reqId1 = 0 then Outcome.halted (Halt.exit 1) s2
    else Outcome.running { s2 with pending := [] }
  else Outcome.running s

/-- The body of `for (const auto &it : tankClient.consumed())`, lines 590-626,
repeated over the consumed entries. `map[it.partition]` of an unknown partition
is a null pointer, and its use at line 618 or 625 is undefined. -/
def on_consumed (topic : String) : List partition_content → MirrorState → Outcome
  | [], s => Outcome.running s
  | it :: rest, s =>
    match s.map.lookup it.partition with
    | none =>
      if it.msgs.length ≠ 0 then
        Outcome.halted Halt.undefined
          { s with outputs := batch_msgs (topic, it.partition) it.msgs [] 0 s.outputs }
      else Outcome.halted Halt.undefined s
    | some partition =>
      let s1 :=
        if it.msgs.length ≠ 0 then
          { s with outputs := batch_msgs (topic, it.partition) it.msgs [] 0 s.outputs }
        else if !(deref s.allocator partition).pending then
          { s with allocator := set_pending s.allocator partition true,
                   pending := s.pending ++ [partition] }
        else s
      on_consumed topic rest
        { s1 with allocator := set_next s1.allocator partition it.next.seqNum }

/-- Lines 574-641: poll the source; any fault ends the command; a consume
response is turned into `outputs`, which are produced to the destination when
there are any, and `reqId1` is reset. -/
def source_phase (topic : String) (s : MirrorState) (arrived : Option Arrival)
    (produceOk : Bool) : Outcome :=
  if s.tankClient.should_poll then
    let s1 := { s with tankClient := s.tankClient.poll arrived }
    if s1.tankClient.faults.length ≠ 0 then Outcome.halted (Halt.exit 1) s1
    else if s1.tankClient.consumed.length ≠ 0 then
      (on_consumed topic s1.tankClient.consumed { s1 with outputs := [] }).bind fun s2 =>
        if s2.outputs.length ≠ 0 then
          let r := s2.dest.produce s2.outputs produceOk
          let s3 := { s2 with dest := r.2, reqId2 := r.1 }
          if s3.reqId2 = 0 then Outcome.halted (Halt.exit 1) s3
          else Outcome.running { s3 with reqId1 := 0 }
        else Outcome.running { s2 with reqId1 := 0 }
    else Outcome.running s1
  else Outcome.running s

/-- The body of `for (const auto &it : dest.produce_acks())`, lines 655-665,
repeated over the acknowledgments. -/
def on_acks : List produce_ack → MirrorState → Outcome
  | [], s => Outcome.running s
  | it :: rest, s =>
    match s.map.lookup it.partition with
    | none => Outcome.halted Halt.undefined s
    | some p =>
      if !(deref s.allocator p).pending then
        on_acks rest
          { s with allocator := set_pending s.allocator p true,
                   pending := s.pending ++ [p] }
      else on_acks rest s

/-- Lines 643-666: poll the destination; any fault ends the command; every
acknowledged partition is made pending again. -/
def dest_phase (s : MirrorState) (arrived : Option Arrival) : Outcome :=
  if s.dest.should_poll then
    let s1 := { s with dest := s.dest.poll arrived }
    if s1.dest.faults.length ≠ 0 then Outcome.halted (Halt.exit 1) s1
    else on_acks s1.dest.produce_acks s1
  else Outcome.running s

/-- What the network decides during one iteration of the main loop. -/
structure TickEnv where
  consumeOk : Bool
  srcArrived : Option Arrival
  produceOk : Bool
  dstArrived : Option Arrival
  deriving DecidableEq

/-- One iteration of the main loop `for (reqId1 = 0;;)`. -/
def tick (topic : String) (s : MirrorState) (e : TickEnv) : Outcome :=
  ((schedule topic s e.consumeOk).bind fun s1 =>
    source_phase topic s1 e.srcArrived e.produceOk).bind fun s2 =>
      dest_phase s2 e.dstArrived

/-- The main loop, run for as many iterations as `es` describes. -/
def mirror_loop (topic : String) : MirrorState → List TickEnv → Outcome
  | s, [] => Outcome.running s
  | s, e :: es => (tick topic s e).bind fun s1 => mirror_loop topic s1 es

/-- What the network decides during a run of the command. -/
structure MirrorEnv where
  discovery : DiscoveryEnv
  ticks : List TickEnv
  deriving DecidableEq

/-- The mirror command: discovery, the topology check, then the main loop. -/
def mirror (topic : String) (env : MirrorEnv) : Outcome :=
  (mirror_discovery topic env.discovery).bind fun s => mirror_loop topic s env.ticks

/-! ## Vocabulary of the statements -/

/-- The request is a consume request. -/
def Request.is_consume : Request → Bool
  | Request.consume _ _ _ => true
  | _ => false

/-- The request is a produce request. -/
def Request.is_produce : Request → Bool
  | Request.produce _ => true
  | _ => false

/-- No consume request and no produce request was handed to either client. -/
def no_transfer_calls (s : MirrorState) : Prop :=
  ∀ r ∈ s.tankClient.calls ++ s.dest.calls, r.is_consume = false ∧ r.is_produce = false

/-- A discovery answer without faults that reports the given watermarks. -/
def discovery_answer (w : List (Nat × Nat)) : Arrival :=
  { faults := [], watermarks := some w, consumed := [], produce_acks := [] }

/-- Poll rounds of a discovery loop: `idle` rounds in which nothing arrives, then
the round that brings the answer `a`. -/
def answered_after (idle : Nat) (a : Arrival) : List (Option Arrival) :=
  List.replicate idle none ++ [some a]

/-- The result queues of a client handle are empty. -/
def TankClient.queues_empty (c : TankClient) : Prop :=
  c.faults = [] ∧ c.discovered_partitions = [] ∧ c.consumed = [] ∧ c.produce_acks = []

/-- The state in which the discovery loop of the source ends once the answer `a`
has arrived. -/
def source_answered (s : MirrorState) (a : Arrival) : Outcome :=
  let s1 := { s with tankClient := s.tankClient.poll (some a) }
  if a.faults ≠ [] then Outcome.halted (Halt.exit 1) s1
  else
    match a.watermarks with
    | none => Outcome.running s1
    | some w => Outcome.running { s1 with srcPartitionsCnt := w.length % 65536 }

/-- The state in which the discovery loop of the destination ends once the
answer `a` has arrived. -/
def dest_answered (s : MirrorState) (a : Arrival) : Outcome :=
  let s1 := { s with dest := s.dest.poll (some a) }
  if a.faults ≠ [] then Outcome.halted (Halt.exit 1) s1
  else
    match a.watermarks with
    | none => Outcome.running s1
    | some w => Outcome.running (seed_partitions w s1)

/-- The discovery environment in which both requests are scheduled and each
handle gets its answer after some idle poll rounds. -/
def answered_env (idle1 idle2 : Nat) (a1 a2 : Arrival) : DiscoveryEnv :=
  { srcOk := true, dstOk := true, srcPolls := answered_after idle1 a1,
    dstPolls := answered_after idle2 a2 }

/-- The state after both discovery requests were handed over. -/
def requested_state (topic : String) : MirrorState :=
  { mirror_start with
    tankClient := (TankClient.fresh.discover topic true).2,
    reqId1 := 1,
    dest := (TankClient.fresh.discover topic true).2,
    reqId2 := 1 }

/-- An iteration in which requests can be scheduled and no answer arrives. -/
def idle_tick : TickEnv :=
  { consumeOk := true, srcArrived := none, produceOk := true, dstArrived := none }

/-- The bookkeeping that holds between the iterations of the main loop: each
handle has at most one request outstanding, not both at once, and `reqId1` is 0
only when the source has none. -/
def loop_inv (s : MirrorState) : Prop :=
  s.tankClient.outstanding.length ≤ 1 ∧ s.dest.outstanding.length ≤ 1 ∧
    (s.tankClient.outstanding = [] ∨ s.dest.outstanding = []) ∧
    (s.reqId1 = 0 → s.tankClient.outstanding = [])

/-- A consume response for two partitions: one message for partition 0, none
for partition 1. -/
def sample_consumed : Arrival :=
  { faults := [], watermarks := none,
    consumed :=
      [{ partition := 0,
         msgs := [{ seqNum := 6, ts := 1000, key := [107], content := [1, 2, 3] }],
         next := { seqNum := 7, minFetchSize := 0 } },
       { partition := 1, msgs := [], next := { seqNum := 11, minFetchSize := 0 } }],
    produce_acks := [] }

/-- A run with two partitions: discovery, an iteration that schedules the first
consume request, and an iteration in which its response arrives and is forwarded. -/
def sample_env : MirrorEnv :=
  { discovery := answered_env 0 1 (discovery_answer [(0, 40), (2, 41)])
      (discovery_answer [(0, 5), (0, 10)]),
    ticks := [idle_tick,
      { consumeOk := true, srcArrived := some sample_consumed, produceOk := true,
        dstArrived := none }] }

/-- The batches the loop of `batch_msgs` pushes, in order, as a list of their own:
the loop with `outputs` left out. -/
def batches_of : List consumed_msg → List msg → Nat → List (List msg)
  | [], msgs, _ => [msgs]
  | m :: rest, msgs, sum =>
    if msgs.length = 256 ∨ sum > 4 * 1024 * 1024 then
      msgs :: batches_of rest ([] ++ [to_msg m]) ((0 + msg_addend m) % 2 ^ 64)
    else
      batches_of rest (msgs ++ [to_msg m]) ((sum + msg_addend m) % 2 ^ 64)

/-- The sum of the estimates of consumed messages. -/
def total_estimate (l : List consumed_msg) : Nat :=
  (l.map msg_estimate).sum

/-- A content of 3 MiB. -/
def big_content : List Nat :=
  List.replicate (3 * 1024 * 1024) 0

/-- Two consumed messages of 3 MiB each. -/
def two_big_msgs : List consumed_msg :=
  [{ seqNum := 0, ts := 0, key := [], content := big_content },
   { seqNum := 1, ts := 0, key := [], content := big_content }]

/-- Three hundred consumed messages of one byte each, told apart by their
sequence numbers. -/
def small_msgs_300 : List consumed_msg :=
  (List.range 300).map fun i => { seqNum := i, ts := 0, key := [], content := [i % 256] }

/-! ## Vocabulary of the statements about the cursors -/

/-- The block of lines 618-622 and of lines 660-664: a context that is not
pending is marked pending and pushed to the back of `pending`. -/
def enqueue (s : MirrorState) (p : Nat) : MirrorState :=
  if !(deref s.allocator p).pending then
    { s with allocator := set_pending s.allocator p true, pending := s.pending ++ [p] }
  else s

/-- The shape the cursors have in the main loop: `map` takes partition id i to
the i-th context, whose id is i; a context is pending exactly when it is in the
`pending` list, and it is there at most once. -/
def cursor_inv (s : MirrorState) : Prop :=
  s.map = (List.range s.allocator.length).map (fun i => (i, i)) ∧
    (∀ i, i < s.allocator.length → (deref s.allocator i).id = i) ∧
    (∀ p, (deref s.allocator p).pending = true ↔ p ∈ s.pending) ∧
    s.pending.Nodup

/-- The next sequence number the cursor of partition `P` holds. -/
def next_of (s : MirrorState) (P : Nat) : Nat :=
  (deref s.allocator P).next

/-- The cursor of partition `P` is ready. -/
def ready (s : MirrorState) (P : Nat) : Bool :=
  (deref s.allocator P).pending

/-- The consume response brought by a poll round has an entry without messages
for partition `P`. -/
def empty_result_for (arrived : Option Arrival) (P : Nat) : Prop :=
  ∃ a, arrived = some a ∧ ∃ it ∈ a.consumed, it.partition = P ∧ it.msgs = []

/-- The poll round brings a produce acknowledgment for partition `P`. -/
def ack_for (arrived : Option Arrival) (P : Nat) : Prop :=
  ∃ a, arrived = some a ∧ ∃ it ∈ a.produce_acks, it.partition = P

/-- A consume response has at most one entry per partition, and each entry
reports a next sequence number that is not below the one the cursor holds. -/
def reports_ahead (s : MirrorState) (l : List partition_content) : Prop :=
  (l.map fun it => it.partition).Nodup ∧
    ∀ it ∈ l, next_of s it.partition ≤ it.next.seqNum

/-- The mirror command as `main` runs it: `retry` is the flag the option `-r`
sets (line 82); the block of the mirror command never reads it. -/
def mirror_cmd (_retry : Bool) (topic : String) (env : MirrorEnv) : Outcome :=
  mirror topic env

/-- A consume response for partition 0 without messages that reports 3 as the
next sequence number. -/
def stale_consumed : Arrival :=
  { faults := [], watermarks := none,
    consumed := [{ partition := 0, msgs := [], next := { seqNum := 3, minFetchSize := 0 } }],
    produce_acks := [] }

/-- Discovery of one partition whose last assigned sequence number in the
destination is 5. -/
def one_partition_discovery : DiscoveryEnv :=
  answered_env 0 0 (discovery_answer [(0, 40)]) (discovery_answer [(0, 5)])

/-- A run with one partition in which the first consume request is scheduled. -/
def stale_env_before : MirrorEnv :=
  { discovery := one_partition_discovery, ticks := [idle_tick] }

/-- The same run, one iteration further: the response `stale_consumed` arrives. -/
def stale_env_after : MirrorEnv :=
  { discovery := one_partition_discovery,
    ticks := [idle_tick,
      { consumeOk := true, srcArrived := some stale_consumed, produceOk := true,
        dstArrived := none }] }

/-- A poll round that reports one Network fault. -/
def network_fault : Arrival :=
  { faults := [{ type := FaultType.Network, topic := "events", firstAvailSeqNum := 0,
                 highWaterMark := 0 }],
    watermarks := none, consumed := [], produce_acks := [] }

/-- The last poll of neither handle reported a fault. -/
def no_fault_reported (s : MirrorState) : Prop :=
  s.tankClient.faults = [] ∧ s.dest.faults = []

/-! ## The discover_partitions command (cli.cpp, lines 671-703) -/

/-- The loop `while (tankClient.should_poll())` of lines 681-700, then the
`return 0` of line 702. Faults are handed to `consider_fault`, which prints, and
the loop goes on; each discovery record must carry the id of the request. -/
def discover_partitions_loop (reqId : Nat) :
    TankClient → List (Option Arrival) → Halt × TankClient
  | c, [] => if c.should_poll then (Halt.blocked, c) else (Halt.exit 0, c)
  | c, a :: rest =>
    if c.should_poll then
      if ((c.poll a).discovered_partitions.all fun it => it.clientReqId == reqId) then
        discover_partitions_loop reqId (c.poll a) rest
      else (Halt.abort, c.poll a)
    else (Halt.exit 0, c)

/-- The discover_partitions command: the request (line 673), then the loop. -/
def discover_partitions_cmd (topic : String) (ok : Bool) (polls : List (Option Arrival)) :
    Halt × TankClient :=
  if (TankClient.fresh.discover topic ok).1 = 0 then
    (Halt.exit 1, (TankClient.fresh.discover topic ok).2)
  else
    discover_partitions_loop (TankClient.fresh.discover topic ok).1
      (TankClient.fresh.discover topic ok).2 polls

/-! ## The consume command (cli.cpp, lines 215-415) -/

/-- The test `strwlen32_t::EqNoCase` of the Switch library (text.h, not among the
sources): equality up to the case of letters. -/
def EqNoCase (a b : String) : Bool :=
  a.data.map Char.toLower == b.data.map Char.toLower

/-- The test `strwlen32_t::IsDigits` of the Switch library (text.h, not among the
sources): a non-empty string of decimal digits. -/
def IsDigits (a : String) : Bool :=
  !a.data.isEmpty && a.data.all Char.isDigit

/-- The conversion `strwlen32_t::AsUint64` of the Switch library (text.h, not
among the sources): the decimal value of a string of digits, in a `uint64_t`. -/
def AsUint64 (a : String) : Nat :=
  (a.data.foldl (fun n ch => n * 10 + (ch.toNat - 48)) 0) % 2 ^ 64

/-- The value `UINT64_MAX`. -/
def UINT64_MAX : Nat := 2 ^ 64 - 1

/-- Lines 317-329: the argument `from` of the consume command gives the first
sequence number to ask for; `none` is the `return 1` of line 326. -/
def parse_from (frm : String) : Option Nat :=
  if EqNoCase frm "beginning" || frm == "first" then some 0
  else if EqNoCase frm "end" || EqNoCase frm "eof" then some UINT64_MAX
  else if !IsDigits frm then none
  else some (AsUint64 frm)

/-- What the options and arguments of the consume command fix: the flag `retry`
of `-r`, `statsOnly` of `-S`, the test `timeRange.Contains` of `-T`, and the
topic and partition. -/
structure ConsumeConfig where
  retry : Bool
  statsOnly : Bool
  inRange : Nat → Bool
  topicPartition : topic_partition

/-- The variables of the consume loop; `stdout` collects what `write` put out and
`slept` the milliseconds spent in `Timings::Milliseconds::Sleep`. -/
structure ConsumeState where
  tankClient : TankClient
  next : Nat
  minFetchSize : Nat
  pendingResp : Nat
  stdout : List Nat
  slept : Nat
  deriving DecidableEq

/-- The outcome of a part of the consume command: still running, or `main`
returned `code`. -/
inductive ConsumeOutcome
  | running (s : ConsumeState)
  | exited (code : Nat) (s : ConsumeState)
  deriving DecidableEq

/-- The state an outcome of the consume command carries. -/
def ConsumeOutcome.state : ConsumeOutcome → ConsumeState
  | ConsumeOutcome.running s => s
  | ConsumeOutcome.exited _ s => s

/-- What `tankClient.poll(1e3)` does in one iteration: it throws, or it returns
after a round that may have brought an answer. -/
inductive ConsumeRound
  | thrown
  | polled (arrived : Option Arrival)
  deriving DecidableEq

/-- What the outside decides during one iteration of the consume loop: whether
the request can be scheduled, what the poll does, whether `write` succeeds. -/
structure ConsumeTick where
  consumeOk : Bool
  round : ConsumeRound
  writeOk : Bool
  deriving DecidableEq

/-- The value `defaultMinFetchSize` of line 226. -/
def defaultMinFetchSize : Nat := 128 * 1024 * 1024

/-- The state in which the consume loop starts (lines 217-231), with `next` as
`parse_from` gave it. -/
def consume_start (next : Nat) : ConsumeState :=
  { tankClient := TankClient.fresh, next := next, minFetchSize := defaultMinFetchSize,
    pendingResp := 0, stdout := [], slept := 0 }

/-- Lines 334-346: with no request pending, one is issued from `next`. -/
def consume_request (cfg : ConsumeConfig) (s : ConsumeState) (ok : Bool) : ConsumeOutcome :=
  if s.pendingResp = 0 then
    if (s.tankClient.consume [(cfg.topicPartition, (s.next, s.minFetchSize))] 8000 0 ok).1
        = 0 then
      ConsumeOutcome.exited 1
        { s with
          tankClient :=
            (s.tankClient.consume [(cfg.topicPartition, (s.next, s.minFetchSize))]
              8000 0 ok).2,
          pendingResp := 0 }
    else
      ConsumeOutcome.running
        { s with
          tankClient :=
            (s.tankClient.consume [(cfg.topicPartition, (s.next, s.minFetchSize))]
              8000 0 ok).2,
          pendingResp :=
            (s.tankClient.consume [(cfg.topicPartition, (s.next, s.minFetchSize))]
              8000 0 ok).1 }
  else ConsumeOutcome.running s

/-- The loop `for (const auto &it : tankClient.faults())` of lines 357-367. -/
def consume_faults (retry : Bool) : List fault → ConsumeState → ConsumeOutcome
  | [], s => ConsumeOutcome.running s
  | it :: rest, s =>
    if retry && it.type == FaultType.Network then
      consume_faults retry rest { s with slept := s.slept + 400, pendingResp := 0 }
    else ConsumeOutcome.exited 1 s

/-- The loop `for (const auto &it : tankClient.consumed())` of lines 369-413:
unless only statistics are wanted, the contents of the messages in the time
range go to the standard output, each followed by a new line, and a failing
`write` ends the command; then the loop variables are taken from `it.next`. -/
def consume_entries (cfg : ConsumeConfig) (writeOk : Bool) :
    List partition_content → ConsumeState → ConsumeOutcome
  | [], s => ConsumeOutcome.running s
  | it :: rest, s =>
    if cfg.statsOnly then
      consume_entries cfg writeOk rest
        { s with minFetchSize := max it.next.minFetchSize defaultMinFetchSize,
                 next := it.next.seqNum, pendingResp := 0 }
    else if ((it.msgs.filter fun m => cfg.inRange m.ts).flatMap
        fun m => m.content ++ [10]).length ≠ 0 then
      if writeOk then
        consume_entries cfg writeOk rest
          { s with stdout := s.stdout ++
                     ((it.msgs.filter fun m => cfg.inRange m.ts).flatMap
                       fun m => m.content ++ [10]),
                   minFetchSize := max it.next.minFetchSize defaultMinFetchSize,
                   next := it.next.seqNum, pendingResp := 0 }
      else ConsumeOutcome.exited 1 s
    else
      consume_entries cfg writeOk rest
        { s with minFetchSize := max it.next.minFetchSize defaultMinFetchSize,
                 next := it.next.seqNum, pendingResp := 0 }

/-- One iteration of the loop `for (;;)` of lines 332-414. -/
def consume_tick (cfg : ConsumeConfig) (s : ConsumeState) (e : ConsumeTick) :
    ConsumeOutcome :=
  match consume_request cfg s e.consumeOk with
  | ConsumeOutcome.exited code s1 => ConsumeOutcome.exited code s1
  | ConsumeOutcome.running s1 =>
    match e.round with
    | ConsumeRound.thrown => ConsumeOutcome.running s1
    | ConsumeRound.polled arrived =>
      match consume_faults cfg.retry (s1.tankClient.poll arrived).faults
          { s1 with tankClient := s1.tankClient.poll arrived } with
      | ConsumeOutcome.exited code s2 => ConsumeOutcome.exited code s2
      | ConsumeOutcome.running s2 =>
        consume_entries cfg e.writeOk s2.tankClient.consumed s2

/-! ## The produce command with messages on the command line
(cli.cpp, lines 704-1008) -/

/-- What the options of the produce command fix on the path that takes the
messages from the command line (no `-f` or `-F`): the flag `retry`, the
`bundleSize` of `-s` (1 when the option is absent) and the topic and partition. -/
structure ProduceConfig where
  retry : Bool
  bundleSize : Nat
  topicPartition : topic_partition

/-- The variables of the produce command; `slept` collects the milliseconds spent
in `Timings::Milliseconds::Sleep`. The set `pendingResps` is left out: the
command inserts into it, erases from it and clears it, and never reads it. -/
structure ProduceState where
  tankClient : TankClient
  msgs : List msg
  pendingAckAcnt : Nat
  baseSeqNum : Nat
  slept : Nat
  deriving DecidableEq

/-- How a lambda of the produce command ends: it returns `true`, it returns
`false`, or it still polls when the recorded poll rounds end. -/
inductive Flow
  | ok
  | failed
  | blocked
  deriving DecidableEq

/-- The value `pollInterval` of line 758. -/
def pollInterval : Nat := 20

/-- The state in which the produce command reaches line 755, with `baseSeqNum` as
the option `-S` gave it (0 when absent). -/
def produce_start (baseSeqNum : Nat) : ProduceState :=
  { tankClient := TankClient.fresh, msgs := [], pendingAckAcnt := 0,
    baseSeqNum := baseSeqNum, slept := 0 }

/-- The loop over `tankClient.faults()` in the lambda `poll` (lines 765-775);
the result is `false` where the lambda returns `false`. -/
def produce_faults (retry : Bool) : List fault → ProduceState → Bool × ProduceState
  | [], s => (true, s)
  | it :: rest, s =>
    if retry && it.type == FaultType.Network then
      produce_faults retry rest { s with slept := s.slept + 400 }
    else (false, s)

/-- The lambda `poll` of lines 762-780. -/
def produce_poll (retry : Bool) (s : ProduceState) (arrived : Option Arrival) :
    Bool × ProduceState :=
  produce_faults retry (s.tankClient.poll arrived).faults
    { s with tankClient := s.tankClient.poll arrived }

/-- The loop `while (tankClient.should_poll()) { if (!poll()) return false; }`,
over the poll rounds still to come; the rounds not used are returned. -/
def produce_wait (retry : Bool) :
    List (Option Arrival) → ProduceState → Flow × ProduceState × List (Option Arrival)
  | [], s => if s.tankClient.should_poll then (Flow.blocked, s, []) else (Flow.ok, s, [])
  | a :: rest, s =>
    if s.tankClient.should_poll then
      if (produce_poll retry s a).1 then produce_wait retry rest (produce_poll retry s a).2
      else (Flow.failed, (produce_poll retry s a).2, rest)
    else (Flow.ok, s, a :: rest)

/-- The request of the lambda `publish_msgs` (lines 787-795): with a base
sequence number `produce_with_base`, else `produce`, of the messages gathered. -/
def publish_request (cfg : ProduceConfig) (s : ProduceState) (ok : Bool) :
    Nat × TankClient :=
  if s.baseSeqNum ≠ 0 then
    s.tankClient.produce_with_base [(cfg.topicPartition, (s.baseSeqNum, s.msgs))] ok
  else s.tankClient.produce [(cfg.topicPartition, s.msgs)] ok

/-- The lambda `publish_msgs` of lines 781-816; `schedOk` tells, from the number
of requests handed to the client so far, whether the next one can be scheduled. -/
def publish_msgs (cfg : ProduceConfig) (schedOk : Nat → Bool)
    (polls : List (Option Arrival)) (s : ProduceState) :
    Flow × ProduceState × List (Option Arrival) :=
  if (publish_request cfg s (schedOk s.tankClient.calls.length)).1 = 0 then
    (Flow.failed,
      { s with tankClient := (publish_request cfg s (schedOk s.tankClient.calls.length)).2,
               baseSeqNum := 0 },
      polls)
  else if (s.pendingAckAcnt + s.msgs.length) % 2 ^ 64 ≥ pollInterval then
    match produce_wait cfg.retry polls
        { s with tankClient := (publish_request cfg s (schedOk s.tankClient.calls.length)).2,
                 baseSeqNum := 0,
                 pendingAckAcnt := (s.pendingAckAcnt + s.msgs.length) % 2 ^ 64 } with
    | (Flow.ok, s1, rest) => (Flow.ok, { s1 with pendingAckAcnt := 0 }, rest)
    | r => r
  else
    (Flow.ok,
      { s with tankClient := (publish_request cfg s (schedOk s.tankClient.calls.length)).2,
               baseSeqNum := 0,
               pendingAckAcnt := (s.pendingAckAcnt + s.msgs.length) % 2 ^ 64 },
      polls)

/-- The message pushed for one argument (line 984):
`{strwlen32_t(argv[i]), Timings::Milliseconds::SysTime(), {}}`. -/
def arg_msg (arg : List Nat × Nat) : msg :=
  { content := arg.1, ts := arg.2, key := [] }

/-- The loop `for (uint32_t i{0}; i != argc; ++i)` of lines 982-992 over the
arguments, each with the reading of `SysTime()` taken for it. -/
def produce_args (cfg : ProduceConfig) (schedOk : Nat → Bool) :
    List (List Nat × Nat) → List (Option Arrival) → ProduceState →
      Flow × ProduceState × List (Option Arrival)
  | [], polls, s => (Flow.ok, s, polls)
  | arg :: rest, polls, s =>
    if (s.msgs ++ [arg_msg arg]).length
        = cfg.bundleSize then
      match publish_msgs cfg schedOk polls
          { s with msgs := s.msgs ++ [arg_msg arg] } with
      | (Flow.ok, s1, polls1) => produce_args cfg schedOk rest polls1 { s1 with msgs := [] }
      | r => r
    else
      produce_args cfg schedOk rest polls
        { s with msgs := s.msgs ++ [arg_msg arg] }

/-- Lines 994-1000: what is left in `msgs` after the loop is published. -/
def produce_rest (cfg : ProduceConfig) (schedOk : Nat → Bool)
    (polls : List (Option Arrival)) (s : ProduceState) :
    Flow × ProduceState × List (Option Arrival) :=
  if s.msgs.length ≠ 0 then
    match publish_msgs cfg schedOk polls s with
    | (Flow.ok, s1, polls1) => (Flow.ok, { s1 with msgs := [] }, polls1)
    | r => r
  else (Flow.ok, s, polls)

/-- The end of a part of the produce command that is left with `return false`. -/
def produce_halt : Flow → Halt
  | Flow.ok => Halt.exit 0
  | Flow.failed => Halt.exit 0
  | Flow.blocked => Halt.blocked

/-- The produce command with its messages on the command line: a bundle size of
0 is refused (lines 721-726), as is an empty list of messages (lines 975-978);
then lines 980-1006, where every `return false` is a `return 0` of `main`, and
the `return EX_OK` of line 1216. -/
def produce_inline (cfg : ProduceConfig) (baseSeqNum : Nat) (schedOk : Nat → Bool)
    (args : List (List Nat × Nat)) (polls : List (Option Arrival)) :
    Halt × ProduceState :=
  if cfg.bundleSize = 0 then (Halt.exit 1, produce_start baseSeqNum)
  else if args.length = 0 then (Halt.exit 1, produce_start baseSeqNum)
  else
    match produce_args cfg schedOk args polls (produce_start baseSeqNum) with
    | (Flow.ok, s1, polls1) =>
      match produce_rest cfg schedOk polls1 s1 with
      | (Flow.ok, s2, polls2) =>
        (produce_halt (produce_wait cfg.retry polls2 s2).1,
          (produce_wait cfg.retry polls2 s2).2.1)
      | (r, s2, _) => (produce_halt r, s2)
    | (r, s1, _) => (produce_halt r, s1)

/-- The messages a request carries to the broker. -/
def Request.messages : Request → List msg
  | Request.produce outputs => outputs.flatMap fun o => o.2
  | Request.produce_with_base outputs => outputs.flatMap fun o => o.2.2
  | _ => []

/-- The partitions a request to produce names. -/
def Request.produce_partitions : Request → List topic_partition
  | Request.produce outputs => outputs.map fun o => o.1
  | Request.produce_with_base outputs => outputs.map fun o => o.1
  | _ => []

/-! ## The benchmark command (cli.cpp, lines 1009-1209) -/

/-- The loop `while (tankClient.should_poll())` of the benchmark `p2c`
(lines 1107-1124): a fault ends it with `return false`, a non-empty `consumed()`
with `return 0`; when the loop ends the command reaches `return EX_OK`. -/
def benchmark_p2c_loop : TankClient → List (Option Arrival) → Halt × TankClient
  | c, [] => if c.should_poll then (Halt.blocked, c) else (Halt.exit 0, c)
  | c, a :: rest =>
    if c.should_poll then
      if (c.poll a).faults.length ≠ 0 then (Halt.exit 0, c.poll a)
      else if (c.poll a).consumed.length ≠ 0 then (Halt.exit 0, c.poll a)
      else benchmark_p2c_loop (c.poll a) rest
    else (Halt.exit 0, c)

/-- The messages of the benchmark: `cnt` messages of `size` zero bytes. -/
def benchmark_msgs (size cnt : Nat) : List msg :=
  List.replicate cnt { content := List.replicate size 0, ts := 0, key := [] }

/-- The benchmark `p2c` (lines 1082-1124): a consume request at the end of the
partition, a produce request, then the loop. -/
def benchmark_p2c (tp : topic_partition) (size cnt : Nat) (consumeOk produceOk : Bool)
    (polls : List (Option Arrival)) : Halt × TankClient :=
  if (TankClient.fresh.consume [(tp, (UINT64_MAX, 10000))] 10000 0 consumeOk).1 = 0 then
    (Halt.exit 1, (TankClient.fresh.consume [(tp, (UINT64_MAX, 10000))] 10000 0 consumeOk).2)
  else if ((TankClient.fresh.consume [(tp, (UINT64_MAX, 10000))] 10000 0 consumeOk).2.produce
      [(tp, benchmark_msgs size cnt)] produceOk).1 = 0 then
    (Halt.exit 1,
      ((TankClient.fresh.consume [(tp, (UINT64_MAX, 10000))] 10000 0 consumeOk).2.produce
        [(tp, benchmark_msgs size cnt)] produceOk).2)
  else
    benchmark_p2c_loop
      ((TankClient.fresh.consume [(tp, (UINT64_MAX, 10000))] 10000 0 consumeOk).2.produce
        [(tp, benchmark_msgs size cnt)] produceOk).2 polls

/-- The loop of the benchmark `p2t` (lines 1185-1202), which waits for a
non-empty `produce_acks()`. -/
def benchmark_p2t_loop : TankClient → List (Option Arrival) → Halt × TankClient
  | c, [] => if c.should_poll then (Halt.blocked, c) else (Halt.exit 0, c)
  | c, a :: rest =>
    if c.should_poll then
      if (c.poll a).faults.length ≠ 0 then (Halt.exit 0, c.poll a)
      else if (c.poll a).produce_acks.length ≠ 0 then (Halt.exit 0, c.poll a)
      else benchmark_p2t_loop (c.poll a) rest
    else (Halt.exit 0, c)

/-- The benchmark `p2t` (lines 1126-1203): a produce request, then the loop. -/
def benchmark_p2t (tp : topic_partition) (size cnt : Nat) (produceOk : Bool)
    (polls : List (Option Arrival)) : Halt × TankClient :=
  if (TankClient.fresh.produce [(tp, benchmark_msgs size cnt)] produceOk).1 = 0 then
    (Halt.exit 1, (TankClient.fresh.produce [(tp, benchmark_msgs size cnt)] produceOk).2)
  else
    benchmark_p2t_loop
      (TankClient.fresh.produce [(tp, benchmark_msgs size cnt)] produceOk).2 polls

/-! ## Sample inputs for the commands -/

/-- A poll round that reports one UnknownTopic fault. -/
def unknown_topic_fault : Arrival :=
  { faults := [{ type := FaultType.UnknownTopic, topic := "events", firstAvailSeqNum := 0,
                 highWaterMark := 0 }],
    watermarks := none, consumed := [], produce_acks := [] }

/-- The consume command on partition 0 of the topic `events`, printing every
message, with the option `-r` as given. -/
def sample_consume_config (retry : Bool) : ConsumeConfig :=
  { retry := retry, statsOnly := false, inRange := fun _ => true,
    topicPartition := ("events", 0) }

/-- The produce command on partition 0 of the topic `events` with bundles of
`bundleSize` messages, without the option `-r`. -/
def sample_produce_config (bundleSize : Nat) : ProduceConfig :=
  { retry := false, bundleSize := bundleSize, topicPartition := ("events", 0) }

/-- An iteration of the consume loop in which the request is scheduled and the
poll brings `a`. -/
def consume_round (a : Arrival) : ConsumeTick :=
  { consumeOk := true, round := ConsumeRound.polled (some a), writeOk := true }

/-- The consume command started from sequence number 5 with the option `-r`,
after its first request was scheduled. -/
def consume_pending : ConsumeState :=
  (consume_request (sample_consume_config true) (consume_start 5) true).state

/-! ## Vocabulary of the statements about the produce command -/

/-- The message lists the loop over the arguments and the lines after it hand
to `publish_msgs`, in order, when every call returns `true`: the loop of
`produce_args` and `produce_rest` followed on the messages alone, from the
messages already gathered. -/
def inline_requests (b : Nat) : List msg → List msg → List (List msg)
  | [], acc => if acc.length ≠ 0 then [acc] else []
  | m :: rest, acc =>
    if (acc ++ [m]).length = b then (acc ++ [m]) :: inline_requests b rest []
    else inline_requests b rest (acc ++ [m])

/-- A poll round that reports no fault: it times out, or it brings an answer
without faults. -/
def no_fault : Option Arrival → Bool
  | some a => a.faults.isEmpty
  | none => true

/-- The number of poll rounds that bring an answer. -/
def answer_count (polls : List (Option Arrival)) : Nat :=
  (polls.filter Option.isSome).length

/-- An acknowledgment of partition 0 without faults. -/
def ack_arrival : Arrival :=
  { faults := [], watermarks := none, consumed := [], produce_acks := [{ partition := 0 }] }

/-- Five poll rounds: two time out, three bring an acknowledgment. -/
def sample_polls : List (Option Arrival) :=
  [none, some ack_arrival, some ack_arrival, none, some ack_arrival]

/-- Five arguments of one byte each, with the clock readings taken for them. -/
def five_args : List (List Nat × Nat) :=
  [([97], 1000), ([98], 1000), ([99], 1001), ([100], 1001), ([101], 1002)]

/-! ## Vocabulary of the statement about tracked partitions -/

/-- The broker model: the answer `a` has, for the last request handed to the
client `c`, an entry for every partition of a consume request and an
acknowledgment for every partition of a produce request. -/
def answers (c : TankClient) (a : Arrival) : Bool :=
  match c.calls.getLast? with
  | some (Request.consume inputs _ _) =>
    inputs.all fun inp => a.consumed.any fun it => it.partition == inp.1.2
  | some (Request.produce outputs) =>
    outputs.all fun out => a.produce_acks.any fun ack => ack.partition == out.1.2
  | _ => true

/-- The state in which an iteration polls the destination: after lines 552-641. -/
def before_dest_phase (topic : String) (s : MirrorState) (e : TickEnv) : MirrorState :=
  ((schedule topic s e.consumeOk).bind fun s1 =>
    source_phase topic s1 e.srcArrived e.produceOk).state

/-- The answers that arrive during one iteration, at a handle that is polled,
follow the broker model. -/
def tick_answered (topic : String) (s : MirrorState) (e : TickEnv) : Bool :=
  (match e.srcArrived with
    | some a =>
      !(schedule topic s e.consumeOk).state.tankClient.should_poll
        || answers (schedule topic s e.consumeOk).state.tankClient a
    | none => true)
  && (match e.dstArrived with
    | some b =>
      !(before_dest_phase topic s e).dest.should_poll
        || answers (before_dest_phase topic s e).dest b
    | none => true)

/-- The answers that arrive during the iterations `es` from state `s` on follow
the broker model. -/
def answered_run (topic : String) : MirrorState → List TickEnv → Bool
  | _, [] => true
  | s, e :: es => tick_answered topic s e && answered_run topic (tick topic s e).state es

/-- Partition `P` is part of the outstanding consume request. -/
def in_consume_request (s : MirrorState) (P : Nat) : Prop :=
  s.tankClient.outstanding ≠ [] ∧
    ∃ inputs maxWait minSize,
      s.tankClient.calls.getLast? = some (Request.consume inputs maxWait minSize)
        ∧ P ∈ inputs.map fun inp => inp.1.2

/-- Partition `P` has a forwarded batch that awaits its acknowledgment: it is
part of the outstanding produce request. -/
def awaits_ack (s : MirrorState) (P : Nat) : Prop :=
  s.dest.outstanding ≠ [] ∧
    ∃ outputs, s.dest.calls.getLast? = some (Request.produce outputs)
      ∧ P ∈ outputs.map fun out => out.1.2

/-- Every discovered partition is in the `pending` list, part of the outstanding
consume request, or awaiting an acknowledgment. -/
def tracked (s : MirrorState) : Prop :=
  ∀ P, P < s.allocator.length → P ∈ s.pending ∨ in_consume_request s P ∨ awaits_ack s P

/-- What the main loop keeps about the requests: while a request of a handle is
outstanding it is the last one handed to that handle, built from `inputs`
(source) or `outputs` (destination), and every partition is pending or named in
the list of an outstanding request. -/
def requests_inv (s : MirrorState) : Prop :=
  (s.tankClient.outstanding ≠ [] →
      s.tankClient.calls.getLast? = some (Request.consume s.inputs 4000 0))
  ∧ (s.dest.outstanding ≠ [] →
      s.dest.calls.getLast? = some (Request.produce s.outputs))
  ∧ ∀ P, P < s.allocator.length →
      P ∈ s.pending
      ∨ (s.tankClient.outstanding ≠ [] ∧ P ∈ s.inputs.map fun inp => inp.1.2)
      ∨ (s.dest.outstanding ≠ [] ∧ P ∈ s.outputs.map fun out => out.1.2)

/-- The iterations of `sample_env`, then one in which the destination
acknowledges partition 0 and one in which the next consume request goes out. -/
def tracked_ticks : List TickEnv :=
  sample_env.ticks ++
    [{ consumeOk := true, srcArrived := none, produceOk := true,
       dstArrived := some ack_arrival },
     idle_tick]

/-- The run of `sample_env`, continued by `tracked_ticks`. -/
def tracked_env : MirrorEnv :=
  { discovery := sample_env.discovery, ticks := tracked_ticks }

/-! # Theorems -/

/-! ## Discovery -/

theorem TankClient.poll_none_of_queues_empty (c : TankClient) (h : c.queues_empty) :
    c.poll none = c := by
  obtain ⟨h1, h2, h3, h4⟩ := h
  cases c
  simp_all [TankClient.poll]

theorem discover_source_answered (s : MirrorState) (a : Arrival) (idle : Nat)
    (hout : s.tankClient.outstanding = [s.reqId1]) (hq : s.tankClient.queues_empty) :
    discover_source s (answered_after idle a) = source_answered s a := by
  induction idle with
  | zero =>
    simp only [answered_after, List.replicate_zero, List.nil_append, discover_source,
      TankClient.should_poll, hout, source_answered]
    by_cases hf : a.faults = []
    · cases hw : a.watermarks <;>
        simp [TankClient.poll, hf, hw, hout, discover_source, TankClient.should_poll]
    · simp [TankClient.poll, hf]
  | succ n ih =>
    have hstep : discover_source s (answered_after (n + 1) a)
        = discover_source s (answered_after n a) := by
      simp only [answered_after, List.replicate_succ, List.cons_append, discover_source,
        TankClient.should_poll, hout, TankClient.poll_none_of_queues_empty _ hq]
      simp [hq.1, hq.2.1]
    rw [hstep, ih]

@[simp] theorem seed_partitions_tankClient (w : List (Nat × Nat)) (s : MirrorState) :
    (seed_partitions w s).tankClient = s.tankClient := by
  induction w generalizing s with
  | nil => rfl
  | cons p ps ih => simp [seed_partitions, ih]

@[simp] theorem seed_partitions_dest (w : List (Nat × Nat)) (s : MirrorState) :
    (seed_partitions w s).dest = s.dest := by
  induction w generalizing s with
  | nil => rfl
  | cons p ps ih => simp [seed_partitions, ih]

@[simp] theorem seed_partitions_reqId1 (w : List (Nat × Nat)) (s : MirrorState) :
    (seed_partitions w s).reqId1 = s.reqId1 := by
  induction w generalizing s with
  | nil => rfl
  | cons p ps ih => simp [seed_partitions, ih]

@[simp] theorem seed_partitions_srcPartitionsCnt (w : List (Nat × Nat)) (s : MirrorState) :
    (seed_partitions w s).srcPartitionsCnt = s.srcPartitionsCnt := by
  induction w generalizing s with
  | nil => rfl
  | cons p ps ih => simp [seed_partitions, ih]

theorem seed_partitions_pending (w : List (Nat × Nat)) (s : MirrorState) :
    (seed_partitions w s).pending
      = s.pending ++ List.range' s.allocator.length w.length := by
  induction w generalizing s with
  | nil => simp [seed_partitions]
  | cons p ps ih => simp [seed_partitions, ih, List.range'_succ]

theorem discover_dest_answered (s : MirrorState) (a : Arrival) (idle : Nat)
    (hout : s.dest.outstanding = [s.reqId2]) (hq : s.dest.queues_empty) :
    discover_dest s (answered_after idle a) = dest_answered s a := by
  induction idle with
  | zero =>
    simp only [answered_after, List.replicate_zero, List.nil_append, discover_dest,
      TankClient.should_poll, hout, dest_answered]
    by_cases hf : a.faults = []
    · cases hw : a.watermarks <;>
        simp [TankClient.poll, hf, hw, hout, discover_dest, TankClient.should_poll]
    · simp [TankClient.poll, hf]
  | succ n ih =>
    have hstep : discover_dest s (answered_after (n + 1) a)
        = discover_dest s (answered_after n a) := by
      simp only [answered_after, List.replicate_succ, List.cons_append, discover_dest,
        TankClient.should_poll, hout, TankClient.poll_none_of_queues_empty _ hq]
      simp [hq.1, hq.2.1]
    rw [hstep, ih]

theorem mirror_discovery_answered (topic : String) (idle1 idle2 : Nat) (a1 a2 : Arrival) :
    mirror_discovery topic (answered_env idle1 idle2 a1 a2)
      = (((source_answered (requested_state topic) a1).bind fun s3 =>
          (dest_answered s3 a2).bind fun s4 => topology_check s4).bind fun s5 =>
            Outcome.running { s5 with reqId1 := 0 }) := by
  have h1 := discover_source_answered (requested_state topic) a1 idle1 rfl
    ⟨rfl, rfl, rfl, rfl⟩
  have h2 : ∀ s3, source_answered (requested_state topic) a1 = Outcome.running s3 →
      discover_dest s3 (answered_after idle2 a2) = dest_answered s3 a2 := by
    intro s3 h3
    apply discover_dest_answered
    · simp only [source_answered] at h3
      split at h3
      · cases h3
      · split at h3 <;> cases h3 <;> rfl
    · simp only [source_answered] at h3
      split at h3
      · cases h3
      · split at h3 <;> cases h3 <;> exact ⟨rfl, rfl, rfl, rfl⟩
  have e : mirror_discovery topic (answered_env idle1 idle2 a1 a2)
      = (((discover_source (requested_state topic) (answered_after idle1 a1)).bind fun s3 =>
          (discover_dest s3 (answered_after idle2 a2)).bind fun s4 =>
            topology_check s4).bind fun s5 => Outcome.running { s5 with reqId1 := 0 }) := rfl
  rw [e, h1]
  cases h : source_answered (requested_state topic) a1 with
  | running s3 => simp only [Outcome.bind, h2 s3 h]
  | halted c s3 => rfl

theorem seed_partitions_pending_length (w : List (Nat × Nat)) (s : MirrorState) :
    (seed_partitions w s).pending.length = s.pending.length + w.length := by
  simp [seed_partitions_pending]

/-- The outcome of the discovery part when both handles answer with watermarks
and no fault. -/
theorem mirror_discovery_watermarks (topic : String) (idle1 idle2 : Nat)
    (w1 w2 : List (Nat × Nat)) :
    mirror_discovery topic
        (answered_env idle1 idle2 (discovery_answer w1) (discovery_answer w2))
      = (topology_check
          (seed_partitions w2
            { requested_state topic with
              tankClient := (requested_state topic).tankClient.poll
                (some (discovery_answer w1)),
              srcPartitionsCnt := w1.length % 65536,
              dest := (requested_state topic).dest.poll
                (some (discovery_answer w2)) })).bind fun s5 =>
            Outcome.running { s5 with reqId1 := 0 } := by
  rw [mirror_discovery_answered]
  simp [source_answered, dest_answered, discovery_answer, Outcome.bind]

/-- C1: when the source and the destination report different partition counts
(the source count being one that partition ids of 16 bits can give, at most
65536), the mirror command returns 1 and neither client was handed a consume or
a produce request. -/
theorem C1_partition_count_mismatch_is_fatal (topic : String) (idle1 idle2 : Nat)
    (w1 w2 : List (Nat × Nat)) (ticks : List TickEnv)
    (hfit : w1.length ≤ 65536) (hne : w1.length ≠ w2.length) :
    ∃ s, mirror topic
          { discovery := answered_env idle1 idle2 (discovery_answer w1) (discovery_answer w2),
            ticks := ticks }
        = Outcome.halted (Halt.exit 1) s ∧ no_transfer_calls s := by
  simp only [mirror, mirror_discovery_watermarks, topology_check]
  split
  · refine ⟨_, rfl, ?_⟩
    simp [no_transfer_calls, requested_state, TankClient.poll, TankClient.discover,
      TankClient.request, TankClient.fresh, Request.is_consume, Request.is_produce]
  · rename_i hempty
    rw [if_pos]
    · refine ⟨_, rfl, ?_⟩
      simp [no_transfer_calls, requested_state, TankClient.poll, TankClient.discover,
        TankClient.request, TankClient.fresh, Request.is_consume, Request.is_produce]
    · have hpos : w2.length ≠ 0 := by
        intro h0
        apply hempty
        rw [List.isEmpty_iff_length_eq_zero, seed_partitions_pending_length, h0]
        rfl
      simp only [seed_partitions_srcPartitionsCnt, seed_partitions_pending_length,
        requested_state, mirror_start, List.length_nil, Nat.zero_add]
      omega

theorem C1_witness :
    ∃ s, mirror "events"
          { discovery := answered_env 1 0 (discovery_answer [(0, 7), (0, 9)])
              (discovery_answer [(0, 5), (0, 10), (3, 4)]),
            ticks := [] }
        = Outcome.halted (Halt.exit 1) s ∧ no_transfer_calls s :=
  C1_partition_count_mismatch_is_fatal "events" 1 0 [(0, 7), (0, 9)]
    [(0, 5), (0, 10), (3, 4)] [] (by decide) (by decide)

theorem no_transfer_calls_of_calls (s : MirrorState) (topic : String)
    (h1 : s.tankClient.calls = [Request.discover_partitions topic])
    (h2 : s.dest.calls = [Request.discover_partitions topic]) : no_transfer_calls s := by
  simp [no_transfer_calls, h1, h2, Request.is_consume, Request.is_produce]

/-- C2: when the destination answers the discovery request with zero partitions,
whatever the source answered, the mirror command returns 1 and neither client
was handed a consume or a produce request. -/
theorem C2_empty_destination_is_refused (topic : String) (idle1 idle2 : Nat)
    (a1 a2 : Arrival) (ticks : List TickEnv) (hzero : a2.watermarks = some []) :
    ∃ s, mirror topic { discovery := answered_env idle1 idle2 a1 a2, ticks := ticks }
        = Outcome.halted (Halt.exit 1) s ∧ no_transfer_calls s := by
  simp only [mirror, mirror_discovery_answered, source_answered]
  by_cases hf1 : a1.faults = []
  · by_cases hf2 : a2.faults = []
    · cases hw1 : a1.watermarks <;>
        · simp only [hf1, hw1, ne_eq, not_true_eq_false, if_false, Outcome.bind,
            dest_answered, hf2, hzero, seed_partitions, topology_check]
          exact ⟨_, rfl, no_transfer_calls_of_calls _ topic rfl rfl⟩
    · cases hw1 : a1.watermarks <;>
        · simp only [hf1, hw1, ne_eq, not_true_eq_false, if_false, Outcome.bind,
            dest_answered, hf2, not_false_eq_true, if_true]
          exact ⟨_, rfl, no_transfer_calls_of_calls _ topic rfl rfl⟩
  · simp only [hf1, ne_eq, not_false_eq_true, if_true, Outcome.bind]
    exact ⟨_, rfl, no_transfer_calls_of_calls _ topic rfl rfl⟩

theorem C2_witness :
    ∃ s, mirror "events"
          { discovery := answered_env 2 1 (discovery_answer [(0, 7), (0, 9)])
              (discovery_answer []),
            ticks := [] }
        = Outcome.halted (Halt.exit 1) s ∧ no_transfer_calls s :=
  C2_empty_destination_is_refused "events" 2 1 (discovery_answer [(0, 7), (0, 9)])
    (discovery_answer []) [] rfl

/-! ## Pointers into the allocator -/

theorem deref_set_pending (a : List partition_ctx) (p q : Nat) (b : Bool) :
    deref (set_pending a p b) q
      = if p = q ∧ p < a.length then { deref a p with pending := b } else deref a q := by
  simp only [deref, set_pending, List.getD_eq_getElem?_getD, List.getElem?_set]
  by_cases hpq : p = q
  · subst hpq
    by_cases hlt : p < a.length
    · simp [hlt]
    · have hnone : a[p]? = none := List.getElem?_eq_none (by omega)
      simp [hlt, hnone]
  · simp [hpq]

theorem deref_set_pending_id (a : List partition_ctx) (p q : Nat) (b : Bool) :
    (deref (set_pending a p b) q).id = (deref a q).id := by
  rw [deref_set_pending]
  split
  · rename_i h
    rw [← h.1]
  · rfl

theorem deref_set_pending_next (a : List partition_ctx) (p q : Nat) (b : Bool) :
    (deref (set_pending a p b) q).next = (deref a q).next := by
  rw [deref_set_pending]
  split
  · rename_i h
    rw [← h.1]
  · rfl

theorem set_pending_length (a : List partition_ctx) (p : Nat) (b : Bool) :
    (set_pending a p b).length = a.length := by
  simp [set_pending]

/-! ## Seeding -/

theorem seed_partitions_allocator (w : List (Nat × Nat)) (s : MirrorState) :
    (seed_partitions w s).allocator
      = s.allocator ++ List.zipWith
          (fun i p => ({ id := i % 65536, pending := true, next := (p.2 + 1) % 2 ^ 64 } :
            partition_ctx))
          (List.range' s.pending.length w.length) w := by
  induction w generalizing s with
  | nil => simp [seed_partitions]
  | cons p ps ih => simp [seed_partitions, ih, List.range'_succ]

theorem lookup_range_diag (b k : Nat) :
    ((List.range b).map fun i => (i, i)).lookup k = if k < b then some k else none := by
  induction b with
  | zero => simp
  | succ n ih =>
    rw [List.range_succ, List.map_append, List.lookup_append, ih]
    by_cases h : k < n
    · have : k < n + 1 := by omega
      simp [h, this]
    · by_cases h2 : k = n
      · subst h2
        simp [List.lookup]
      · have h3 : ¬ k < n + 1 := by omega
        have h4 : (k == n) = false := by simpa using h2
        simp [h, h3, List.lookup, h4]

theorem seed_partitions_map (w : List (Nat × Nat)) (s : MirrorState) (b : Nat)
    (hmap : s.map = (List.range b).map fun i => (i, i))
    (hpend : s.pending.length = b) (halloc : s.allocator.length = b)
    (hfit : b + w.length ≤ 65536) :
    (seed_partitions w s).map = (List.range (b + w.length)).map fun i => (i, i) := by
  induction w generalizing s b with
  | nil => simpa [seed_partitions] using hmap
  | cons p ps ih =>
    simp only [List.length_cons] at hfit
    have hb : b % 65536 = b := Nat.mod_eq_of_lt (by omega)
    have e := ih
      { s with allocator := s.allocator ++
                 [{ id := s.pending.length % 65536, pending := true,
                    next := (p.2 + 1) % 2 ^ 64 }],
               pending := s.pending ++ [s.allocator.length],
               map := map_insert s.map (s.pending.length % 65536) s.allocator.length }
      (b + 1)
      (by
        simp only [map_insert, hmap, hpend, halloc, hb, lookup_range_diag,
          lt_irrefl, if_false, List.range_succ, List.map_append, List.map_cons, List.map_nil])
      (by simp [hpend]) (by simp [halloc]) (by omega)
    simp only [seed_partitions, List.length_cons]
    rw [e]
    congr 2
    omega

/-! ## The scheduler -/

/-- The loop over `pending` of the scheduler in closed form. -/
theorem schedule_fold (topic : String) (l : List Nat) (s : MirrorState) :
    l.foldl (schedule_one topic) s
      = { s with
          allocator := l.foldl (fun a it => set_pending a it false) s.allocator,
          inputs := s.inputs ++ l.map fun it =>
            ((topic, (deref s.allocator it).id),
              ((deref s.allocator it).next, 4 * 1024 * 1024)) } := by
  induction l generalizing s with
  | nil => simp
  | cons p ps ih =>
    rw [List.foldl_cons, ih]
    simp [schedule_one, deref_set_pending_id, deref_set_pending_next]

/-! ## What the phases of an iteration leave alone -/

theorem on_consumed_tankClient (topic : String) (l : List partition_content)
    (s : MirrorState) : (on_consumed topic l s).state.tankClient = s.tankClient := by
  induction l generalizing s with
  | nil => rfl
  | cons it rest ih =>
    simp only [on_consumed]
    split
    · split <;> rfl
    · rw [ih]
      split
      · rfl
      · split <;> rfl

theorem on_consumed_dest (topic : String) (l : List partition_content)
    (s : MirrorState) : (on_consumed topic l s).state.dest = s.dest := by
  induction l generalizing s with
  | nil => rfl
  | cons it rest ih =>
    simp only [on_consumed]
    split
    · split <;> rfl
    · rw [ih]
      split
      · rfl
      · split <;> rfl

theorem on_acks_tankClient (l : List produce_ack) (s : MirrorState) :
    (on_acks l s).state.tankClient = s.tankClient := by
  induction l generalizing s with
  | nil => rfl
  | cons it rest ih =>
    simp only [on_acks]
    split
    · rfl
    · split <;> rw [ih]

theorem on_acks_dest (l : List produce_ack) (s : MirrorState) :
    (on_acks l s).state.dest = s.dest := by
  induction l generalizing s with
  | nil => rfl
  | cons it rest ih =>
    simp only [on_acks]
    split
    · rfl
    · split <;> rw [ih]

theorem TankClient.poll_calls (c : TankClient) (a : Option Arrival) :
    (c.poll a).calls = c.calls := by
  cases a <;> rfl

theorem source_phase_calls (topic : String) (s : MirrorState) (a : Option Arrival)
    (ok : Bool) :
    (source_phase topic s a ok).state.tankClient.calls = s.tankClient.calls := by
  simp only [source_phase]
  split
  · split
    · simp [Outcome.state, TankClient.poll_calls]
    · split
      · have h := on_consumed_tankClient topic (s.tankClient.poll a).consumed
          { s with tankClient := s.tankClient.poll a, outputs := [] }
        cases hc : on_consumed topic (s.tankClient.poll a).consumed
            { s with tankClient := s.tankClient.poll a, outputs := [] } with
        | running s2 =>
          rw [hc] at h
          simp only [Outcome.state] at h
          simp only [Outcome.bind]
          split
          · split <;> simp [Outcome.state, h, TankClient.poll_calls]
          · simp [Outcome.state, h, TankClient.poll_calls]
        | halted c s2 =>
          rw [hc] at h
          simp only [Outcome.state] at h
          simp [Outcome.bind, Outcome.state, h, TankClient.poll_calls]
      · simp [Outcome.state, TankClient.poll_calls]
  · rfl

theorem dest_phase_tankClient (s : MirrorState) (a : Option Arrival) :
    (dest_phase s a).state.tankClient = s.tankClient := by
  simp only [dest_phase]
  split
  · split
    · rfl
    · rw [on_acks_tankClient]
  · rfl

/-- The source client's record of calls after an iteration is the one the
scheduling step left. -/
theorem tick_calls (topic : String) (s : MirrorState) (e : TickEnv) :
    (tick topic s e).state.tankClient.calls
      = (schedule topic s e.consumeOk).state.tankClient.calls := by
  simp only [tick]
  cases h1 : schedule topic s e.consumeOk with
  | halted c s1 => rfl
  | running s1 =>
    simp only [Outcome.bind, Outcome.state]
    have h2 := source_phase_calls topic s1 e.srcArrived e.produceOk
    cases h3 : source_phase topic s1 e.srcArrived e.produceOk with
    | halted c s2 =>
      rw [h3] at h2
      exact h2
    | running s2 =>
      rw [h3] at h2
      simp only [Outcome.state] at h2
      simp only [Outcome.state, ← h2]
      exact congrArg TankClient.calls (dest_phase_tankClient s2 e.dstArrived)

theorem zipWith_range'_congr {β : Type} (f g : Nat → Nat × Nat → β) (w : List (Nat × Nat))
    (b : Nat) (h : ∀ i p, i < b + w.length → f i p = g i p) :
    List.zipWith f (List.range' b w.length) w = List.zipWith g (List.range' b w.length) w := by
  induction w generalizing b with
  | nil => simp
  | cons p ps ih =>
    simp only [List.length_cons, List.range'_succ, List.zipWith_cons_cons]
    rw [h b p (by simp), ih (b + 1) (fun i q hi => h i q (by simp at hi ⊢; omega))]

/-- The state at the head of the main loop when both handles answered with
watermarks, the destination with at least one and fewer than 65536 partitions,
and the counts agree. -/
theorem mirror_discovery_seeded (topic : String) (idle1 idle2 : Nat)
    (w1 w2 : List (Nat × Nat)) (hn : 1 ≤ w2.length) (hmatch : w1.length = w2.length)
    (hfit : w2.length < 65536) :
    ∃ s, mirror_discovery topic
          (answered_env idle1 idle2 (discovery_answer w1) (discovery_answer w2))
        = Outcome.running s
      ∧ s.allocator = List.zipWith
          (fun i p => ({ id := i, pending := true, next := (p.2 + 1) % 2 ^ 64 } :
            partition_ctx)) (List.range w2.length) w2
      ∧ s.map = (List.range w2.length).map (fun i => (i, i))
      ∧ s.pending = List.range w2.length
      ∧ s.reqId1 = 0
      ∧ s.tankClient.calls = [Request.discover_partitions topic]
      ∧ s.dest.calls = [Request.discover_partitions topic]
      ∧ s.tankClient.outstanding = []
      ∧ s.dest.outstanding = [] := by
  rw [mirror_discovery_watermarks]
  simp only [topology_check]
  rw [if_neg, if_neg]
  · refine ⟨_, rfl, ?_, ?_, ?_, rfl, ?_, ?_, ?_, ?_⟩
    · simp only [seed_partitions_allocator, requested_state, mirror_start,
        List.nil_append, List.length_nil, List.range_eq_range']
      apply zipWith_range'_congr
      intro i p hi
      have : i % 65536 = i := Nat.mod_eq_of_lt (by omega)
      simp [this]
    · have h := seed_partitions_map w2
        { requested_state topic with
          tankClient := (requested_state topic).tankClient.poll (some (discovery_answer w1)),
          srcPartitionsCnt := w1.length % 65536,
          dest := (requested_state topic).dest.poll (some (discovery_answer w2)) }
        0 rfl rfl rfl (by omega)
      simpa using h
    · simp [seed_partitions_pending, requested_state, mirror_start, List.range_eq_range']
    · simp [requested_state, TankClient.poll, TankClient.discover, TankClient.request,
        TankClient.fresh]
    · simp [requested_state, TankClient.poll, TankClient.discover, TankClient.request,
        TankClient.fresh]
    · simp [requested_state, TankClient.poll, TankClient.discover, TankClient.request,
        TankClient.fresh]
    · simp [requested_state, TankClient.poll, TankClient.discover, TankClient.request,
        TankClient.fresh]
  · simp only [seed_partitions_srcPartitionsCnt, seed_partitions_pending_length,
      requested_state, mirror_start, List.length_nil, Nat.zero_add]
    omega
  · rw [List.isEmpty_iff_length_eq_zero, seed_partitions_pending_length]
    simp only [requested_state, mirror_start, List.length_nil, Nat.zero_add]
    omega

theorem map_deref_seeded (topic : String) (w : List (Nat × Nat)) :
    ((List.range w.length).map fun it =>
        (((topic, (deref (List.zipWith
            (fun i p => ({ id := i, pending := true, next := (p.2 + 1) % 2 ^ 64 } :
              partition_ctx)) (List.range w.length) w) it).id),
          ((deref (List.zipWith
            (fun i p => ({ id := i, pending := true, next := (p.2 + 1) % 2 ^ 64 } :
              partition_ctx)) (List.range w.length) w) it).next, 4 * 1024 * 1024)) :
          consume_input))
      = List.zipWith
          (fun i p => (((topic, i), ((p.2 + 1) % 2 ^ 64, 4 * 1024 * 1024)) : consume_input))
          (List.range w.length) w := by
  apply List.ext_getElem
  · simp
  · intro i h1 h2
    have hi : i < w.length := by simpa using h1
    simp [deref, List.getD_eq_getElem?_getD, List.getElem?_zipWith, hi,
      List.getElem?_eq_getElem]

theorem schedule_calls_of_cond (topic : String) (s : MirrorState) (ok : Bool)
    (h : schedule_cond s = true) :
    (schedule topic s ok).state.tankClient.calls
      = s.tankClient.calls ++
          [Request.consume
            (s.pending.map fun it =>
              ((topic, (deref s.allocator it).id),
                ((deref s.allocator it).next, 4 * 1024 * 1024))) 4000 0] := by
  simp only [schedule, h, if_true, schedule_fold, List.nil_append]
  split <;> cases ok <;>
    simp [Outcome.state, TankClient.consume, TankClient.request]

/-- C3: when the destination answers with n watermarks, 1 <= n < 65536, and the
source with as many, the command reaches its main loop with one context per
destination partition: context i has id i, is pending, and its next sequence
number is the last assigned one of partition i plus 1 modulo 2^64; the map has
exactly the keys 0..n-1 and the pending list is 0..n-1. The first iteration
hands the source one consume request with the pairs (i, next of i) in order. -/
theorem C3_cursors_seeded_from_destination (topic : String) (idle1 idle2 : Nat)
    (w1 w2 : List (Nat × Nat)) (e : TickEnv)
    (hn : 1 ≤ w2.length) (hmatch : w1.length = w2.length) (hfit : w2.length < 65536) :
    ∃ s, mirror_discovery topic
          (answered_env idle1 idle2 (discovery_answer w1) (discovery_answer w2))
        = Outcome.running s
      ∧ s.allocator = List.zipWith
          (fun i p => ({ id := i, pending := true, next := (p.2 + 1) % 2 ^ 64 } :
            partition_ctx)) (List.range w2.length) w2
      ∧ s.map = (List.range w2.length).map (fun i => (i, i))
      ∧ s.pending = List.range w2.length
      ∧ (tick topic s e).state.tankClient.calls
          = [Request.discover_partitions topic,
             Request.consume
               (List.zipWith
                 (fun i p =>
                   (((topic, i), ((p.2 + 1) % 2 ^ 64, 4 * 1024 * 1024)) : consume_input))
                 (List.range w2.length) w2) 4000 0] := by
  obtain ⟨s, hs, ha, hm, hp, hr, hc1, -, -, ho2⟩ :=
    mirror_discovery_seeded topic idle1 idle2 w1 w2 hn hmatch hfit
  refine ⟨s, hs, ha, hm, hp, ?_⟩
  have hcond : schedule_cond s = true := by
    have hne : List.range w2.length ≠ [] := by
      intro h0
      have := congrArg List.length h0
      simp only [List.length_range, List.length_nil] at this
      omega
    simp [schedule_cond, hr, hp, TankClient.should_poll, ho2, hne]
  rw [tick_calls, schedule_calls_of_cond topic s e.consumeOk hcond, hc1, hp, ha,
    map_deref_seeded]
  rfl

theorem C3_witness :
    (∃ s, mirror_discovery "events"
          (answered_env 0 1 (discovery_answer [(0, 40), (2, 41)])
            (discovery_answer [(0, 5), (0, 10)]))
        = Outcome.running s
      ∧ s.allocator = [{ id := 0, pending := true, next := 6 },
          { id := 1, pending := true, next := 11 }]
      ∧ s.map = [(0, 0), (1, 1)]
      ∧ s.pending = [0, 1]
      ∧ (tick "events" s idle_tick).state.tankClient.calls
          = [Request.discover_partitions "events",
             Request.consume
               [(("events", 0), (6, 4194304)), (("events", 1), (11, 4194304))] 4000 0])
    ∧ (∃ s, mirror_discovery "events"
          (answered_env 0 0 (discovery_answer [(0, 99)])
            (discovery_answer [(0, 2 ^ 64 - 1)]))
        = Outcome.running s
      ∧ s.allocator = [{ id := 0, pending := true, next := 0 }]
      ∧ s.map = [(0, 0)]
      ∧ s.pending = [0]
      ∧ (tick "events" s idle_tick).state.tankClient.calls
          = [Request.discover_partitions "events",
             Request.consume [(("events", 0), (0, 4194304))] 4000 0]) :=
  ⟨C3_cursors_seeded_from_destination "events" 0 1 [(0, 40), (2, 41)] [(0, 5), (0, 10)]
      idle_tick
      (by decide) (by decide) (by decide),
   C3_cursors_seeded_from_destination "events" 0 0 [(0, 99)] [(0, 2 ^ 64 - 1)]
      idle_tick
      (by decide) (by decide) (by decide)⟩

/-! ## Outstanding requests -/

theorem TankClient.should_poll_eq_false_iff (c : TankClient) :
    c.should_poll = false ↔ c.outstanding = [] := by
  cases h : c.outstanding <;> simp [TankClient.should_poll, h]

theorem TankClient.should_poll_eq_true_iff (c : TankClient) :
    c.should_poll = true ↔ c.outstanding ≠ [] := by
  cases h : c.outstanding <;> simp [TankClient.should_poll, h]

theorem on_consumed_reqId1 (topic : String) (l : List partition_content)
    (s : MirrorState) : (on_consumed topic l s).state.reqId1 = s.reqId1 := by
  induction l generalizing s with
  | nil => rfl
  | cons it rest ih =>
    simp only [on_consumed]
    split
    · split <;> rfl
    · rw [ih]
      split
      · rfl
      · split <;> rfl

theorem on_acks_reqId1 (l : List produce_ack) (s : MirrorState) :
    (on_acks l s).state.reqId1 = s.reqId1 := by
  induction l generalizing s with
  | nil => rfl
  | cons it rest ih =>
    simp only [on_acks]
    split
    · rfl
    · split <;> rw [ih]

theorem discover_source_running (l : List (Option Arrival)) (s s1 : MirrorState)
    (h : discover_source s l = Outcome.running s1) :
    s1.tankClient.outstanding = [] ∧ s1.dest = s.dest := by
  induction l generalizing s with
  | nil =>
    simp only [discover_source] at h
    split at h
    · cases h
    · rename_i hsp
      cases h
      exact ⟨(TankClient.should_poll_eq_false_iff _).1 (by simpa using hsp), rfl⟩
  | cons a rest ih =>
    simp only [discover_source] at h
    split at h
    · split at h
      · cases h
      · split at h
        · have r := ih _ h
          exact ⟨r.1, r.2⟩
        · split at h
          · have r := ih _ h
            exact ⟨r.1, r.2⟩
          · cases h
    · rename_i hsp
      cases h
      exact ⟨(TankClient.should_poll_eq_false_iff _).1 (by simpa using hsp), rfl⟩

theorem discover_dest_running (l : List (Option Arrival)) (s s1 : MirrorState)
    (h : discover_dest s l = Outcome.running s1) :
    s1.dest.outstanding = [] ∧ s1.tankClient = s.tankClient := by
  induction l generalizing s with
  | nil =>
    simp only [discover_dest] at h
    split at h
    · cases h
    · rename_i hsp
      cases h
      exact ⟨(TankClient.should_poll_eq_false_iff _).1 (by simpa using hsp), rfl⟩
  | cons a rest ih =>
    simp only [discover_dest] at h
    split at h
    · split at h
      · cases h
      · split at h
        · have r := ih _ h
          exact ⟨r.1, r.2⟩
        · split at h
          · have r := ih _ h
            simpa using r
          · cases h
    · rename_i hsp
      cases h
      exact ⟨(TankClient.should_poll_eq_false_iff _).1 (by simpa using hsp), rfl⟩

theorem Outcome.bind_eq_running (o : Outcome) (f : MirrorState → Outcome) (s : MirrorState)
    (h : o.bind f = Outcome.running s) : ∃ s0, o = Outcome.running s0 ∧ f s0 = Outcome.running s := by
  cases o with
  | running s0 => exact ⟨s0, rfl, h⟩
  | halted c s0 => cases h

/-- The main loop is entered with no request outstanding on either handle. -/
theorem mirror_discovery_running (topic : String) (env : DiscoveryEnv) (s : MirrorState)
    (h : mirror_discovery topic env = Outcome.running s) :
    s.tankClient.outstanding = [] ∧ s.dest.outstanding = [] ∧ s.reqId1 = 0 := by
  simp only [mirror_discovery] at h
  split at h
  · cases h
  · split at h
    · cases h
    · obtain ⟨s5, h5, h6⟩ := Outcome.bind_eq_running _ _ _ h
      obtain ⟨s3, h3, h4⟩ := Outcome.bind_eq_running _ _ _ h5
      obtain ⟨s4, h4a, h4b⟩ := Outcome.bind_eq_running _ _ _ h4
      have hs := discover_source_running _ _ _ h3
      have hd := discover_dest_running _ _ _ h4a
      simp only [topology_check] at h4b
      split at h4b
      · cases h4b
      · split at h4b
        · cases h4b
        · cases h4b
          cases h6
          exact ⟨by rw [hd.2]; exact hs.1, hd.1, rfl⟩

theorem loop_inv_of_discovery (topic : String) (env : DiscoveryEnv) (s : MirrorState)
    (h : mirror_discovery topic env = Outcome.running s) : loop_inv s := by
  obtain ⟨h1, h2, h3⟩ := mirror_discovery_running topic env s h
  exact ⟨by simp [h1], by simp [h2], Or.inl h1, fun _ => h1⟩

theorem schedule_cond_iff (s : MirrorState) :
    schedule_cond s = true ↔ s.reqId1 = 0 ∧ s.pending ≠ [] ∧ s.dest.should_poll = false := by
  cases hp : s.pending <;> simp [schedule_cond, hp]

theorem loop_inv_schedule (topic : String) (s s1 : MirrorState) (ok : Bool)
    (hinv : loop_inv s) (h : schedule topic s ok = Outcome.running s1) : loop_inv s1 := by
  obtain ⟨i1, i2, i3, i4⟩ := hinv
  simp only [schedule] at h
  split at h
  · rename_i hc
    obtain ⟨hr, -, hd⟩ := (schedule_cond_iff s).1 hc
    have hsrc := i4 hr
    have hdst := (TankClient.should_poll_eq_false_iff _).1 hd
    rw [schedule_fold] at h
    cases ok
    · simp [TankClient.consume, TankClient.request] at h
    · simp only [TankClient.consume, TankClient.request, if_true] at h
      split at h
      · cases h
      · cases h
        refine ⟨?_, ?_, ?_, ?_⟩
        · simp [hsrc]
        · simp [hdst]
        · exact Or.inr hdst
        · intro h0
          simp at h0
  · cases h
    exact ⟨i1, i2, i3, i4⟩

theorem tail_eq_nil_of_length_le_one {α : Type} (l : List α) (h : l.length ≤ 1) :
    l.tail = [] := by
  cases l with
  | nil => rfl
  | cons a t =>
    cases t with
    | nil => rfl
    | cons b u => simp at h

theorem on_consumed_running (topic : String) (l : List partition_content)
    (s s1 : MirrorState) (h : on_consumed topic l s = Outcome.running s1) :
    s1.tankClient = s.tankClient ∧ s1.dest = s.dest ∧ s1.reqId1 = s.reqId1 := by
  have h1 := on_consumed_tankClient topic l s
  have h2 := on_consumed_dest topic l s
  have h3 := on_consumed_reqId1 topic l s
  rw [h] at h1 h2 h3
  exact ⟨h1, h2, h3⟩

theorem on_acks_running (l : List produce_ack) (s s1 : MirrorState)
    (h : on_acks l s = Outcome.running s1) :
    s1.tankClient = s.tankClient ∧ s1.dest = s.dest ∧ s1.reqId1 = s.reqId1 := by
  have h1 := on_acks_tankClient l s
  have h2 := on_acks_dest l s
  have h3 := on_acks_reqId1 l s
  rw [h] at h1 h2 h3
  exact ⟨h1, h2, h3⟩

theorem loop_inv_source_phase (topic : String) (s s1 : MirrorState) (a : Option Arrival)
    (ok : Bool) (hinv : loop_inv s)
    (h : source_phase topic s a ok = Outcome.running s1) : loop_inv s1 := by
  obtain ⟨i1, i2, i3, i4⟩ := hinv
  simp only [source_phase] at h
  split at h
  · rename_i hsp
    have hsrc : s.tankClient.outstanding ≠ [] := (TankClient.should_poll_eq_true_iff _).1 hsp
    have hdst : s.dest.outstanding = [] := i3.resolve_left hsrc
    split at h
    · cases h
    · split at h
      · rename_i hcons
        obtain ⟨s2, h2, h3⟩ := Outcome.bind_eq_running _ _ _ h
        obtain ⟨e1, e2, e3⟩ := on_consumed_running _ _ _ _ h2
        have hout : s2.tankClient.outstanding = [] := by
          rw [e1]
          cases a with
          | none => simp [TankClient.poll] at hcons
          | some v => exact tail_eq_nil_of_length_le_one _ i1
        have hd2 : s2.dest.outstanding = [] := by rw [e2]; exact hdst
        split at h3
        · cases ok
          · simp [TankClient.produce, TankClient.request] at h3
          · simp only [TankClient.produce, TankClient.request, if_true] at h3
            split at h3
            · cases h3
            · cases h3
              exact ⟨by simp [hout], by simp [hd2], Or.inl hout, fun _ => hout⟩
        · cases h3
          exact ⟨by simp [hout], by simp [hd2], Or.inl hout, fun _ => hout⟩
      · cases h
        cases a with
        | none => exact ⟨i1, i2, i3, i4⟩
        | some v =>
          have hout : s.tankClient.outstanding.tail = [] :=
            tail_eq_nil_of_length_le_one _ i1
          exact ⟨by simp [TankClient.poll, hout], i2, Or.inl hout, fun _ => hout⟩
  · cases h
    exact ⟨i1, i2, i3, i4⟩

theorem loop_inv_dest_phase (s s1 : MirrorState) (a : Option Arrival)
    (hinv : loop_inv s) (h : dest_phase s a = Outcome.running s1) : loop_inv s1 := by
  obtain ⟨i1, i2, i3, i4⟩ := hinv
  simp only [dest_phase] at h
  split at h
  · split at h
    · cases h
    · obtain ⟨e1, e2, e3⟩ := on_acks_running _ _ _ h
      rw [loop_inv, e1, e2, e3]
      cases a with
      | none => exact ⟨i1, i2, i3, i4⟩
      | some v =>
        have hout : s.dest.outstanding.tail = [] := tail_eq_nil_of_length_le_one _ i2
        exact ⟨i1, by simp [TankClient.poll, hout], Or.inr hout, i4⟩
  · cases h
    exact ⟨i1, i2, i3, i4⟩

theorem loop_inv_tick (topic : String) (s s1 : MirrorState) (e : TickEnv)
    (hinv : loop_inv s) (h : tick topic s e = Outcome.running s1) : loop_inv s1 := by
  simp only [tick] at h
  obtain ⟨s3, h3, h4⟩ := Outcome.bind_eq_running _ _ _ h
  obtain ⟨s2, h2, h5⟩ := Outcome.bind_eq_running _ _ _ h3
  exact loop_inv_dest_phase _ _ _
    (loop_inv_source_phase _ _ _ _ _ (loop_inv_schedule _ _ _ _ hinv h2) h5) h4

theorem loop_inv_mirror_loop (topic : String) (es : List TickEnv) (s s1 : MirrorState)
    (hinv : loop_inv s) (h : mirror_loop topic s es = Outcome.running s1) : loop_inv s1 := by
  induction es generalizing s with
  | nil =>
    cases h
    exact hinv
  | cons e rest ih =>
    simp only [mirror_loop] at h
    obtain ⟨s2, h2, h3⟩ := Outcome.bind_eq_running _ _ _ h
    exact ih s2 (loop_inv_tick _ _ _ _ hinv h2) h3

theorem loop_inv_mirror (topic : String) (env : MirrorEnv) (s : MirrorState)
    (h : mirror topic env = Outcome.running s) : loop_inv s := by
  simp only [mirror] at h
  obtain ⟨s0, h0, h1⟩ := Outcome.bind_eq_running _ _ _ h
  exact loop_inv_mirror_loop _ _ _ _ (loop_inv_of_discovery _ _ _ h0) h1

/-- C4: in every state the mirror command reaches between two iterations of its
main loop, the source handle and the destination handle do not both have a
request outstanding. -/
theorem C4_never_both_outstanding (topic : String) (env : MirrorEnv) (s : MirrorState)
    (h : mirror topic env = Outcome.running s) :
    ¬ (s.tankClient.should_poll = true ∧ s.dest.should_poll = true) := by
  obtain ⟨-, -, h3, -⟩ := loop_inv_mirror topic env s h
  rintro ⟨h1, h2⟩
  rw [TankClient.should_poll_eq_true_iff] at h1 h2
  cases h3 with
  | inl h => exact h1 h
  | inr h => exact h2 h

theorem C4_witness :
    mirror "events" sample_env = Outcome.running (mirror "events" sample_env).state
      ∧ (mirror "events" sample_env).state.dest.should_poll = true
      ∧ ¬ ((mirror "events" sample_env).state.tankClient.should_poll = true
          ∧ (mirror "events" sample_env).state.dest.should_poll = true) :=
  ⟨by rfl, by rfl, C4_never_both_outstanding "events" sample_env _ (by rfl)⟩

theorem source_phase_tankClient (topic : String) (s : MirrorState) (a : Option Arrival)
    (ok : Bool) :
    (source_phase topic s a ok).state.tankClient
      = if s.tankClient.should_poll then s.tankClient.poll a else s.tankClient := by
  simp only [source_phase]
  split
  · split
    · rfl
    · split
      · have h := on_consumed_tankClient topic (s.tankClient.poll a).consumed
          { s with tankClient := s.tankClient.poll a, outputs := [] }
        cases hc : on_consumed topic (s.tankClient.poll a).consumed
            { s with tankClient := s.tankClient.poll a, outputs := [] } with
        | running s2 =>
          rw [hc] at h
          simp only [Outcome.state] at h
          simp only [Outcome.bind]
          split
          · split <;> simp [Outcome.state, h]
          · simp [Outcome.state, h]
        | halted c s2 =>
          rw [hc] at h
          simp only [Outcome.state] at h
          simp [Outcome.bind, Outcome.state, h]
      · rfl
  · rfl

theorem TankClient.poll_reqSeq (c : TankClient) (a : Option Arrival) :
    (c.poll a).reqSeq = c.reqSeq := by
  cases a <;> rfl

/-- The source client's request counter after an iteration is the one the
scheduling step left. -/
theorem tick_reqSeq (topic : String) (s : MirrorState) (e : TickEnv) :
    (tick topic s e).state.tankClient.reqSeq
      = (schedule topic s e.consumeOk).state.tankClient.reqSeq := by
  simp only [tick]
  cases h1 : schedule topic s e.consumeOk with
  | halted c s1 => rfl
  | running s1 =>
    simp only [Outcome.bind, Outcome.state]
    have h2 := source_phase_tankClient topic s1 e.srcArrived e.produceOk
    cases h3 : source_phase topic s1 e.srcArrived e.produceOk with
    | halted c s2 =>
      rw [h3] at h2
      simp only [Outcome.state] at h2 ⊢
      rw [h2]
      split <;> simp [TankClient.poll_reqSeq]
    | running s2 =>
      rw [h3] at h2
      simp only [Outcome.state] at h2
      have h4 := dest_phase_tankClient s2 e.dstArrived
      simp only [Outcome.state] at h4
      rw [h4, h2]
      split <;> simp [TankClient.poll_reqSeq]

theorem schedule_state_of_not_cond (topic : String) (s : MirrorState) (ok : Bool)
    (h : ¬ schedule_cond s = true) : schedule topic s ok = Outcome.running s := by
  simp [schedule, h]

theorem schedule_reqSeq_of_cond (topic : String) (s : MirrorState) (ok : Bool)
    (h : schedule_cond s = true) :
    (schedule topic s ok).state.tankClient.reqSeq
      = if ok then s.tankClient.reqSeq + 1 else s.tankClient.reqSeq := by
  simp only [schedule, h, if_true, schedule_fold, List.nil_append]
  split <;> cases ok <;>
    simp [Outcome.state, TankClient.consume, TankClient.request]

/-- C5: in one iteration of the main loop the source client is handed a new
consume request if and only if, at the start of the iteration, `reqId1` is 0,
the pending list is not empty and `dest.should_poll()` is false; otherwise the
record of calls is unchanged. The client gives out a new request id in that
iteration exactly when, in addition, it can schedule the request. -/
theorem C5_consume_issued_iff_schedulable (topic : String) (s : MirrorState) (e : TickEnv) :
    ((∃ inputs, (tick topic s e).state.tankClient.calls
          = s.tankClient.calls ++ [Request.consume inputs 4000 0])
        ↔ (s.reqId1 = 0 ∧ s.pending ≠ [] ∧ s.dest.should_poll = false))
    ∧ (¬ (s.reqId1 = 0 ∧ s.pending ≠ [] ∧ s.dest.should_poll = false) →
        (tick topic s e).state.tankClient.calls = s.tankClient.calls)
    ∧ ((tick topic s e).state.tankClient.reqSeq = s.tankClient.reqSeq + 1
        ↔ ((s.reqId1 = 0 ∧ s.pending ≠ [] ∧ s.dest.should_poll = false)
            ∧ e.consumeOk = true)) := by
  rw [tick_calls, tick_reqSeq, ← schedule_cond_iff]
  by_cases hc : schedule_cond s = true
  · rw [schedule_calls_of_cond topic s e.consumeOk hc,
      schedule_reqSeq_of_cond topic s e.consumeOk hc]
    refine ⟨⟨fun _ => hc, fun _ => ⟨_, rfl⟩⟩, fun h => absurd hc h, ?_⟩
    cases e.consumeOk <;> simp [hc]
  · rw [schedule_state_of_not_cond topic s e.consumeOk hc]
    refine ⟨⟨?_, fun h => absurd h hc⟩, fun _ => rfl, ?_⟩
    · rintro ⟨inputs, h⟩
      have := congrArg List.length h
      simp [Outcome.state] at this
    · simp [Outcome.state, hc]

theorem deref_set_pending_false (a : List partition_ctx) (p q : Nat)
    (h : (deref a q).pending = false) : (deref (set_pending a p false) q).pending = false := by
  rw [deref_set_pending]
  split
  · rfl
  · exact h

theorem deref_set_pending_self_false (a : List partition_ctx) (p : Nat) :
    (deref (set_pending a p false) p).pending = false := by
  rw [deref_set_pending]
  split
  · rfl
  · rename_i h
    have hp : ¬ p < a.length := fun hlt => h ⟨rfl, hlt⟩
    have hnone : a[p]? = none := List.getElem?_eq_none (by omega)
    simp [deref, List.getD_eq_getElem?_getD, hnone]

theorem fold_set_pending_false_keeps (l : List Nat) (a : List partition_ctx) (q : Nat)
    (h : (deref a q).pending = false) :
    (deref (l.foldl (fun a it => set_pending a it false) a) q).pending = false := by
  induction l generalizing a with
  | nil => exact h
  | cons x xs ih => exact ih _ (deref_set_pending_false a x q h)

theorem fold_set_pending_false_mem (l : List Nat) (a : List partition_ctx) (p : Nat)
    (hp : p ∈ l) :
    (deref (l.foldl (fun a it => set_pending a it false) a) p).pending = false := by
  induction l generalizing a with
  | nil => cases hp
  | cons x xs ih =>
    rw [List.foldl_cons]
    by_cases hx : p ∈ xs
    · exact ih _ hx
    · have hpx : p = x := by
        cases hp with
        | head => rfl
        | tail _ h => exact absurd h hx
      subst hpx
      exact fold_set_pending_false_keeps xs _ p (deref_set_pending_self_false a p)

theorem fold_set_pending_frame (l : List Nat) (a : List partition_ctx) (b : Bool) :
    (l.foldl (fun a it => set_pending a it b) a).length = a.length
      ∧ ∀ q, (deref (l.foldl (fun a it => set_pending a it b) a) q).next = (deref a q).next
          ∧ (deref (l.foldl (fun a it => set_pending a it b) a) q).id = (deref a q).id := by
  induction l generalizing a with
  | nil => exact ⟨rfl, fun q => ⟨rfl, rfl⟩⟩
  | cons x xs ih =>
    rw [List.foldl_cons]
    obtain ⟨h1, h2⟩ := ih (set_pending a x b)
    refine ⟨by rw [h1, set_pending_length], fun q => ?_⟩
    rw [(h2 q).1, (h2 q).2, deref_set_pending_next, deref_set_pending_id]
    exact ⟨rfl, rfl⟩

/-- C6: when the condition of the scheduler holds, the consume request handed to
the source client has, for the contexts of the pending list in their order, one
entry (topic and partition id, next sequence number, 4*1024*1024) and nothing
else. When the client schedules it the command goes on with an empty pending
list. Every context that was in the list is marked not pending, and no context
changed its id or its next sequence number. -/
theorem C6_scheduler_builds_one_request (topic : String) (s : MirrorState) (ok : Bool)
    (hc : schedule_cond s = true) :
    (schedule topic s ok).state.tankClient.calls
        = s.tankClient.calls ++
          [Request.consume
            (s.pending.map fun it =>
              ((topic, (deref s.allocator it).id),
                ((deref s.allocator it).next, 4 * 1024 * 1024))) 4000 0]
    ∧ (ok = true → ∃ s1, schedule topic s ok = Outcome.running s1 ∧ s1.pending = [])
    ∧ (∀ it ∈ s.pending, (deref (schedule topic s ok).state.allocator it).pending = false)
    ∧ (schedule topic s ok).state.allocator.length = s.allocator.length
    ∧ (∀ q, (deref (schedule topic s ok).state.allocator q).next = (deref s.allocator q).next
        ∧ (deref (schedule topic s ok).state.allocator q).id = (deref s.allocator q).id) := by
  refine ⟨schedule_calls_of_cond topic s ok hc, ?_, ?_⟩
  · intro hok
    subst hok
    simp [schedule, hc, schedule_fold, TankClient.consume, TankClient.request]
  · have hst : (schedule topic s ok).state.allocator
        = s.pending.foldl (fun a it => set_pending a it false) s.allocator := by
      simp only [schedule, hc, if_true, schedule_fold]
      split <;> rfl
    rw [hst]
    exact ⟨fun it hit => fold_set_pending_false_mem _ _ it hit,
      (fold_set_pending_frame _ _ false).1, (fold_set_pending_frame _ _ false).2⟩

theorem C6_witness :
    (schedule "events" (mirror_discovery "events" sample_env.discovery).state true).state.tankClient.calls
        = [Request.discover_partitions "events",
           Request.consume
             [(("events", 0), (6, 4194304)), (("events", 1), (11, 4194304))] 4000 0]
    ∧ (∀ it ∈ [0, 1],
        (deref (schedule "events"
          (mirror_discovery "events" sample_env.discovery).state true).state.allocator it).pending
            = false) :=
  ⟨(C6_scheduler_builds_one_request "events"
      (mirror_discovery "events" sample_env.discovery).state true (by rfl)).1,
   (C6_scheduler_builds_one_request "events"
      (mirror_discovery "events" sample_env.discovery).state true (by rfl)).2.2.1⟩

/-! ## The batcher -/

theorem batch_msgs_eq (tp : topic_partition) (l : List consumed_msg) (msgs : List msg)
    (sum : Nat) (outputs : List produce_output) :
    batch_msgs tp l msgs sum outputs
      = outputs ++ (batches_of l msgs sum).map fun b => (tp, b) := by
  induction l generalizing msgs sum outputs with
  | nil => simp [batch_msgs, batches_of]
  | cons m rest ih =>
    simp only [batch_msgs, batches_of]
    split
    · rw [ih]
      simp
    · rw [ih]

theorem batches_of_flatten (l : List consumed_msg) (msgs : List msg) (sum : Nat) :
    (batches_of l msgs sum).flatten = msgs ++ l.map to_msg := by
  induction l generalizing msgs sum with
  | nil => simp [batches_of]
  | cons m rest ih =>
    simp only [batches_of]
    split
    · simp [ih]
    · simp [ih]

theorem batches_of_length_le (l : List consumed_msg) (msgs : List msg) (sum : Nat)
    (h : msgs.length ≤ 256) : ∀ b ∈ batches_of l msgs sum, b.length ≤ 256 := by
  induction l generalizing msgs sum with
  | nil =>
    intro b hb
    simp only [batches_of, List.mem_singleton] at hb
    rw [hb]
    exact h
  | cons m rest ih =>
    intro b hb
    simp only [batches_of] at hb
    split at hb
    · cases hb with
      | head => exact h
      | tail _ hb1 => exact ih _ _ (by simp) b hb1
    · rename_i hn
      have h1 : msgs.length ≠ 256 := fun e => hn (Or.inl e)
      exact ih _ _ (by simp; omega) b hb

/-- C7: the batches pushed for the messages consumed for one partition are
appended to `outputs`, each under that partition, and their concatenation in the
order of pushing is the consumed list itself, message by message (content,
timestamp and key). -/
theorem C7_batches_concatenate_to_consumed (tp : topic_partition) (l : List consumed_msg)
    (outputs : List produce_output) (hne : l ≠ []) :
    ∃ batches : List (List msg),
      batch_msgs tp l [] 0 outputs = outputs ++ batches.map (fun b => (tp, b))
        ∧ batches.flatten = l.map to_msg := by
  have _ := hne
  exact ⟨batches_of l [] 0, batch_msgs_eq tp l [] 0 outputs, by
    simpa using batches_of_flatten l [] 0⟩

theorem C7_witness :
    ∃ batches : List (List msg),
      batch_msgs ("events", 0)
          [{ seqNum := 6, ts := 1000, key := [107], content := [1, 2, 3] },
           { seqNum := 7, ts := 1001, key := [], content := [4] }] [] 0 []
        = [] ++ batches.map (fun b => (("events", 0), b))
        ∧ batches.flatten =
          [{ content := [1, 2, 3], ts := 1000, key := [107] },
           { content := [4], ts := 1001, key := [] }] :=
  C7_batches_concatenate_to_consumed ("events", 0)
    [{ seqNum := 6, ts := 1000, key := [107], content := [1, 2, 3] },
     { seqNum := 7, ts := 1001, key := [], content := [4] }] [] (by simp)

/-- A property of the entries of `outputs` that every run of the batcher on a
non-empty message list keeps, holds for all entries after a consume response
was processed. -/
theorem on_consumed_outputs_all (P : produce_output → Prop)
    (hP : ∀ (tp : topic_partition) (l : List consumed_msg) (outputs : List produce_output),
      (∀ e ∈ outputs, P e) → l.length ≠ 0 → ∀ e ∈ batch_msgs tp l [] 0 outputs, P e)
    (topic : String) (l : List partition_content) (s : MirrorState)
    (h : ∀ e ∈ s.outputs, P e) :
    ∀ e ∈ (on_consumed topic l s).state.outputs, P e := by
  induction l generalizing s with
  | nil => exact h
  | cons it rest ih =>
    simp only [on_consumed]
    split
    · split
      · rename_i hl
        exact hP _ _ _ h hl
      · exact h
    · apply ih
      split
      · rename_i hl
        exact hP _ _ _ h hl
      · split <;> exact h

/-- C8: every batch the batcher pushes for a consumed message list holds at most
256 messages, and so does every entry of `outputs` after a whole consume
response was processed. -/
theorem C8_batch_has_at_most_256_messages (tp : topic_partition) (l : List consumed_msg)
    (outputs : List produce_output) (topic : String) (consumed : List partition_content)
    (s : MirrorState) :
    (∃ batches : List (List msg),
      batch_msgs tp l [] 0 outputs = outputs ++ batches.map (fun b => (tp, b))
        ∧ ∀ b ∈ batches, b.length ≤ 256)
    ∧ ∀ e ∈ (on_consumed topic consumed { s with outputs := [] }).state.outputs,
        e.2.length ≤ 256 := by
  refine ⟨⟨batches_of l [] 0, batch_msgs_eq tp l [] 0 outputs,
    batches_of_length_le l [] 0 (by simp)⟩, ?_⟩
  apply on_consumed_outputs_all (fun e => e.2.length ≤ 256)
  · intro tp1 l1 o1 ho _ e he
    rw [batch_msgs_eq, List.mem_append] at he
    cases he with
    | inl h1 => exact ho e h1
    | inr h1 =>
      obtain ⟨b, hb, rfl⟩ := List.mem_map.1 h1
      exact batches_of_length_le l1 [] 0 (by simp) b hb
  · intro e he
    cases he

theorem big_content_length : big_content.length = 3 * 1024 * 1024 := by
  rw [big_content, List.length_replicate]

theorem batch_estimate_append_one (b : List msg) (m : consumed_msg) :
    batch_estimate (b ++ [to_msg m]) = batch_estimate b + msg_estimate m := by
  simp [batch_estimate, to_msg, msg_estimate]

theorem msg_addend_le (m : consumed_msg) : msg_addend m ≤ msg_estimate m :=
  Nat.mod_le _ _

theorem msg_addend_eq (m : consumed_msg) (h : msg_estimate m < 2 ^ 32) :
    msg_addend m = msg_estimate m :=
  Nat.mod_eq_of_lt h

theorem batches_of_dropLast_estimate (l : List consumed_msg) (msgs : List msg) (sum : Nat)
    (hfit : ∀ m ∈ l, msg_estimate m < 2 ^ 32) (hsum : sum = batch_estimate msgs)
    (hlast : batch_estimate msgs.dropLast ≤ 4 * 1024 * 1024) :
    ∀ b ∈ batches_of l msgs sum, batch_estimate b.dropLast ≤ 4 * 1024 * 1024 := by
  induction l generalizing msgs sum with
  | nil =>
    intro b hb
    simp only [batches_of, List.mem_singleton] at hb
    rw [hb]
    exact hlast
  | cons m rest ih =>
    have hm : msg_estimate m < 2 ^ 32 := hfit m (by simp)
    have hrest : ∀ x ∈ rest, msg_estimate x < 2 ^ 32 := fun x hx => hfit x (by simp [hx])
    intro b hb
    simp only [batches_of] at hb
    split at hb
    · cases hb with
      | head => exact hlast
      | tail _ hb1 =>
        refine ih _ _ hrest ?_ ?_ b hb1
        · rw [List.nil_append, Nat.zero_add, msg_addend_eq m hm, Nat.mod_eq_of_lt (by omega)]
          simp [batch_estimate, to_msg, msg_estimate]
        · simp [batch_estimate]
    · rename_i hn
      have hle : sum ≤ 4 * 1024 * 1024 := by
        by_contra hgt
        exact hn (Or.inr (by omega))
      refine ih _ _ hrest ?_ ?_ b hb
      · rw [msg_addend_eq m hm, Nat.mod_eq_of_lt (by omega), batch_estimate_append_one, hsum]
      · rw [List.dropLast_concat, ← hsum]
        exact hle

theorem msg_estimate_big (n t : Nat) :
    msg_estimate { seqNum := n, ts := t, key := [], content := big_content } = 3145760 := by
  show ([] : List Nat).length + big_content.length + 32 = 3145760
  rw [big_content_length]
  rfl

theorem batch_msgs_pair (tp : topic_partition) (m1 m2 : consumed_msg)
    (h : msg_estimate m1 ≤ 4 * 1024 * 1024) :
    batch_msgs tp [m1, m2] [] 0 [] = [(tp, [to_msg m1, to_msg m2])] := by
  have h0 : msg_addend m1 = msg_estimate m1 := msg_addend_eq m1 (by omega)
  have h1 : msg_estimate m1 % 18446744073709551616 = msg_estimate m1 :=
    Nat.mod_eq_of_lt (by omega)
  have h2 : ¬ 4194304 < msg_estimate m1 := by omega
  simp [batch_msgs, h0, h1, h2]

theorem batch_estimate_pair (m1 m2 : consumed_msg) :
    batch_estimate [to_msg m1, to_msg m2] = msg_estimate m1 + msg_estimate m2 := by
  simp [batch_estimate, to_msg, msg_estimate]

/-- C9, as the code has it: the test `sum > 4 * 1024 * 1024` is made before a
message is added, so a batch is closed only after its estimate has passed 4 MiB.
Here two messages of 3 MiB go into one batch whose estimated payload is
6291520 bytes, more than 4 MiB. -/
theorem C9_counterexample :
    ∃ b, batch_msgs ("events", 0) two_big_msgs [] 0 [] = [(("events", 0), b)]
      ∧ batch_estimate b = 6291520 ∧ ¬ batch_estimate b ≤ 4 * 1024 * 1024 := by
  have e : batch_estimate (two_big_msgs.map to_msg) = 6291520 := by
    show batch_estimate [to_msg _, to_msg _] = 6291520
    rw [batch_estimate_pair, msg_estimate_big, msg_estimate_big]
  refine ⟨two_big_msgs.map to_msg, ?_, e, ?_⟩
  · exact batch_msgs_pair _ _ _ (by rw [msg_estimate_big]; decide)
  · rw [e]
    decide

/-- C9, amended: for consumed messages whose estimates are below 2^32, so that
the 32-bit sum of line 609 is the estimate itself, the batches the batcher
pushes hold the consumed messages in order, each with its content, timestamp
and key, and every batch has, with its last message left out, an estimated
payload of at most 4 MiB. -/
theorem C9_batch_without_last_within_4MiB (tp : topic_partition) (l : List consumed_msg)
    (outputs : List produce_output) (hfit : ∀ m ∈ l, msg_estimate m < 2 ^ 32) :
    ∃ batches : List (List msg),
      batch_msgs tp l [] 0 outputs = outputs ++ batches.map (fun b => (tp, b))
        ∧ batches.flatten
            = l.map (fun m => ({ content := m.content, ts := m.ts, key := m.key } : msg))
        ∧ ∀ b ∈ batches, batch_estimate b.dropLast ≤ 4 * 1024 * 1024 :=
  ⟨batches_of l [] 0, batch_msgs_eq tp l [] 0 outputs,
    by simpa using batches_of_flatten l [] 0,
    batches_of_dropLast_estimate l [] 0 hfit (by simp [batch_estimate])
      (by simp [batch_estimate])⟩

theorem C9_witness :
    ∃ batches : List (List msg),
      batch_msgs ("events", 0) two_big_msgs [] 0 []
          = [] ++ batches.map (fun b => (("events", 0), b))
        ∧ batches.flatten
            = two_big_msgs.map
                (fun m => ({ content := m.content, ts := m.ts, key := m.key } : msg))
        ∧ ∀ b ∈ batches, batch_estimate b.dropLast ≤ 4 * 1024 * 1024 :=
  C9_batch_without_last_within_4MiB ("events", 0) two_big_msgs [] (by
    intro m hm
    have hm2 : m = { seqNum := 0, ts := 0, key := [], content := big_content }
        ∨ m = { seqNum := 1, ts := 0, key := [], content := big_content } := by
      cases hm with
      | head => exact Or.inl rfl
      | tail _ h1 =>
        cases h1 with
        | head => exact Or.inr rfl
        | tail _ h2 => cases h2
    rcases hm2 with h | h <;> rw [h, msg_estimate_big] <;> decide)

theorem total_estimate_cons (m : consumed_msg) (l : List consumed_msg) :
    total_estimate (m :: l) = msg_estimate m + total_estimate l := by
  simp [total_estimate]

/-- While the estimates stay within 4 MiB the batcher cuts the messages into
consecutive pieces of 256. -/
theorem batches_of_chunks (l : List consumed_msg) (msgs : List msg) (sum : Nat)
    (hk : msgs.length ≤ 256) (hne : msgs ≠ [] ∨ l ≠ [])
    (hsum : sum + total_estimate l ≤ 4 * 1024 * 1024) :
    (batches_of l msgs sum).length = ((msgs ++ l.map to_msg).length + 255) / 256
      ∧ ∀ i, i < (batches_of l msgs sum).length →
          (batches_of l msgs sum)[i]?
            = some (((msgs ++ l.map to_msg).drop (256 * i)).take 256) := by
  induction l generalizing msgs sum with
  | nil =>
    have hm : msgs ≠ [] := hne.resolve_right (fun h => h rfl)
    have hpos : 0 < msgs.length := List.length_pos.2 hm
    simp only [batches_of, List.map_nil, List.append_nil, List.length_singleton]
    refine ⟨by omega, fun i hi => ?_⟩
    have hi0 : i = 0 := by omega
    subst hi0
    simp [List.take_of_length_le hk]
  | cons m rest ih =>
    rw [total_estimate_cons] at hsum
    have hle : ¬ sum > 4 * 1024 * 1024 := by omega
    simp only [batches_of]
    by_cases hfull : msgs.length = 256
    · rw [if_pos (Or.inl hfull)]
      have hmod : (0 + msg_addend m) % 2 ^ 64 = msg_estimate m := by
        rw [Nat.zero_add, msg_addend_eq m (by omega)]
        exact Nat.mod_eq_of_lt (by omega)
      rw [hmod]
      obtain ⟨h1, h2⟩ := ih ([] ++ [to_msg m]) (msg_estimate m) (by simp)
        (Or.inl (by simp)) (by omega)
      refine ⟨?_, fun i hi => ?_⟩
      · rw [List.length_cons, h1]
        simp only [List.length_append, List.length_map, List.length_cons, List.length_nil,
          hfull]
        omega
      · cases i with
        | zero =>
          simp only [List.getElem?_cons_zero, Nat.mul_zero, List.drop_zero]
          rw [List.take_append_of_le_length (by omega), List.take_of_length_le (by omega)]
        | succ j =>
          rw [List.getElem?_cons_succ, h2 j (by simpa using hi)]
          have hd : List.drop (256 * (j + 1)) (msgs ++ List.map to_msg (m :: rest))
              = List.drop (256 * j) ([] ++ [to_msg m] ++ List.map to_msg rest) := by
            have e : 256 * (j + 1) = msgs.length + 256 * j := by omega
            rw [e, List.drop_append]
            simp
          rw [hd]
    · have hnot : ¬ (msgs.length = 256 ∨ sum > 4 * 1024 * 1024) := by
        rintro (h | h)
        · exact hfull h
        · exact hle h
      rw [if_neg hnot]
      have hmod : (sum + msg_addend m) % 2 ^ 64 = sum + msg_estimate m := by
        rw [msg_addend_eq m (by omega)]
        exact Nat.mod_eq_of_lt (by omega)
      rw [hmod]
      have h := ih (msgs ++ [to_msg m]) (sum + msg_estimate m)
        (by simp; omega) (Or.inl (by simp)) (by omega)
      simpa using h

/-- C10: for n >= 1 consumed messages of one partition whose estimates sum to at
most 4 MiB, the batcher pushes (n + 255) / 256 batches, that is the ceiling of
n / 256; batch i is the piece of 256 messages that starts at message 256 * i, so
every batch but the last holds 256 messages and the last one holds the rest. -/
theorem C10_count_split_within_4MiB (tp : topic_partition) (l : List consumed_msg)
    (outputs : List produce_output) (hn : 1 ≤ l.length)
    (hsum : total_estimate l ≤ 4 * 1024 * 1024) :
    ∃ batches : List (List msg),
      batch_msgs tp l [] 0 outputs = outputs ++ batches.map (fun b => (tp, b))
        ∧ batches.length = (l.length + 255) / 256
        ∧ (∀ i, i < batches.length →
            batches[i]? = some (((l.map to_msg).drop (256 * i)).take 256))
        ∧ (∀ i b, batches[i]? = some b →
            b.length = if i + 1 < batches.length then 256
              else l.length - 256 * (batches.length - 1)) := by
  have hne : l ≠ [] := by
    intro h
    rw [h] at hn
    simp at hn
  obtain ⟨h1, h2⟩ := batches_of_chunks l [] 0 (by simp) (Or.inr hne) (by omega)
  simp only [List.nil_append, List.length_map] at h1 h2
  refine ⟨batches_of l [] 0, batch_msgs_eq tp l [] 0 outputs, h1, h2, fun i b hb => ?_⟩
  have hi : i < (batches_of l [] 0).length := by
    by_contra hge
    rw [List.getElem?_eq_none (by omega)] at hb
    cases hb
  rw [h2 i hi] at hb
  cases hb
  rw [h1] at hi ⊢
  simp only [List.length_take, List.length_drop, List.length_map]
  split <;> omega

theorem small_msgs_300_length : small_msgs_300.length = 300 := by
  simp [small_msgs_300]

theorem total_estimate_one_byte_msgs (n : Nat) :
    total_estimate ((List.range n).map fun i =>
      ({ seqNum := i, ts := 0, key := [], content := [i % 256] } : consumed_msg)) = 33 * n := by
  induction n with
  | zero => rfl
  | succ k ih =>
    simp only [total_estimate, List.range_succ, List.map_append, List.sum_append,
      List.map_cons, List.map_nil, List.sum_cons, List.sum_nil] at ih ⊢
    rw [ih]
    simp only [msg_estimate, List.length_nil, List.length_cons]
    omega

theorem small_msgs_300_estimate : total_estimate small_msgs_300 = 9900 :=
  total_estimate_one_byte_msgs 300

theorem C10_witness :
    ∃ batches : List (List msg),
      batch_msgs ("events", 0) small_msgs_300 [] 0 []
          = [] ++ batches.map (fun b => (("events", 0), b))
        ∧ batches.length = 2
        ∧ (∀ i, i < batches.length →
            batches[i]? = some (((small_msgs_300.map to_msg).drop (256 * i)).take 256))
        ∧ (∀ i b, batches[i]? = some b →
            b.length = if i + 1 < batches.length then 256
              else 300 - 256 * (batches.length - 1)) := by
  obtain ⟨batches, h1, h2, h3, h4⟩ :=
    C10_count_split_within_4MiB ("events", 0) small_msgs_300 []
      (by rw [small_msgs_300_length]; decide)
      (by rw [small_msgs_300_estimate]; decide)
  rw [small_msgs_300_length] at h2 h4
  exact ⟨batches, h1, h2, h3, h4⟩

/-! ## Contexts and the pending list -/

theorem deref_pending_lt (a : List partition_ctx) (p : Nat)
    (h : (deref a p).pending = true) : p < a.length := by
  by_contra hge
  have hnone : a[p]? = none := List.getElem?_eq_none (by omega)
  simp [deref, List.getD_eq_getElem?_getD, hnone] at h

theorem deref_set_next (a : List partition_ctx) (p q n : Nat) :
    deref (set_next a p n) q
      = if p = q ∧ p < a.length then { deref a p with next := n } else deref a q := by
  simp only [deref, set_next, List.getD_eq_getElem?_getD, List.getElem?_set]
  by_cases hpq : p = q
  · subst hpq
    by_cases hlt : p < a.length
    · simp [hlt]
    · have hnone : a[p]? = none := List.getElem?_eq_none (by omega)
      simp [hlt, hnone]
  · simp [hpq]

theorem deref_set_next_pending (a : List partition_ctx) (p q n : Nat) :
    (deref (set_next a p n) q).pending = (deref a q).pending := by
  rw [deref_set_next]
  split
  · rename_i h
    rw [← h.1]
  · rfl

theorem deref_set_next_id (a : List partition_ctx) (p q n : Nat) :
    (deref (set_next a p n) q).id = (deref a q).id := by
  rw [deref_set_next]
  split
  · rename_i h
    rw [← h.1]
  · rfl

theorem deref_set_next_self (a : List partition_ctx) (p n : Nat) (h : p < a.length) :
    (deref (set_next a p n) p).next = n := by
  rw [deref_set_next, if_pos ⟨rfl, h⟩]

theorem deref_set_next_other (a : List partition_ctx) (p q n : Nat) (h : p ≠ q) :
    (deref (set_next a p n) q).next = (deref a q).next := by
  rw [deref_set_next, if_neg (fun h1 => h h1.1)]

theorem set_next_length (a : List partition_ctx) (p n : Nat) :
    (set_next a p n).length = a.length := by
  simp [set_next]

theorem deref_set_pending_self_true (a : List partition_ctx) (p : Nat) (h : p < a.length) :
    (deref (set_pending a p true) p).pending = true := by
  rw [deref_set_pending, if_pos ⟨rfl, h⟩]

theorem deref_set_pending_other (a : List partition_ctx) (p q : Nat) (b : Bool)
    (h : p ≠ q) : deref (set_pending a p b) q = deref a q := by
  rw [deref_set_pending, if_neg (fun h1 => h h1.1)]

/-- The loop over the acknowledgments, one step, in terms of `enqueue`. -/
theorem on_acks_cons (it : produce_ack) (rest : List produce_ack) (s : MirrorState) :
    on_acks (it :: rest) s
      = match s.map.lookup it.partition with
        | none => Outcome.halted Halt.undefined s
        | some p => on_acks rest (enqueue s p) := by
  cases h : s.map.lookup it.partition with
  | none => simp [on_acks, h]
  | some p =>
    simp only [on_acks, h, enqueue]
    split <;> rfl

/-- The loop over the consumed entries, one step, in terms of `enqueue`. -/
theorem on_consumed_cons (topic : String) (it : partition_content)
    (rest : List partition_content) (s : MirrorState) :
    on_consumed topic (it :: rest) s
      = match s.map.lookup it.partition with
        | none =>
          if it.msgs.length ≠ 0 then
            Outcome.halted Halt.undefined
              { s with outputs := batch_msgs (topic, it.partition) it.msgs [] 0 s.outputs }
          else Outcome.halted Halt.undefined s
        | some p =>
          if it.msgs.length ≠ 0 then
            on_consumed topic rest
              { s with outputs := batch_msgs (topic, it.partition) it.msgs [] 0 s.outputs,
                       allocator := set_next s.allocator p it.next.seqNum }
          else
            on_consumed topic rest
              { enqueue s p with
                allocator := set_next (enqueue s p).allocator p it.next.seqNum } := by
  cases h : s.map.lookup it.partition with
  | none => simp [on_consumed, h]
  | some p =>
    simp only [on_consumed, h, enqueue]
    split
    · rfl
    · split <;> rfl

theorem cursor_inv_lookup (s : MirrorState) (h : cursor_inv s) (k : Nat) :
    s.map.lookup k = if k < s.allocator.length then some k else none := by
  rw [h.1, lookup_range_diag]

theorem cursor_inv_enqueue (s : MirrorState) (p : Nat) (h : cursor_inv s)
    (hp : p < s.allocator.length) : cursor_inv (enqueue s p) := by
  obtain ⟨h1, h2, h3, h4⟩ := h
  simp only [enqueue]
  split
  · rename_i hf
    have hfalse : (deref s.allocator p).pending = false := by simpa using hf
    have hnot : p ∉ s.pending := fun hin => by
      rw [(h3 p).2 hin] at hfalse
      cases hfalse
    refine ⟨?_, ?_, ?_, ?_⟩
    · simpa [set_pending_length] using h1
    · intro i hi
      rw [deref_set_pending_id]
      exact h2 i (by simpa [set_pending_length] using hi)
    · intro q
      simp only [List.mem_append, List.mem_singleton]
      by_cases hq : p = q
      · subst hq
        simp [deref_set_pending_self_true _ _ hp]
      · rw [deref_set_pending_other _ _ _ _ hq, h3 q]
        constructor
        · exact Or.inl
        · rintro (h5 | h5)
          · exact h5
          · exact absurd h5.symm hq
    · exact List.Nodup.append h4 (List.nodup_singleton p) (by simpa using hnot)
  · exact ⟨h1, h2, h3, h4⟩

theorem cursor_inv_set_next (s : MirrorState) (p n : Nat) (h : cursor_inv s) :
    cursor_inv { s with allocator := set_next s.allocator p n } := by
  obtain ⟨h1, h2, h3, h4⟩ := h
  refine ⟨?_, ?_, ?_, h4⟩
  · simpa [set_next_length] using h1
  · intro i hi
    rw [deref_set_next_id]
    exact h2 i (by simpa [set_next_length] using hi)
  · intro q
    rw [deref_set_next_pending]
    exact h3 q

theorem cursor_inv_congr (s t : MirrorState) (hm : t.map = s.map)
    (ha : t.allocator = s.allocator) (hp : t.pending = s.pending) (h : cursor_inv s) :
    cursor_inv t := by
  unfold cursor_inv at h ⊢
  rw [hm, ha, hp]
  exact h

theorem some_eq_of_cursor_inv_lookup (s : MirrorState) (h : cursor_inv s) (k p : Nat)
    (hl : s.map.lookup k = some p) : p = k ∧ k < s.allocator.length := by
  rw [cursor_inv_lookup s h] at hl
  split at hl
  · rename_i hk
    cases hl
    exact ⟨rfl, hk⟩
  · cases hl

theorem enqueue_allocator_length (s : MirrorState) (p : Nat) :
    (enqueue s p).allocator.length = s.allocator.length := by
  simp only [enqueue]
  split
  · simp [set_pending_length]
  · rfl

theorem enqueue_map (s : MirrorState) (p : Nat) : (enqueue s p).map = s.map := by
  simp only [enqueue]
  split <;> rfl

/-- Processing a consume response keeps the shape of the cursors. -/
theorem cursor_inv_on_consumed (topic : String) (l : List partition_content)
    (s s1 : MirrorState) (h : cursor_inv s)
    (hr : on_consumed topic l s = Outcome.running s1) :
    cursor_inv s1 ∧ s1.allocator.length = s.allocator.length ∧ s1.map = s.map := by
  induction l generalizing s with
  | nil =>
    cases hr
    exact ⟨h, rfl, rfl⟩
  | cons it rest ih =>
    rw [on_consumed_cons] at hr
    cases hl : s.map.lookup it.partition with
    | none =>
      rw [hl] at hr
      simp only at hr
      split at hr <;> cases hr
    | some p =>
      rw [hl] at hr
      simp only at hr
      obtain ⟨rfl, hk⟩ := some_eq_of_cursor_inv_lookup s h _ _ hl
      split at hr
      · have r := ih _ (cursor_inv_set_next
          { s with outputs := batch_msgs (topic, it.partition) it.msgs [] 0 s.outputs }
          it.partition it.next.seqNum (cursor_inv_congr s _ rfl rfl rfl h)) hr
        exact ⟨r.1, by simpa [set_next_length] using r.2.1, r.2.2⟩
      · have r := ih _ (cursor_inv_set_next (enqueue s it.partition) it.partition
          it.next.seqNum (cursor_inv_enqueue s _ h hk)) hr
        exact ⟨r.1, by simpa [set_next_length, enqueue_allocator_length] using r.2.1,
          by simpa [enqueue_map] using r.2.2⟩

/-- Processing acknowledgments keeps the shape of the cursors. -/
theorem cursor_inv_on_acks (l : List produce_ack) (s s1 : MirrorState) (h : cursor_inv s)
    (hr : on_acks l s = Outcome.running s1) :
    cursor_inv s1 ∧ s1.allocator.length = s.allocator.length ∧ s1.map = s.map := by
  induction l generalizing s with
  | nil =>
    cases hr
    exact ⟨h, rfl, rfl⟩
  | cons it rest ih =>
    rw [on_acks_cons] at hr
    cases hl : s.map.lookup it.partition with
    | none =>
      rw [hl] at hr
      cases hr
    | some p =>
      rw [hl] at hr
      simp only at hr
      obtain ⟨rfl, hk⟩ := some_eq_of_cursor_inv_lookup s h _ _ hl
      have r := ih _ (cursor_inv_enqueue s _ h hk) hr
      exact ⟨r.1, by simpa [enqueue_allocator_length] using r.2.1,
        by simpa [enqueue_map] using r.2.2⟩

/-- A scheduling step keeps the shape of the cursors. -/
theorem cursor_inv_schedule (topic : String) (s s1 : MirrorState) (ok : Bool)
    (h : cursor_inv s) (hr : schedule topic s ok = Outcome.running s1) :
    cursor_inv s1 ∧ s1.allocator.length = s.allocator.length ∧ s1.map = s.map := by
  simp only [schedule] at hr
  split at hr
  · rw [schedule_fold] at hr
    split at hr
    · cases hr
    · cases hr
      obtain ⟨h1, h2, h3, h4⟩ := h
      obtain ⟨f1, f2⟩ := fold_set_pending_frame s.pending s.allocator false
      refine ⟨⟨?_, ?_, ?_, List.nodup_nil⟩, f1, rfl⟩
      · simpa [f1] using h1
      · intro i hi
        rw [(f2 i).2]
        exact h2 i (by simpa [f1] using hi)
      · intro p
        simp only [List.not_mem_nil, iff_false, Bool.not_eq_true]
        by_cases hp : (deref s.allocator p).pending = true
        · exact fold_set_pending_false_mem _ _ p ((h3 p).1 hp)
        · exact fold_set_pending_false_keeps _ _ p (by simpa using hp)
  · cases hr
    exact ⟨h, rfl, rfl⟩

theorem cursor_inv_source_phase (topic : String) (s s1 : MirrorState) (a : Option Arrival)
    (ok : Bool) (h : cursor_inv s)
    (hr : source_phase topic s a ok = Outcome.running s1) :
    cursor_inv s1 ∧ s1.allocator.length = s.allocator.length ∧ s1.map = s.map := by
  simp only [source_phase] at hr
  split at hr
  · split at hr
    · cases hr
    · split at hr
      · obtain ⟨s2, h2, h3⟩ := Outcome.bind_eq_running _ _ _ hr
        have r := cursor_inv_on_consumed topic _ _ _
          (cursor_inv_congr s { s with tankClient := s.tankClient.poll a, outputs := [] }
            rfl rfl rfl h) h2
        split at h3
        · split at h3
          · cases h3
          · cases h3
            exact ⟨cursor_inv_congr s2 _ rfl rfl rfl r.1, r.2.1, r.2.2⟩
        · cases h3
          exact ⟨cursor_inv_congr s2 _ rfl rfl rfl r.1, r.2.1, r.2.2⟩
      · cases hr
        exact ⟨cursor_inv_congr s _ rfl rfl rfl h, rfl, rfl⟩
  · cases hr
    exact ⟨h, rfl, rfl⟩

theorem cursor_inv_dest_phase (s s1 : MirrorState) (a : Option Arrival)
    (h : cursor_inv s) (hr : dest_phase s a = Outcome.running s1) :
    cursor_inv s1 ∧ s1.allocator.length = s.allocator.length ∧ s1.map = s.map := by
  simp only [dest_phase] at hr
  split at hr
  · split at hr
    · cases hr
    · have r := cursor_inv_on_acks _ _ _
        (cursor_inv_congr s { s with dest := s.dest.poll a } rfl rfl rfl h) hr
      exact ⟨r.1, r.2.1, r.2.2⟩
  · cases hr
    exact ⟨h, rfl, rfl⟩

theorem cursor_inv_tick (topic : String) (s s1 : MirrorState) (e : TickEnv)
    (h : cursor_inv s) (hr : tick topic s e = Outcome.running s1) :
    cursor_inv s1 ∧ s1.allocator.length = s.allocator.length ∧ s1.map = s.map := by
  simp only [tick] at hr
  obtain ⟨s3, h3, h4⟩ := Outcome.bind_eq_running _ _ _ hr
  obtain ⟨s2, h2, h5⟩ := Outcome.bind_eq_running _ _ _ h3
  have r1 := cursor_inv_schedule _ _ _ _ h h2
  have r2 := cursor_inv_source_phase _ _ _ _ _ r1.1 h5
  have r3 := cursor_inv_dest_phase _ _ _ r2.1 h4
  exact ⟨r3.1, by rw [r3.2.1, r2.2.1, r1.2.1], by rw [r3.2.2, r2.2.2, r1.2.2]⟩

theorem cursor_inv_mirror_loop (topic : String) (es : List TickEnv) (s s1 : MirrorState)
    (h : cursor_inv s) (hr : mirror_loop topic s es = Outcome.running s1) :
    cursor_inv s1 ∧ s1.allocator.length = s.allocator.length := by
  induction es generalizing s with
  | nil =>
    cases hr
    exact ⟨h, rfl⟩
  | cons e rest ih =>
    simp only [mirror_loop] at hr
    obtain ⟨s2, h2, h3⟩ := Outcome.bind_eq_running _ _ _ hr
    have r := cursor_inv_tick _ _ _ _ h h2
    have r2 := ih s2 r.1 h3
    exact ⟨r2.1, by rw [r2.2, r.2.1]⟩

/-! ## Discovery, for every environment -/

theorem seed_partitions_fields_congr (w : List (Nat × Nat)) (s t : MirrorState)
    (ha : t.allocator = s.allocator) (hp : t.pending = s.pending) (hm : t.map = s.map) :
    (seed_partitions w t).allocator = (seed_partitions w s).allocator
      ∧ (seed_partitions w t).pending = (seed_partitions w s).pending
      ∧ (seed_partitions w t).map = (seed_partitions w s).map := by
  induction w generalizing s t with
  | nil => exact ⟨ha, hp, hm⟩
  | cons p ps ih =>
    simp only [seed_partitions]
    apply ih
    · simp [ha, hp]
    · simp [ha, hp]
    · simp [ha, hp, hm]

theorem seed_partitions_of_empty (w : List (Nat × Nat)) (s : MirrorState)
    (ha : s.allocator = []) (hp : s.pending = []) (hm : s.map = [])
    (hfit : w.length < 65536) :
    (seed_partitions w s).allocator = List.zipWith
        (fun i p => ({ id := i, pending := true, next := (p.2 + 1) % 2 ^ 64 } :
          partition_ctx)) (List.range w.length) w
      ∧ (seed_partitions w s).map = (List.range w.length).map (fun i => (i, i))
      ∧ (seed_partitions w s).pending = List.range w.length := by
  refine ⟨?_, ?_, ?_⟩
  · simp only [seed_partitions_allocator, ha, hp, List.nil_append, List.length_nil,
      List.range_eq_range']
    apply zipWith_range'_congr
    intro i p hi
    have : i % 65536 = i := Nat.mod_eq_of_lt (by omega)
    simp [this]
  · have h := seed_partitions_map w s 0 (by simp [hm]) (by simp [hp]) (by simp [ha])
      (by omega)
    simpa using h
  · simp [seed_partitions_pending, ha, hp, List.range_eq_range']

theorem discover_source_frame (l : List (Option Arrival)) (s s1 : MirrorState)
    (h : discover_source s l = Outcome.running s1) :
    s1.allocator = s.allocator ∧ s1.map = s.map ∧ s1.pending = s.pending
      ∧ s1.dest = s.dest ∧ s1.reqId2 = s.reqId2
      ∧ (s.srcPartitionsCnt < 65536 → s1.srcPartitionsCnt < 65536) := by
  induction l generalizing s with
  | nil =>
    simp only [discover_source] at h
    split at h
    · cases h
    · cases h
      exact ⟨rfl, rfl, rfl, rfl, rfl, id⟩
  | cons a rest ih =>
    simp only [discover_source] at h
    split at h
    · split at h
      · cases h
      · split at h
        · have r := ih _ h
          exact ⟨r.1, r.2.1, r.2.2.1, r.2.2.2.1, r.2.2.2.2.1, r.2.2.2.2.2⟩
        · split at h
          · have r := ih _ h
            exact ⟨r.1, r.2.1, r.2.2.1, r.2.2.2.1, r.2.2.2.2.1,
              fun _ => r.2.2.2.2.2 (Nat.mod_lt _ (by decide))⟩
          · cases h
    · cases h
      exact ⟨rfl, rfl, rfl, rfl, rfl, id⟩

theorem discover_dest_idle (l : List (Option Arrival)) (s : MirrorState)
    (h : s.dest.outstanding = []) : discover_dest s l = Outcome.running s := by
  have hsp : s.dest.should_poll = false := (TankClient.should_poll_eq_false_iff _).2 h
  cases l <;> simp [discover_dest, hsp]

theorem TankClient.poll_outstanding_length (c : TankClient) (a : Option Arrival) :
    (c.poll a).outstanding.length ≤ c.outstanding.length := by
  cases a with
  | none => exact Nat.le_refl _
  | some v => simp [TankClient.poll]

theorem TankClient.poll_discovered_outstanding (c : TankClient) (a : Option Arrival)
    (h : c.outstanding.length ≤ 1) (hd : (c.poll a).discovered_partitions ≠ []) :
    (c.poll a).outstanding = [] := by
  cases a with
  | none => exact absurd rfl hd
  | some v => exact tail_eq_nil_of_length_le_one _ h

/-- The destination loop seeds the contexts from one list of watermarks (the
empty list when no discovery record arrived). -/
theorem discover_dest_seeded (l : List (Option Arrival)) (s s1 : MirrorState)
    (hout : s.dest.outstanding.length ≤ 1)
    (h : discover_dest s l = Outcome.running s1) :
    ∃ w, s1.allocator = (seed_partitions w s).allocator
      ∧ s1.pending = (seed_partitions w s).pending
      ∧ s1.map = (seed_partitions w s).map
      ∧ s1.srcPartitionsCnt = s.srcPartitionsCnt := by
  induction l generalizing s with
  | nil =>
    simp only [discover_dest] at h
    split at h
    · cases h
    · cases h
      exact ⟨[], rfl, rfl, rfl, rfl⟩
  | cons a rest ih =>
    simp only [discover_dest] at h
    split at h
    · split at h
      · cases h
      · split at h
        · obtain ⟨w, r1, r2, r3, r4⟩ := ih { s with dest := s.dest.poll a }
            (Nat.le_trans (TankClient.poll_outstanding_length _ _) hout) h
          obtain ⟨c1, c2, c3⟩ := seed_partitions_fields_congr w s
            { s with dest := s.dest.poll a } rfl rfl rfl
          exact ⟨w, r1.trans c1, r2.trans c2, r3.trans c3, r4⟩
        · rename_i v vs hv
          split at h
          · have hidle : (s.dest.poll a).outstanding = [] :=
              TankClient.poll_discovered_outstanding _ _ hout (by
                intro h0
                rw [h0] at hv
                cases hv)
            rw [discover_dest_idle _ _ (by simpa using hidle)] at h
            cases h
            obtain ⟨c1, c2, c3⟩ := seed_partitions_fields_congr v.watermarks s
              { s with dest := s.dest.poll a } rfl rfl rfl
            exact ⟨v.watermarks, c1, c2, c3, by simp⟩
          · cases h
    · cases h
      exact ⟨[], rfl, rfl, rfl, rfl⟩

/-- Whatever the network does during discovery, the main loop is entered only
with contexts seeded from the watermarks of between 1 and 65535 partitions. -/
theorem mirror_discovery_running_seeded (topic : String) (env : DiscoveryEnv)
    (s : MirrorState) (h : mirror_discovery topic env = Outcome.running s) :
    ∃ w : List (Nat × Nat), 1 ≤ w.length ∧ w.length < 65536
      ∧ s.allocator = List.zipWith
          (fun i p => ({ id := i, pending := true, next := (p.2 + 1) % 2 ^ 64 } :
            partition_ctx)) (List.range w.length) w
      ∧ s.map = (List.range w.length).map (fun i => (i, i))
      ∧ s.pending = List.range w.length := by
  simp only [mirror_discovery] at h
  split at h
  · cases h
  · split at h
    · cases h
    · rename_i hr1 hr2
      obtain ⟨s5, h5, h6⟩ := Outcome.bind_eq_running _ _ _ h
      obtain ⟨s3, h3, h4⟩ := Outcome.bind_eq_running _ _ _ h5
      obtain ⟨s4, h4a, h4b⟩ := Outcome.bind_eq_running _ _ _ h4
      obtain ⟨f1, f2, f3, f4, -, f6⟩ := discover_source_frame _ _ _ h3
      have hcnt : s3.srcPartitionsCnt < 65536 := f6 (by simp [mirror_start])
      have hout : s3.dest.outstanding.length ≤ 1 := by
        rw [f4]
        cases env.dstOk <;>
          simp [TankClient.discover, TankClient.request, mirror_start, TankClient.fresh]
      obtain ⟨w, d1, d2, d3, d4⟩ := discover_dest_seeded _ _ _ hout h4a
      simp only [topology_check] at h4b
      split at h4b
      · cases h4b
      · rename_i hne
        split at h4b
        · cases h4b
        · rename_i heq
          cases h4b
          cases h6
          have hlen : s5.pending.length = w.length := by
            rw [d2, seed_partitions_pending_length, f3]
            simp [mirror_start]
          have hw : w.length < 65536 := by
            have : s5.srcPartitionsCnt = s5.pending.length := by simpa using heq
            omega
          have hpos : 1 ≤ w.length := by
            have : s5.pending ≠ [] := by simpa using hne
            have := List.length_pos.2 this
            omega
          obtain ⟨e1, e2, e3⟩ := seed_partitions_of_empty w s3
            (by rw [f1]; rfl) (by rw [f3]; rfl) (by rw [f2]; rfl) hw
          exact ⟨w, hpos, hw, d1.trans e1, d3.trans e2, d2.trans e3⟩

theorem deref_seeded (w : List (Nat × Nat)) (i : Nat) (hi : i < w.length) :
    deref (List.zipWith
        (fun i p => ({ id := i, pending := true, next := (p.2 + 1) % 2 ^ 64 } :
          partition_ctx)) (List.range w.length) w) i
      = { id := i, pending := true, next := ((w.getD i (0, 0)).2 + 1) % 2 ^ 64 } := by
  simp [deref, List.getD_eq_getElem?_getD, List.getElem?_zipWith, hi,
    List.getElem?_eq_getElem]

theorem cursor_inv_of_discovery (topic : String) (env : DiscoveryEnv) (s : MirrorState)
    (h : mirror_discovery topic env = Outcome.running s) : cursor_inv s := by
  obtain ⟨w, -, -, ha, hm, hp⟩ := mirror_discovery_running_seeded topic env s h
  have hlen : s.allocator.length = w.length := by simp [ha]
  refine ⟨by rw [hm, hlen], ?_, ?_, by rw [hp]; exact List.nodup_range _⟩
  · intro i hi
    rw [ha, deref_seeded w i (by omega)]
  · intro p
    rw [hp, List.mem_range]
    constructor
    · intro hpend
      have := deref_pending_lt _ _ hpend
      omega
    · intro hlt
      rw [ha, deref_seeded w p hlt]

theorem cursor_inv_mirror (topic : String) (env : MirrorEnv) (s : MirrorState)
    (h : mirror topic env = Outcome.running s) : cursor_inv s := by
  simp only [mirror] at h
  obtain ⟨s0, h0, h1⟩ := Outcome.bind_eq_running _ _ _ h
  exact (cursor_inv_mirror_loop _ _ _ _ (cursor_inv_of_discovery _ _ _ h0) h1).1

/-- C14: in every state the mirror command reaches between two iterations of its
main loop (the state after seeding being the first of them), and after the
scheduling step, the consume-result step and the acknowledgment step of the
next iteration, the cursors have the shape `cursor_inv`: a context is marked
pending if and only if it is in the `pending` list, the list has no context
twice, and the context of partition i is the i-th one and has id i. -/
theorem C14_ready_iff_in_queue (topic : String) (env : MirrorEnv) (s : MirrorState)
    (e : TickEnv) (h : mirror topic env = Outcome.running s) :
    ((∀ P, ready s P = true ↔ P ∈ s.pending) ∧ s.pending.Nodup ∧ cursor_inv s)
    ∧ ∀ s1, schedule topic s e.consumeOk = Outcome.running s1 →
        ((∀ P, ready s1 P = true ↔ P ∈ s1.pending) ∧ s1.pending.Nodup ∧ cursor_inv s1)
        ∧ ∀ s2, source_phase topic s1 e.srcArrived e.produceOk = Outcome.running s2 →
            ((∀ P, ready s2 P = true ↔ P ∈ s2.pending) ∧ s2.pending.Nodup ∧ cursor_inv s2)
            ∧ ∀ s3, dest_phase s2 e.dstArrived = Outcome.running s3 →
                ((∀ P, ready s3 P = true ↔ P ∈ s3.pending) ∧ s3.pending.Nodup
                  ∧ cursor_inv s3) := by
  have h0 := cursor_inv_mirror topic env s h
  refine ⟨⟨h0.2.2.1, h0.2.2.2, h0⟩, fun s1 hs1 => ?_⟩
  have h1 := (cursor_inv_schedule _ _ _ _ h0 hs1).1
  refine ⟨⟨h1.2.2.1, h1.2.2.2, h1⟩, fun s2 hs2 => ?_⟩
  have h2 := (cursor_inv_source_phase _ _ _ _ _ h1 hs2).1
  refine ⟨⟨h2.2.2.1, h2.2.2.2, h2⟩, fun s3 hs3 => ?_⟩
  have h3 := (cursor_inv_dest_phase _ _ _ h2 hs3).1
  exact ⟨h3.2.2.1, h3.2.2.2, h3⟩

theorem C14_witness :
    mirror "events" sample_env = Outcome.running (mirror "events" sample_env).state
      ∧ (mirror "events" sample_env).state.pending = [1]
      ∧ ((∀ P, ready (mirror "events" sample_env).state P = true
            ↔ P ∈ (mirror "events" sample_env).state.pending)
          ∧ (mirror "events" sample_env).state.pending.Nodup
          ∧ cursor_inv (mirror "events" sample_env).state) :=
  ⟨by rfl, by rfl, (C14_ready_iff_in_queue "events" sample_env _ idle_tick (by rfl)).1⟩

/-! ## Processing a consume response -/

theorem enqueue_ready_keeps (s : MirrorState) (p q : Nat)
    (h : (deref s.allocator q).pending = true) :
    (deref (enqueue s p).allocator q).pending = true := by
  simp only [enqueue]
  split
  · rw [deref_set_pending]
    split
    · rfl
    · exact h
  · exact h

theorem enqueue_ready_self (s : MirrorState) (p : Nat) (hp : p < s.allocator.length) :
    (deref (enqueue s p).allocator p).pending = true := by
  simp only [enqueue]
  split
  · exact deref_set_pending_self_true _ _ hp
  · rename_i h
    simpa using h

theorem enqueue_next (s : MirrorState) (p q : Nat) :
    (deref (enqueue s p).allocator q).next = (deref s.allocator q).next := by
  simp only [enqueue]
  split
  · exact deref_set_pending_next _ _ _ _
  · rfl

theorem enqueue_ready_other (s : MirrorState) (p q : Nat) (h : p ≠ q) :
    (deref (enqueue s p).allocator q).pending = (deref s.allocator q).pending := by
  simp only [enqueue]
  split
  · rw [deref_set_pending_other _ _ _ _ h]
  · rfl

/-- With every partition of the response known, the response is processed to
its end. -/
theorem on_consumed_total (topic : String) (l : List partition_content) (s : MirrorState)
    (h : cursor_inv s) (hk : ∀ it ∈ l, it.partition < s.allocator.length) :
    ∃ s1, on_consumed topic l s = Outcome.running s1 := by
  induction l generalizing s with
  | nil => exact ⟨s, rfl⟩
  | cons it rest ih =>
    have hit : it.partition < s.allocator.length := hk it (by simp)
    rw [on_consumed_cons, cursor_inv_lookup s h, if_pos hit]
    simp only
    split
    · apply ih
      · exact cursor_inv_set_next
          { s with outputs := batch_msgs (topic, it.partition) it.msgs [] 0 s.outputs }
          it.partition it.next.seqNum (cursor_inv_congr s _ rfl rfl rfl h)
      · intro x hx
        simpa [set_next_length] using hk x (by simp [hx])
    · apply ih
      · exact cursor_inv_set_next (enqueue s it.partition) it.partition it.next.seqNum
          (cursor_inv_enqueue s _ h hit)
      · intro x hx
        simpa [set_next_length, enqueue_allocator_length] using hk x (by simp [hx])

/-- A context that is pending stays pending while a response is processed. -/
theorem on_consumed_ready_keeps (topic : String) (l : List partition_content)
    (s s1 : MirrorState) (q : Nat) (hr : on_consumed topic l s = Outcome.running s1)
    (hq : (deref s.allocator q).pending = true) :
    (deref s1.allocator q).pending = true := by
  induction l generalizing s with
  | nil =>
    cases hr
    exact hq
  | cons it rest ih =>
    rw [on_consumed_cons] at hr
    cases hl : s.map.lookup it.partition with
    | none =>
      rw [hl] at hr
      simp only at hr
      split at hr <;> cases hr
    | some p =>
      rw [hl] at hr
      simp only at hr
      split at hr
      · exact ih _ hr (by
          show (deref (set_next s.allocator p it.next.seqNum) q).pending = true
          rw [deref_set_next_pending]
          exact hq)
      · exact ih _ hr (by
          show (deref (set_next (enqueue s p).allocator p it.next.seqNum) q).pending = true
          rw [deref_set_next_pending]
          exact enqueue_ready_keeps s p q hq)

/-- After a response was processed, the context of every entry without
messages is pending. -/
theorem on_consumed_ready_of_empty (topic : String) (l : List partition_content)
    (s s1 : MirrorState) (h : cursor_inv s)
    (hr : on_consumed topic l s = Outcome.running s1)
    (it : partition_content) (hit : it ∈ l) (hempty : it.msgs = []) :
    (deref s1.allocator it.partition).pending = true := by
  induction l generalizing s with
  | nil => cases hit
  | cons x rest ih =>
    rw [on_consumed_cons] at hr
    cases hl : s.map.lookup x.partition with
    | none =>
      rw [hl] at hr
      simp only at hr
      split at hr <;> cases hr
    | some p =>
      rw [hl] at hr
      simp only at hr
      obtain ⟨rfl, hk⟩ := some_eq_of_cursor_inv_lookup s h _ _ hl
      by_cases hx : it = x
      · subst hx
        rw [if_neg (by simp [hempty])] at hr
        exact on_consumed_ready_keeps topic rest _ s1 _ hr (by
          show (deref (set_next (enqueue s it.partition).allocator it.partition
            it.next.seqNum) it.partition).pending = true
          rw [deref_set_next_pending]
          exact enqueue_ready_self s _ hk)
      · have hin : it ∈ rest := by
          cases hit with
          | head => exact absurd rfl hx
          | tail _ h1 => exact h1
        split at hr
        · exact ih _ (cursor_inv_set_next
            { s with outputs := batch_msgs (topic, x.partition) x.msgs [] 0 s.outputs }
            x.partition x.next.seqNum (cursor_inv_congr s _ rfl rfl rfl h)) hr hin
        · exact ih _ (cursor_inv_set_next (enqueue s x.partition) x.partition
            x.next.seqNum (cursor_inv_enqueue s _ h hk)) hr hin

/-- Every entry of `outputs` after a response was processed was there before or
comes from an entry of the response that carries messages. -/
theorem on_consumed_outputs_mem (topic : String) (l : List partition_content)
    (s : MirrorState) :
    ∀ e ∈ (on_consumed topic l s).state.outputs,
      e ∈ s.outputs ∨ ∃ it ∈ l, it.msgs ≠ [] ∧ e.1 = (topic, it.partition) := by
  induction l generalizing s with
  | nil => exact fun e he => Or.inl he
  | cons it rest ih =>
    have hbatch : ∀ e ∈ batch_msgs (topic, it.partition) it.msgs [] 0 s.outputs,
        it.msgs.length ≠ 0 →
        e ∈ s.outputs ∨ ∃ x ∈ it :: rest, x.msgs ≠ [] ∧ e.1 = (topic, x.partition) := by
      intro e he hne
      rw [batch_msgs_eq, List.mem_append] at he
      cases he with
      | inl h1 => exact Or.inl h1
      | inr h1 =>
        obtain ⟨b, -, rfl⟩ := List.mem_map.1 h1
        exact Or.inr ⟨it, by simp, by
          intro h0
          rw [h0] at hne
          exact hne rfl, rfl⟩
    have hrest : ∀ (t : MirrorState),
        (∀ e ∈ t.outputs,
          e ∈ s.outputs ∨ ∃ x ∈ it :: rest, x.msgs ≠ [] ∧ e.1 = (topic, x.partition)) →
        ∀ e ∈ (on_consumed topic rest t).state.outputs,
          e ∈ s.outputs ∨ ∃ x ∈ it :: rest, x.msgs ≠ [] ∧ e.1 = (topic, x.partition) := by
      intro t ht e he
      cases ih t e he with
      | inl h1 => exact ht e h1
      | inr h1 =>
        obtain ⟨x, hx, h2⟩ := h1
        exact Or.inr ⟨x, by simp [hx], h2⟩
    rw [on_consumed_cons]
    cases hl : s.map.lookup it.partition with
    | none =>
      simp only
      split
      · rename_i hne
        exact fun e he => hbatch e he hne
      · exact fun e he => Or.inl he
    | some p =>
      simp only
      split
      · rename_i hne
        exact hrest _ (fun e he => hbatch e he hne)
      · apply hrest
        intro e he
        refine Or.inl ?_
        have : (enqueue s p).outputs = s.outputs := by
          simp only [enqueue]
          split <;> rfl
        rw [← this]
        exact he

theorem on_consumed_outputs_nil (topic : String) (l : List partition_content)
    (s : MirrorState) (hs : s.outputs = []) (hl : ∀ it ∈ l, it.msgs = []) :
    (on_consumed topic l s).state.outputs = [] := by
  apply List.eq_nil_iff_forall_not_mem.2
  intro e he
  cases on_consumed_outputs_mem topic l s e he with
  | inl h1 =>
    rw [hs] at h1
    cases h1
  | inr h1 =>
    obtain ⟨it, hit, hne, -⟩ := h1
    exact hne (hl it hit)

/-- A consume response whose entries all come without messages leads to no call
of the destination client. -/
theorem source_phase_no_produce (topic : String) (s : MirrorState) (a : Option Arrival)
    (ok : Bool) (hl : ∀ v, a = some v → ∀ it ∈ v.consumed, it.msgs = []) :
    (source_phase topic s a ok).state.dest = s.dest := by
  simp only [source_phase]
  split
  · split
    · rfl
    · split
      · have hcons : ∀ it ∈ (s.tankClient.poll a).consumed, it.msgs = [] := by
          cases a with
          | none =>
            intro it hit
            cases hit
          | some v => exact hl v rfl
        have hd := on_consumed_dest topic (s.tankClient.poll a).consumed
          { s with tankClient := s.tankClient.poll a, outputs := [] }
        have ho := on_consumed_outputs_nil topic (s.tankClient.poll a).consumed
          { s with tankClient := s.tankClient.poll a, outputs := [] } rfl hcons
        cases hc : on_consumed topic (s.tankClient.poll a).consumed
            { s with tankClient := s.tankClient.poll a, outputs := [] } with
        | running s2 =>
          rw [hc] at hd ho
          simp only [Outcome.state] at hd ho
          simp [Outcome.bind, Outcome.state, ho, hd]
        | halted c s2 =>
          rw [hc] at hd
          simpa [Outcome.bind, Outcome.state] using hd
      · rfl
  · rfl

/-- C11: when a consume response whose partitions are all known is processed,
every partition P with an entry without messages has its context pending and in
the `pending` list at the end of that same step, and `outputs` only holds
batches of entries that carry messages, so none for a partition whose entries
are all empty. When no entry of a response carries a message, the destination
client is handed nothing: no produce call is made. -/
theorem C11_empty_result_requeues_without_produce (topic : String) (s : MirrorState)
    (l : List partition_content) (arrived : Option Arrival) (ok : Bool)
    (hinv : cursor_inv s) (hk : ∀ it ∈ l, it.partition < s.allocator.length) :
    (∃ s1, on_consumed topic l { s with outputs := [] } = Outcome.running s1
      ∧ (∀ it ∈ l, it.msgs = [] →
          ready s1 it.partition = true ∧ it.partition ∈ s1.pending)
      ∧ (∀ e ∈ s1.outputs, ∃ it ∈ l, it.msgs ≠ [] ∧ e.1 = (topic, it.partition)))
    ∧ ((∀ a, arrived = some a → ∀ it ∈ a.consumed, it.msgs = []) →
        (source_phase topic s arrived ok).state.dest.calls = s.dest.calls) := by
  have hinv0 : cursor_inv { s with outputs := [] } := cursor_inv_congr s _ rfl rfl rfl hinv
  obtain ⟨s1, hs1⟩ := on_consumed_total topic l { s with outputs := [] } hinv0 hk
  have hinv1 := (cursor_inv_on_consumed topic l _ s1 hinv0 hs1).1
  refine ⟨⟨s1, hs1, ?_, ?_⟩, fun hl => ?_⟩
  · intro it hit hempty
    have hr := on_consumed_ready_of_empty topic l _ s1 hinv0 hs1 it hit hempty
    exact ⟨hr, (hinv1.2.2.1 _).1 hr⟩
  · intro e he
    have hm := on_consumed_outputs_mem topic l { s with outputs := [] } e
      (by rw [hs1]; exact he)
    cases hm with
    | inl h1 => cases h1
    | inr h1 => exact h1
  · rw [source_phase_no_produce topic s arrived ok hl]

theorem C11_witness :
    (∃ s1, on_consumed "events" sample_consumed.consumed
          { (mirror "events" ⟨sample_env.discovery, [idle_tick]⟩).state with outputs := [] }
        = Outcome.running s1
      ∧ (∀ it ∈ sample_consumed.consumed, it.msgs = [] →
          ready s1 it.partition = true ∧ it.partition ∈ s1.pending)
      ∧ (∀ e ∈ s1.outputs, ∃ it ∈ sample_consumed.consumed,
          it.msgs ≠ [] ∧ e.1 = ("events", it.partition)))
    ∧ ((∀ a, some stale_consumed = some a → ∀ it ∈ a.consumed, it.msgs = []) →
        (source_phase "events" (mirror "events" ⟨sample_env.discovery, [idle_tick]⟩).state
          (some stale_consumed) true).state.dest.calls
          = (mirror "events" ⟨sample_env.discovery, [idle_tick]⟩).state.dest.calls) :=
  C11_empty_result_requeues_without_produce "events"
    (mirror "events" ⟨sample_env.discovery, [idle_tick]⟩).state
    sample_consumed.consumed (some stale_consumed) true
    (cursor_inv_mirror "events" ⟨sample_env.discovery, [idle_tick]⟩ _ (by rfl))
    (by decide)

/-! ## The next sequence number of a cursor -/

/-- Processing a response is processing its first entry, then the others. -/
theorem on_consumed_cons_bind (topic : String) (it : partition_content)
    (rest : List partition_content) (s : MirrorState) :
    on_consumed topic (it :: rest) s
      = (on_consumed topic [it] s).bind (on_consumed topic rest) := by
  rw [on_consumed_cons, on_consumed_cons]
  cases s.map.lookup it.partition with
  | none =>
    simp only
    split <;> rfl
  | some p =>
    simp only
    split <;> rfl

theorem on_consumed_single_next (topic : String) (it : partition_content)
    (s : MirrorState) (h : cursor_inv s) (hk : it.partition < s.allocator.length) :
    ∃ s1, on_consumed topic [it] s = Outcome.running s1
      ∧ (deref s1.allocator it.partition).next = it.next.seqNum := by
  rw [on_consumed_cons, cursor_inv_lookup s h, if_pos hk]
  simp only
  split
  · exact ⟨_, rfl, deref_set_next_self _ _ _ hk⟩
  · exact ⟨_, rfl, deref_set_next_self _ _ _ (by rw [enqueue_allocator_length]; exact hk)⟩

/-- A response without an entry for a partition leaves the next sequence number
of its cursor alone. -/
theorem on_consumed_next_other (topic : String) (l : List partition_content)
    (s s1 : MirrorState) (q : Nat) (h : cursor_inv s)
    (hr : on_consumed topic l s = Outcome.running s1)
    (hq : ∀ it ∈ l, it.partition ≠ q) :
    (deref s1.allocator q).next = (deref s.allocator q).next := by
  induction l generalizing s with
  | nil =>
    cases hr
    rfl
  | cons x rest ih =>
    rw [on_consumed_cons] at hr
    cases hl : s.map.lookup x.partition with
    | none =>
      rw [hl] at hr
      simp only at hr
      split at hr <;> cases hr
    | some p =>
      rw [hl] at hr
      simp only at hr
      obtain ⟨rfl, hk⟩ := some_eq_of_cursor_inv_lookup s h _ _ hl
      have hx : x.partition ≠ q := hq x (by simp)
      have hrest : ∀ it ∈ rest, it.partition ≠ q := fun it hit => hq it (by simp [hit])
      split at hr
      · rw [ih _ (cursor_inv_set_next
          { s with outputs := batch_msgs (topic, x.partition) x.msgs [] 0 s.outputs }
          x.partition x.next.seqNum (cursor_inv_congr s _ rfl rfl rfl h)) hr hrest]
        exact deref_set_next_other _ _ _ _ hx
      · rw [ih _ (cursor_inv_set_next (enqueue s x.partition) x.partition
          x.next.seqNum (cursor_inv_enqueue s _ h hk)) hr hrest]
        show (deref (set_next (enqueue s x.partition).allocator x.partition
          x.next.seqNum) q).next = _
        rw [deref_set_next_other _ _ _ _ hx, enqueue_next]

theorem on_acks_next (l : List produce_ack) (s s1 : MirrorState) (q : Nat)
    (hr : on_acks l s = Outcome.running s1) :
    (deref s1.allocator q).next = (deref s.allocator q).next := by
  induction l generalizing s with
  | nil =>
    cases hr
    rfl
  | cons x rest ih =>
    rw [on_acks_cons] at hr
    cases hl : s.map.lookup x.partition with
    | none =>
      rw [hl] at hr
      cases hr
    | some p =>
      rw [hl] at hr
      simp only at hr
      rw [ih _ hr, enqueue_next]

theorem schedule_next (topic : String) (s s1 : MirrorState) (ok : Bool) (q : Nat)
    (hr : schedule topic s ok = Outcome.running s1) :
    (deref s1.allocator q).next = (deref s.allocator q).next := by
  simp only [schedule] at hr
  split at hr
  · rw [schedule_fold] at hr
    split at hr
    · cases hr
    · cases hr
      exact ((fold_set_pending_frame s.pending s.allocator false).2 q).1
  · cases hr
    rfl

theorem dest_phase_next (s s1 : MirrorState) (a : Option Arrival) (q : Nat)
    (hr : dest_phase s a = Outcome.running s1) :
    (deref s1.allocator q).next = (deref s.allocator q).next := by
  simp only [dest_phase] at hr
  split at hr
  · split at hr
    · cases hr
    · have r := on_acks_next _ _ _ q hr
      exact r
  · cases hr
    rfl

theorem TankClient.poll_consumed_mem (c : TankClient) (a : Option Arrival)
    (it : partition_content) (h : it ∈ (c.poll a).consumed) :
    ∃ v, a = some v ∧ it ∈ v.consumed := by
  cases a with
  | none => cases h
  | some v => exact ⟨v, rfl, h⟩

theorem source_phase_next_other (topic : String) (s s1 : MirrorState)
    (a : Option Arrival) (ok : Bool) (q : Nat) (h : cursor_inv s)
    (hr : source_phase topic s a ok = Outcome.running s1)
    (hq : ∀ v, a = some v → ∀ it ∈ v.consumed, it.partition ≠ q) :
    (deref s1.allocator q).next = (deref s.allocator q).next := by
  simp only [source_phase] at hr
  split at hr
  · split at hr
    · cases hr
    · split at hr
      · obtain ⟨s2, h2, h3⟩ := Outcome.bind_eq_running _ _ _ hr
        have r := on_consumed_next_other topic _ _ s2 q
          (cursor_inv_congr s { s with tankClient := s.tankClient.poll a, outputs := [] }
            rfl rfl rfl h) h2
          (fun it hit => by
            obtain ⟨v, hv, hin⟩ := TankClient.poll_consumed_mem _ _ _ hit
            exact hq v hv it hin)
        split at h3
        · split at h3
          · cases h3
          · cases h3
            exact r
        · cases h3
          exact r
      · cases hr
        rfl
  · cases hr
    rfl

/-- An iteration whose consume response has no entry for a partition leaves the
next sequence number of its cursor alone. -/
theorem tick_next_other (topic : String) (s s1 : MirrorState) (e : TickEnv) (q : Nat)
    (h : cursor_inv s) (hr : tick topic s e = Outcome.running s1)
    (hq : ∀ v, e.srcArrived = some v → ∀ it ∈ v.consumed, it.partition ≠ q) :
    (deref s1.allocator q).next = (deref s.allocator q).next := by
  simp only [tick] at hr
  obtain ⟨s3, h3, h4⟩ := Outcome.bind_eq_running _ _ _ hr
  obtain ⟨s2, h2, h5⟩ := Outcome.bind_eq_running _ _ _ h3
  rw [dest_phase_next _ _ _ q h4,
    source_phase_next_other topic _ _ _ _ q (cursor_inv_schedule _ _ _ _ h h2).1 h5 hq,
    schedule_next topic _ _ _ q h2]

/-- C12: in a state of the main loop, for a known partition P: processing a
consume response entry for P, whether it carries messages or not, leaves the
cursor of P with the next sequence number the entry reports (and a response is
processed entry by entry); an iteration whose consume response has no entry
for P does not change that number; and when the scheduler fires with P in the
pending list, the request it builds asks for P from that number and has no
other entry for P. -/
theorem C12_next_follows_the_response (topic : String) (s : MirrorState) (P : Nat)
    (hinv : cursor_inv s) (hP : P < s.allocator.length) :
    (∀ it : partition_content, it.partition = P →
        ∃ s1, on_consumed topic [it] s = Outcome.running s1
          ∧ next_of s1 P = it.next.seqNum)
    ∧ (∀ it rest, on_consumed topic (it :: rest) s
        = (on_consumed topic [it] s).bind (on_consumed topic rest))
    ∧ (∀ e s1, tick topic s e = Outcome.running s1 →
        (∀ a, e.srcArrived = some a → ∀ it ∈ a.consumed, it.partition ≠ P) →
        next_of s1 P = next_of s P)
    ∧ (∀ ok, schedule_cond s = true → P ∈ s.pending →
        ∃ inputs, (schedule topic s ok).state.tankClient.calls
            = s.tankClient.calls ++ [Request.consume inputs 4000 0]
          ∧ ((topic, P), (next_of s P, 4 * 1024 * 1024)) ∈ inputs
          ∧ ∀ x ∈ inputs, x.1 = (topic, P) → x.2 = (next_of s P, 4 * 1024 * 1024)) := by
  refine ⟨?_, fun it rest => on_consumed_cons_bind topic it rest s, ?_, ?_⟩
  · rintro it rfl
    exact on_consumed_single_next topic it s hinv hP
  · intro e s1 hr hq
    exact tick_next_other topic s s1 e P hinv hr hq
  · intro ok hc hin
    refine ⟨_, schedule_calls_of_cond topic s ok hc, ?_, ?_⟩
    · refine List.mem_map.2 ⟨P, hin, ?_⟩
      rw [hinv.2.1 P hP]
      rfl
    · intro x hx hx1
      obtain ⟨p, hp, rfl⟩ := List.mem_map.1 hx
      have hpl : p < s.allocator.length := deref_pending_lt _ _ ((hinv.2.2.1 p).2 hp)
      have hid : (deref s.allocator p).id = p := hinv.2.1 p hpl
      have hpP : p = P := by
        have := congrArg Prod.snd hx1
        simp only at this
        rw [hid] at this
        exact this
      rw [hpP]
      rfl

theorem C12_witness :
    (∀ it : partition_content, it.partition = 0 →
        ∃ s1, on_consumed "events" [it] (mirror "events" stale_env_before).state
            = Outcome.running s1
          ∧ next_of s1 0 = it.next.seqNum)
    ∧ next_of (mirror "events" stale_env_before).state 0 = 6
    ∧ next_of (mirror "events" stale_env_after).state 0 = 3 :=
  ⟨(C12_next_follows_the_response "events" (mirror "events" stale_env_before).state 0
      (cursor_inv_mirror "events" stale_env_before _ (by rfl)) (by decide)).1,
    by rfl, by rfl⟩

theorem entry_next (x : partition_content) (s : MirrorState) (q : Nat)
    (hk : x.partition < s.allocator.length) (n : Nat) (a : List partition_ctx)
    (ha : a.length = s.allocator.length)
    (hnext : ∀ r, (deref a r).next = (deref s.allocator r).next) :
    (deref (set_next a x.partition n) q).next
      = if x.partition = q then n else (deref s.allocator q).next := by
  by_cases hx : x.partition = q
  · subst hx
    rw [if_pos rfl, deref_set_next_self _ _ _ (by omega)]
  · rw [if_neg hx, deref_set_next_other _ _ _ _ hx, hnext]

/-- When a response has one entry per partition at most and every entry reports
a number that is not below the one its cursor holds, no cursor's next sequence
number gets smaller while the response is processed. -/
theorem on_consumed_next_mono (topic : String) (l : List partition_content)
    (s s1 : MirrorState) (h : cursor_inv s)
    (hr : on_consumed topic l s = Outcome.running s1)
    (hnd : (l.map fun it => it.partition).Nodup)
    (hahead : ∀ it ∈ l, (deref s.allocator it.partition).next ≤ it.next.seqNum) :
    ∀ q, (deref s.allocator q).next ≤ (deref s1.allocator q).next := by
  induction l generalizing s with
  | nil =>
    cases hr
    exact fun q => Nat.le_refl _
  | cons x rest ih =>
    rw [on_consumed_cons] at hr
    cases hl : s.map.lookup x.partition with
    | none =>
      rw [hl] at hr
      simp only at hr
      split at hr <;> cases hr
    | some p =>
      rw [hl] at hr
      simp only at hr
      obtain ⟨rfl, hk⟩ := some_eq_of_cursor_inv_lookup s h _ _ hl
      simp only [List.map_cons, List.nodup_cons, List.mem_map, not_exists, not_and] at hnd
      have hx := hahead x (by simp)
      have hstep : ∀ (m : MirrorState), cursor_inv m →
          (∀ q, (deref m.allocator q).next
            = if x.partition = q then x.next.seqNum else (deref s.allocator q).next) →
          on_consumed topic rest m = Outcome.running s1 →
          ∀ q, (deref s.allocator q).next ≤ (deref s1.allocator q).next := by
        intro m hm hmn hrm q
        have hrest := ih m hm hrm hnd.2 (fun it hit => by
          rw [hmn it.partition, if_neg (fun e => hnd.1 it hit e.symm)]
          exact hahead it (by simp [hit]))
        refine Nat.le_trans ?_ (hrest q)
        rw [hmn q]
        split
        · rename_i e
          rw [← e]
          exact hx
        · exact Nat.le_refl _
      split at hr
      · exact hstep _ (cursor_inv_set_next
          { s with outputs := batch_msgs (topic, x.partition) x.msgs [] 0 s.outputs }
          x.partition x.next.seqNum (cursor_inv_congr s _ rfl rfl rfl h))
          (fun q => entry_next x s q hk _ _ rfl (fun _ => rfl)) hr
      · exact hstep _ (cursor_inv_set_next (enqueue s x.partition) x.partition
          x.next.seqNum (cursor_inv_enqueue s _ h hk))
          (fun q => entry_next x s q hk _ _ (enqueue_allocator_length s _)
            (fun r => enqueue_next s _ r)) hr

theorem source_phase_next_mono (topic : String) (s s1 : MirrorState)
    (a : Option Arrival) (ok : Bool) (h : cursor_inv s)
    (hr : source_phase topic s a ok = Outcome.running s1)
    (hahead : ∀ v, a = some v → reports_ahead s v.consumed) :
    ∀ q, (deref s.allocator q).next ≤ (deref s1.allocator q).next := by
  simp only [source_phase] at hr
  split at hr
  · split at hr
    · cases hr
    · split at hr
      · obtain ⟨s2, h2, h3⟩ := Outcome.bind_eq_running _ _ _ hr
        have hra : reports_ahead s (s.tankClient.poll a).consumed := by
          cases a with
          | none => exact ⟨List.nodup_nil, fun it hit => by cases hit⟩
          | some v => exact hahead v rfl
        have r := on_consumed_next_mono topic _ _ s2
          (cursor_inv_congr s { s with tankClient := s.tankClient.poll a, outputs := [] }
            rfl rfl rfl h) h2 hra.1 hra.2
        split at h3
        · split at h3
          · cases h3
          · cases h3
            exact r
        · cases h3
          exact r
      · cases hr
        exact fun q => Nat.le_refl _
  · cases hr
    exact fun q => Nat.le_refl _

/-- C13, as the code has it: line 625 copies the next sequence number of the
response into the cursor without comparing. In this run the cursor of
partition 0 holds 6 after seeding; one iteration later a response that reports
3 has been processed and the cursor holds 3. -/
theorem C13_counterexample :
    mirror "events" stale_env_before
        = Outcome.running (mirror "events" stale_env_before).state
      ∧ tick "events" (mirror "events" stale_env_before).state
          { consumeOk := true, srcArrived := some stale_consumed, produceOk := true,
            dstArrived := none }
        = Outcome.running (mirror "events" stale_env_after).state
      ∧ next_of (mirror "events" stale_env_before).state 0 = 6
      ∧ next_of (mirror "events" stale_env_after).state 0 = 3
      ∧ ¬ next_of (mirror "events" stale_env_before).state 0
          ≤ next_of (mirror "events" stale_env_after).state 0 :=
  ⟨by rfl, by rfl, by rfl, by rfl, by decide⟩

/-- C13, amended: from a state of the main loop, an iteration whose consume
response has at most one entry per partition, each reporting a next sequence
number that is not below the one its cursor holds, makes no cursor's next
sequence number smaller. -/
theorem C13_next_non_decreasing_if_reports_ahead (topic : String) (env : MirrorEnv)
    (s s1 : MirrorState) (e : TickEnv) (h : mirror topic env = Outcome.running s)
    (ht : tick topic s e = Outcome.running s1)
    (hahead : ∀ a, e.srcArrived = some a → reports_ahead s a.consumed) :
    ∀ P, next_of s P ≤ next_of s1 P := by
  intro P
  have hinv := cursor_inv_mirror topic env s h
  simp only [tick] at ht
  obtain ⟨s3, h3, h4⟩ := Outcome.bind_eq_running _ _ _ ht
  obtain ⟨s2, h2, h5⟩ := Outcome.bind_eq_running _ _ _ h3
  have hn2 : ∀ q, (deref s2.allocator q).next = (deref s.allocator q).next :=
    fun q => schedule_next topic _ _ _ q h2
  have hmono := source_phase_next_mono topic s2 s3 _ _
    (cursor_inv_schedule _ _ _ _ hinv h2).1 h5 (fun v hv => by
      obtain ⟨g1, g2⟩ := hahead v hv
      exact ⟨g1, fun it hit => by
        show (deref s2.allocator it.partition).next ≤ _
        rw [hn2]
        exact g2 it hit⟩) P
  show (deref s.allocator P).next ≤ (deref s1.allocator P).next
  rw [dest_phase_next _ _ _ P h4, ← hn2 P]
  exact hmono

theorem C13_witness :
    next_of (mirror "events" ⟨sample_env.discovery, [idle_tick]⟩).state 0
        ≤ next_of (mirror "events" sample_env).state 0
      ∧ next_of (mirror "events" sample_env).state 0 = 7 :=
  ⟨C13_next_non_decreasing_if_reports_ahead "events" ⟨sample_env.discovery, [idle_tick]⟩
    _ _ { consumeOk := true, srcArrived := some sample_consumed, produceOk := true,
          dstArrived := none }
    (by rfl) (by rfl) (by
      intro a ha
      cases ha
      exact ⟨by decide, by decide⟩) 0, by rfl⟩

/-! ## Acknowledgments and `enqueue` -/

theorem on_acks_single (s : MirrorState) (P : Nat) (h : cursor_inv s)
    (hP : P < s.allocator.length) :
    on_acks [{ partition := P }] s = Outcome.running (enqueue s P) := by
  rw [on_acks_cons, cursor_inv_lookup s h, if_pos hP]
  rfl

theorem enqueue_of_ready (s : MirrorState) (p : Nat)
    (h : (deref s.allocator p).pending = true) : enqueue s p = s := by
  simp [enqueue, h]

theorem enqueue_idem (s : MirrorState) (p : Nat) (hp : p < s.allocator.length) :
    enqueue (enqueue s p) p = enqueue s p :=
  enqueue_of_ready _ _ (enqueue_ready_self s p hp)

/-- C15: in a state of the main loop, processing a produce acknowledgment for a
known partition P whose context is not pending appends that context to the
`pending` list and marks it pending; no context changes its next sequence
number or its id, and no other context changes its pending mark. -/
theorem C15_ack_requeues_cursor (s : MirrorState) (P : Nat) (hinv : cursor_inv s)
    (hP : P < s.allocator.length) (hnot : ready s P = false) :
    ∃ s1, on_acks [{ partition := P }] s = Outcome.running s1
      ∧ s1.pending = s.pending ++ [P]
      ∧ ready s1 P = true
      ∧ (∀ Q, next_of s1 Q = next_of s Q)
      ∧ (∀ Q, (deref s1.allocator Q).id = (deref s.allocator Q).id)
      ∧ (∀ Q, Q ≠ P → ready s1 Q = ready s Q) := by
  have hf : (deref s.allocator P).pending = false := hnot
  refine ⟨enqueue s P, on_acks_single s P hinv hP, ?_, enqueue_ready_self s P hP,
    fun Q => enqueue_next s P Q, ?_, fun Q hQ => enqueue_ready_other s P Q (Ne.symm hQ)⟩
  · simp [enqueue, hf]
  · intro Q
    simp only [enqueue, hf, Bool.not_false, if_true]
    exact deref_set_pending_id _ _ _ _

theorem C15_witness :
    ∃ s1, on_acks [{ partition := 0 }] (mirror "events" sample_env).state
        = Outcome.running s1
      ∧ s1.pending = (mirror "events" sample_env).state.pending ++ [0]
      ∧ ready s1 0 = true
      ∧ (∀ Q, next_of s1 Q = next_of (mirror "events" sample_env).state Q)
      ∧ (∀ Q, (deref s1.allocator Q).id
          = (deref (mirror "events" sample_env).state.allocator Q).id)
      ∧ (∀ Q, Q ≠ 0 → ready s1 Q = ready (mirror "events" sample_env).state Q) :=
  C15_ack_requeues_cursor (mirror "events" sample_env).state 0
    (cursor_inv_mirror "events" sample_env _ (by rfl)) (by decide) (by rfl)

/-- C16: `enqueue` is the block of lines 660-664 that an acknowledgment runs.
For a context of the allocator, enqueueing twice is enqueueing once; enqueueing
a context that is already pending changes nothing in the state; and in a state
of the main loop two acknowledgments for the same known partition have the
effect of one, after which the partition is in the `pending` list once. -/
theorem C16_enqueue_idempotent (s : MirrorState) (P : Nat) (hinv : cursor_inv s)
    (hP : P < s.allocator.length) :
    on_acks [{ partition := P }] s = Outcome.running (enqueue s P)
      ∧ enqueue (enqueue s P) P = enqueue s P
      ∧ (ready s P = true → enqueue s P = s)
      ∧ on_acks [{ partition := P }, { partition := P }] s
          = on_acks [{ partition := P }] s
      ∧ (enqueue s P).pending.count P = 1
      ∧ (∀ (topic : String) (it : partition_content), it.partition = P → it.msgs = [] →
          on_consumed topic [it] s = Outcome.running
            { enqueue s P with
              allocator := set_next (enqueue s P).allocator P it.next.seqNum }) := by
  have h1 := on_acks_single s P hinv hP
  have hinv1 := cursor_inv_enqueue s P hinv hP
  refine ⟨h1, enqueue_idem s P hP, fun hr => enqueue_of_ready s P hr, ?_, ?_, ?_⟩
  rotate_left
  · exact List.count_eq_one_of_mem hinv1.2.2.2
      ((hinv1.2.2.1 P).1 (enqueue_ready_self s P hP))
  · rintro topic it rfl hempty
    rw [on_consumed_cons, cursor_inv_lookup s hinv, if_pos hP]
    simp [hempty, on_consumed]
  · rw [on_acks_cons, cursor_inv_lookup s hinv, if_pos hP]
    simp only
    rw [on_acks_single (enqueue s P) P hinv1 (by rw [enqueue_allocator_length]; exact hP),
      enqueue_idem s P hP, h1]

theorem C16_witness :
    on_acks [{ partition := 0 }] (mirror "events" sample_env).state
        = Outcome.running (enqueue (mirror "events" sample_env).state 0)
      ∧ enqueue (enqueue (mirror "events" sample_env).state 0) 0
          = enqueue (mirror "events" sample_env).state 0
      ∧ (ready (mirror "events" sample_env).state 0 = true →
          enqueue (mirror "events" sample_env).state 0 = (mirror "events" sample_env).state)
      ∧ on_acks [{ partition := 0 }, { partition := 0 }] (mirror "events" sample_env).state
          = on_acks [{ partition := 0 }] (mirror "events" sample_env).state
      ∧ (enqueue (mirror "events" sample_env).state 0).pending.count 0 = 1 := by
  obtain ⟨h1, h2, h3, h4, h5, -⟩ :=
    C16_enqueue_idempotent (mirror "events" sample_env).state 0
      (cursor_inv_mirror "events" sample_env _ (by rfl)) (by decide)
  exact ⟨h1, h2, h3, h4, h5⟩

/-! ## What makes a cursor ready again -/

theorem enqueue_ready_origin (s : MirrorState) (p q : Nat)
    (h : (deref (enqueue s p).allocator q).pending = true) :
    (deref s.allocator q).pending = true ∨ p = q := by
  by_cases hpq : p = q
  · exact Or.inr hpq
  · rw [enqueue_ready_other s p q hpq] at h
    exact Or.inl h

theorem on_consumed_ready_origin (topic : String) (l : List partition_content)
    (s s1 : MirrorState) (q : Nat) (h : cursor_inv s)
    (hr : on_consumed topic l s = Outcome.running s1)
    (hq : (deref s1.allocator q).pending = true) :
    (deref s.allocator q).pending = true
      ∨ ∃ it ∈ l, it.partition = q ∧ it.msgs = [] := by
  induction l generalizing s with
  | nil =>
    cases hr
    exact Or.inl hq
  | cons x rest ih =>
    rw [on_consumed_cons] at hr
    cases hl : s.map.lookup x.partition with
    | none =>
      rw [hl] at hr
      simp only at hr
      split at hr <;> cases hr
    | some p =>
      rw [hl] at hr
      simp only at hr
      obtain ⟨rfl, hk⟩ := some_eq_of_cursor_inv_lookup s h _ _ hl
      split at hr
      · cases ih _ (cursor_inv_set_next
          { s with outputs := batch_msgs (topic, x.partition) x.msgs [] 0 s.outputs }
          x.partition x.next.seqNum (cursor_inv_congr s _ rfl rfl rfl h)) hr with
        | inl h1 =>
          refine Or.inl ?_
          have h2 : (deref (set_next s.allocator x.partition x.next.seqNum) q).pending
              = true := h1
          rw [deref_set_next_pending] at h2
          exact h2
        | inr h1 =>
          obtain ⟨it, hit, h2⟩ := h1
          exact Or.inr ⟨it, by simp [hit], h2⟩
      · rename_i hlen
        have hempty : x.msgs = [] := by
          cases hm : x.msgs with
          | nil => rfl
          | cons m ms =>
            rw [hm] at hlen
            simp at hlen
        cases ih _ (cursor_inv_set_next (enqueue s x.partition) x.partition
          x.next.seqNum (cursor_inv_enqueue s _ h hk)) hr with
        | inl h1 =>
          have h2 : (deref (set_next (enqueue s x.partition).allocator x.partition
              x.next.seqNum) q).pending = true := h1
          rw [deref_set_next_pending] at h2
          cases enqueue_ready_origin s _ q h2 with
          | inl h3 => exact Or.inl h3
          | inr h3 => exact Or.inr ⟨x, by simp, h3, hempty⟩
        | inr h1 =>
          obtain ⟨it, hit, h2⟩ := h1
          exact Or.inr ⟨it, by simp [hit], h2⟩

theorem on_acks_ready_origin (l : List produce_ack) (s s1 : MirrorState) (q : Nat)
    (h : cursor_inv s) (hr : on_acks l s = Outcome.running s1)
    (hq : (deref s1.allocator q).pending = true) :
    (deref s.allocator q).pending = true ∨ ∃ it ∈ l, it.partition = q := by
  induction l generalizing s with
  | nil =>
    cases hr
    exact Or.inl hq
  | cons x rest ih =>
    rw [on_acks_cons] at hr
    cases hl : s.map.lookup x.partition with
    | none =>
      rw [hl] at hr
      cases hr
    | some p =>
      rw [hl] at hr
      simp only at hr
      obtain ⟨rfl, hk⟩ := some_eq_of_cursor_inv_lookup s h _ _ hl
      cases ih _ (cursor_inv_enqueue s _ h hk) hr with
      | inl h1 =>
        cases enqueue_ready_origin s _ q h1 with
        | inl h3 => exact Or.inl h3
        | inr h3 => exact Or.inr ⟨x, by simp, h3⟩
      | inr h1 =>
        obtain ⟨it, hit, h2⟩ := h1
        exact Or.inr ⟨it, by simp [hit], h2⟩

theorem schedule_ready_origin (topic : String) (s s1 : MirrorState) (ok : Bool) (q : Nat)
    (h : cursor_inv s) (hr : schedule topic s ok = Outcome.running s1)
    (hq : (deref s1.allocator q).pending = true) :
    (deref s.allocator q).pending = true ∧ schedule_cond s = false := by
  have hinv1 := (cursor_inv_schedule topic s s1 ok h hr).1
  simp only [schedule] at hr
  split at hr
  · rw [schedule_fold] at hr
    split at hr
    · cases hr
    · cases hr
      have := (hinv1.2.2.1 q).1 hq
      cases this
  · rename_i hc
    cases hr
    exact ⟨hq, by simpa using hc⟩

theorem source_phase_ready_origin (topic : String) (s s1 : MirrorState)
    (a : Option Arrival) (ok : Bool) (q : Nat) (h : cursor_inv s)
    (hr : source_phase topic s a ok = Outcome.running s1)
    (hq : (deref s1.allocator q).pending = true) :
    (deref s.allocator q).pending = true ∨ empty_result_for a q := by
  simp only [source_phase] at hr
  split at hr
  · split at hr
    · cases hr
    · split at hr
      · obtain ⟨s2, h2, h3⟩ := Outcome.bind_eq_running _ _ _ hr
        have hq2 : (deref s2.allocator q).pending = true := by
          split at h3
          · split at h3
            · cases h3
            · cases h3
              exact hq
          · cases h3
            exact hq
        cases on_consumed_ready_origin topic _ _ s2 q
          (cursor_inv_congr s { s with tankClient := s.tankClient.poll a, outputs := [] }
            rfl rfl rfl h) h2 hq2 with
        | inl h4 => exact Or.inl h4
        | inr h4 =>
          obtain ⟨it, hit, h5, h6⟩ := h4
          obtain ⟨v, hv, hin⟩ := TankClient.poll_consumed_mem _ _ _ hit
          exact Or.inr ⟨v, hv, it, hin, h5, h6⟩
      · cases hr
        exact Or.inl hq
  · cases hr
    exact Or.inl hq

theorem TankClient.poll_acks_mem (c : TankClient) (a : Option Arrival)
    (it : produce_ack) (h : it ∈ (c.poll a).produce_acks) :
    ∃ v, a = some v ∧ it ∈ v.produce_acks := by
  cases a with
  | none => cases h
  | some v => exact ⟨v, rfl, h⟩

theorem dest_phase_ready_origin (s s1 : MirrorState) (a : Option Arrival) (q : Nat)
    (h : cursor_inv s) (hr : dest_phase s a = Outcome.running s1)
    (hq : (deref s1.allocator q).pending = true) :
    (deref s.allocator q).pending = true ∨ ack_for a q := by
  simp only [dest_phase] at hr
  split at hr
  · split at hr
    · cases hr
    · have r := on_acks_ready_origin _ _ s1 q
        (cursor_inv_congr s { s with dest := s.dest.poll a } rfl rfl rfl h) hr hq
      cases r with
      | inl h4 => exact Or.inl h4
      | inr h4 =>
        obtain ⟨it, hit, h5⟩ := h4
        obtain ⟨v, hv, hin⟩ := TankClient.poll_acks_mem _ _ _ hit
        exact Or.inr ⟨v, hv, it, hin, h5⟩
  · cases hr
    exact Or.inl hq

/-- C17: over one iteration of the main loop, a cursor is ready at the end only
if it was ready at the start and the scheduler did not fire, or the consume
response of the iteration has an entry without messages for its partition, or
a produce acknowledgment for its partition arrived. So a cursor that was
scheduled, or was not ready, is still not ready and not in the `pending` list
after an iteration that brings neither of the two: a response entry with
messages does not make it ready. -/
theorem C17_only_empty_result_or_ack_requeues (topic : String) (s s1 : MirrorState)
    (e : TickEnv) (P : Nat) (hinv : cursor_inv s)
    (ht : tick topic s e = Outcome.running s1) :
    (ready s1 P = true →
        (ready s P = true ∧ schedule_cond s = false)
          ∨ empty_result_for e.srcArrived P ∨ ack_for e.dstArrived P)
    ∧ (P ∈ s1.pending ↔ ready s1 P = true)
    ∧ ((schedule_cond s = true ∨ ready s P = false) →
        ¬ empty_result_for e.srcArrived P → ¬ ack_for e.dstArrived P →
        ready s1 P = false ∧ P ∉ s1.pending) := by
  have hinv1 := (cursor_inv_tick topic s s1 e hinv ht).1
  have key : ready s1 P = true →
      (ready s P = true ∧ schedule_cond s = false)
        ∨ empty_result_for e.srcArrived P ∨ ack_for e.dstArrived P := by
    intro hr
    simp only [tick] at ht
    obtain ⟨s3, h3, h4⟩ := Outcome.bind_eq_running _ _ _ ht
    obtain ⟨s2, h2, h5⟩ := Outcome.bind_eq_running _ _ _ h3
    have i2 := (cursor_inv_schedule _ _ _ _ hinv h2).1
    have i3 := (cursor_inv_source_phase _ _ _ _ _ i2 h5).1
    cases dest_phase_ready_origin s3 s1 _ P i3 h4 hr with
    | inr hack => exact Or.inr (Or.inr hack)
    | inl hr3 =>
      cases source_phase_ready_origin topic s2 s3 _ _ P i2 h5 hr3 with
      | inr hemp => exact Or.inr (Or.inl hemp)
      | inl hr2 => exact Or.inl (schedule_ready_origin topic s s2 _ P hinv h2 hr2)
  refine ⟨key, (hinv1.2.2.1 P).symm, fun hpre hne hna => ?_⟩
  have hnot : ¬ ready s1 P = true := by
    intro hr
    rcases key hr with ⟨h1, h2⟩ | h3 | h4
    · cases hpre with
      | inl hc =>
        rw [hc] at h2
        cases h2
      | inr hf =>
        rw [hf] at h1
        cases h1
    · exact hne h3
    · exact hna h4
  exact ⟨by simpa using hnot, fun hin => hnot ((hinv1.2.2.1 P).2 hin)⟩

theorem C17_witness :
    (ready (mirror "events" sample_env).state 0 = true →
        (ready (mirror "events" ⟨sample_env.discovery, [idle_tick]⟩).state 0 = true
            ∧ schedule_cond (mirror "events" ⟨sample_env.discovery, [idle_tick]⟩).state = false)
          ∨ empty_result_for (some sample_consumed) 0 ∨ ack_for none 0)
    ∧ (0 ∈ (mirror "events" sample_env).state.pending
        ↔ ready (mirror "events" sample_env).state 0 = true)
    ∧ ((schedule_cond (mirror "events" ⟨sample_env.discovery, [idle_tick]⟩).state = true
          ∨ ready (mirror "events" ⟨sample_env.discovery, [idle_tick]⟩).state 0 = false) →
        ¬ empty_result_for (some sample_consumed) 0 → ¬ ack_for none 0 →
        ready (mirror "events" sample_env).state 0 = false
          ∧ 0 ∉ (mirror "events" sample_env).state.pending) :=
  C17_only_empty_result_or_ack_requeues "events"
    (mirror "events" ⟨sample_env.discovery, [idle_tick]⟩).state
    (mirror "events" sample_env).state
    { consumeOk := true, srcArrived := some sample_consumed, produceOk := true,
      dstArrived := none } 0
    (cursor_inv_mirror "events" ⟨sample_env.discovery, [idle_tick]⟩ _ (by rfl)) (by rfl)

/-! ## One request at a time -/

theorem source_phase_dest_calls_of_idle (topic : String) (s : MirrorState)
    (a : Option Arrival) (ok : Bool) (h : s.tankClient.should_poll = false) :
    source_phase topic s a ok = Outcome.running s := by
  simp [source_phase, h]

/-- C18: in every state the mirror command reaches between two iterations of its
main loop, and after the scheduling step and the source step of the next
iteration, each client handle has at most one request outstanding. The
scheduler hands over a consume request only when the source has none
outstanding, and a produce request is handed over only when the destination
has none outstanding. -/
theorem C18_one_request_per_handle (topic : String) (env : MirrorEnv) (s : MirrorState)
    (e : TickEnv) (h : mirror topic env = Outcome.running s) :
    (s.tankClient.outstanding.length ≤ 1 ∧ s.dest.outstanding.length ≤ 1)
    ∧ (schedule_cond s = true → s.tankClient.outstanding = [])
    ∧ ∀ s1, schedule topic s e.consumeOk = Outcome.running s1 →
        (s1.tankClient.outstanding.length ≤ 1 ∧ s1.dest.outstanding.length ≤ 1)
        ∧ ((source_phase topic s1 e.srcArrived e.produceOk).state.dest.calls
              ≠ s1.dest.calls → s1.dest.outstanding = [])
        ∧ ∀ s2, source_phase topic s1 e.srcArrived e.produceOk = Outcome.running s2 →
            s2.tankClient.outstanding.length ≤ 1 ∧ s2.dest.outstanding.length ≤ 1 := by
  have h0 := loop_inv_mirror topic env s h
  refine ⟨⟨h0.1, h0.2.1⟩, fun hc => h0.2.2.2 ((schedule_cond_iff s).1 hc).1,
    fun s1 hs1 => ?_⟩
  have h1 := loop_inv_schedule topic s s1 _ h0 hs1
  refine ⟨⟨h1.1, h1.2.1⟩, fun hcalls => ?_, fun s2 hs2 => ?_⟩
  · by_cases hsp : s1.tankClient.should_poll = true
    · exact h1.2.2.1.resolve_left ((TankClient.should_poll_eq_true_iff _).1 hsp)
    · rw [source_phase_dest_calls_of_idle topic s1 _ _ (by simpa using hsp)] at hcalls
      exact absurd rfl hcalls
  · have h2 := loop_inv_source_phase topic s1 s2 _ _ h1 hs2
    exact ⟨h2.1, h2.2.1⟩

theorem C18_witness :
    mirror "events" sample_env = Outcome.running (mirror "events" sample_env).state
      ∧ (mirror "events" sample_env).state.dest.outstanding = [2]
      ∧ ((mirror "events" sample_env).state.tankClient.outstanding.length ≤ 1
          ∧ (mirror "events" sample_env).state.dest.outstanding.length ≤ 1) :=
  ⟨by rfl, by rfl, (C18_one_request_per_handle "events" sample_env _ idle_tick (by rfl)).1⟩

/-! ## Faults -/

theorem discover_source_faults (l : List (Option Arrival)) (s s1 : MirrorState)
    (hs : s.tankClient.faults = []) (h : discover_source s l = Outcome.running s1) :
    s1.tankClient.faults = [] := by
  induction l generalizing s with
  | nil =>
    simp only [discover_source] at h
    split at h
    · cases h
    · cases h
      exact hs
  | cons a rest ih =>
    simp only [discover_source] at h
    split at h
    · split at h
      · cases h
      · rename_i hf
        have hf1 : (s.tankClient.poll a).faults = [] := by simpa using hf
        split at h
        · have r := ih _ hf1 h
          exact r
        · split at h
          · have r := ih _ hf1 h
            exact r
          · cases h
    · cases h
      exact hs

theorem seed_partitions_keeps_dest_faults (w : List (Nat × Nat)) (s : MirrorState) :
    (seed_partitions w s).dest.faults = s.dest.faults := by
  rw [seed_partitions_dest]

theorem discover_dest_faults (l : List (Option Arrival)) (s s1 : MirrorState)
    (hs : s.dest.faults = []) (h : discover_dest s l = Outcome.running s1) :
    s1.dest.faults = [] := by
  induction l generalizing s with
  | nil =>
    simp only [discover_dest] at h
    split at h
    · cases h
    · cases h
      exact hs
  | cons a rest ih =>
    simp only [discover_dest] at h
    split at h
    · split at h
      · cases h
      · rename_i hf
        have hf1 : (s.dest.poll a).faults = [] := by simpa using hf
        split at h
        · have r := ih _ hf1 h
          exact r
        · split at h
          · have r := ih _ (by rw [seed_partitions_keeps_dest_faults]; exact hf1) h
            exact r
          · cases h
    · cases h
      exact hs

theorem no_fault_reported_of_discovery (topic : String) (env : DiscoveryEnv)
    (s : MirrorState) (h : mirror_discovery topic env = Outcome.running s) :
    no_fault_reported s := by
  simp only [mirror_discovery] at h
  split at h
  · cases h
  · split at h
    · cases h
    · obtain ⟨s5, h5, h6⟩ := Outcome.bind_eq_running _ _ _ h
      obtain ⟨s3, h3, h4⟩ := Outcome.bind_eq_running _ _ _ h5
      obtain ⟨s4, h4a, h4b⟩ := Outcome.bind_eq_running _ _ _ h4
      have a1 := discover_source_faults _ _ _ (by
        cases env.srcOk <;>
          simp [TankClient.discover, TankClient.request, mirror_start, TankClient.fresh]) h3
      have a2 := (discover_source_frame _ _ _ h3).2.2.2.1
      have b1 := discover_dest_faults _ _ _ (by
        rw [a2]
        cases env.dstOk <;>
          simp [TankClient.discover, TankClient.request, mirror_start, TankClient.fresh]) h4a
      have b2 := (discover_dest_running _ _ _ h4a).2
      simp only [topology_check] at h4b
      split at h4b
      · cases h4b
      · split at h4b
        · cases h4b
        · cases h4b
          cases h6
          exact ⟨by rw [b2]; exact a1, b1⟩

theorem no_fault_reported_tick (topic : String) (s s1 : MirrorState) (e : TickEnv)
    (hs : no_fault_reported s) (h : tick topic s e = Outcome.running s1) :
    no_fault_reported s1 := by
  simp only [tick] at h
  obtain ⟨s3, h3, h4⟩ := Outcome.bind_eq_running _ _ _ h
  obtain ⟨s2, h2, h5⟩ := Outcome.bind_eq_running _ _ _ h3
  have i2 : no_fault_reported s2 := by
    simp only [schedule] at h2
    split at h2
    · rw [schedule_fold] at h2
      split at h2
      · cases h2
      · cases h2
        refine ⟨?_, hs.2⟩
        cases e.consumeOk <;> simp [TankClient.consume, TankClient.request, hs.1]
    · cases h2
      exact hs
  have i3 : no_fault_reported s3 := by
    simp only [source_phase] at h5
    split at h5
    · split at h5
      · cases h5
      · rename_i hf
        have hf1 : (s2.tankClient.poll e.srcArrived).faults = [] := by simpa using hf
        split at h5
        · obtain ⟨t, ht, h6⟩ := Outcome.bind_eq_running _ _ _ h5
          obtain ⟨e1, e2, -⟩ := on_consumed_running _ _ _ _ ht
          split at h6
          · split at h6
            · cases h6
            · cases h6
              refine ⟨by rw [e1]; exact hf1, ?_⟩
              cases e.produceOk <;>
                simp [TankClient.produce, TankClient.request, e2, i2.2]
          · cases h6
            exact ⟨by rw [e1]; exact hf1, by rw [e2]; exact i2.2⟩
        · cases h5
          exact ⟨hf1, i2.2⟩
    · cases h5
      exact i2
  simp only [dest_phase] at h4
  split at h4
  · split at h4
    · cases h4
    · rename_i hf
      have hf1 : (s3.dest.poll e.dstArrived).faults = [] := by simpa using hf
      obtain ⟨e1, e2, -⟩ := on_acks_running _ _ _ h4
      exact ⟨by rw [e1]; exact i3.1, by rw [e2]; exact hf1⟩
  · cases h4
    exact i3

theorem no_fault_reported_mirror (topic : String) (env : MirrorEnv) (s : MirrorState)
    (h : mirror topic env = Outcome.running s) : no_fault_reported s := by
  simp only [mirror] at h
  obtain ⟨s0, h0, h1⟩ := Outcome.bind_eq_running _ _ _ h
  have i0 := no_fault_reported_of_discovery _ _ _ h0
  clear h0 h
  generalize env.ticks = es at h1
  induction es generalizing s0 with
  | nil =>
    cases h1
    exact i0
  | cons e rest ih =>
    simp only [mirror_loop] at h1
    obtain ⟨s2, h2, h3⟩ := Outcome.bind_eq_running _ _ _ h1
    exact ih s2 (no_fault_reported_tick _ _ _ _ i0 h2) h3

theorem Outcome.bind_assoc (o : Outcome) (f g : MirrorState → Outcome) :
    (o.bind f).bind g = o.bind fun s => (f s).bind g := by
  cases o <;> rfl

theorem mirror_loop_append (topic : String) (es fs : List TickEnv) (s : MirrorState) :
    mirror_loop topic s (es ++ fs)
      = (mirror_loop topic s es).bind fun s1 => mirror_loop topic s1 fs := by
  induction es generalizing s with
  | nil => rfl
  | cons e rest ih =>
    simp only [List.cons_append, mirror_loop, Outcome.bind_assoc]
    congr 1
    funext s1
    exact ih s1

/-- A run that has reached the state `s` and whose next iteration halts, halts
in the same way. -/
theorem mirror_halts_of_tick (topic : String) (d : DiscoveryEnv) (es more : List TickEnv)
    (e : TickEnv) (s t : MirrorState) (c : Halt)
    (h : mirror topic { discovery := d, ticks := es } = Outcome.running s)
    (ht : tick topic s e = Outcome.halted c t) :
    mirror topic { discovery := d, ticks := es ++ e :: more } = Outcome.halted c t := by
  simp only [mirror] at h ⊢
  cases hd : mirror_discovery topic d with
  | halted c0 s0 =>
    rw [hd] at h
    cases h
  | running s0 =>
    rw [hd] at h
    simp only [Outcome.bind] at h ⊢
    rw [mirror_loop_append, h]
    simp only [Outcome.bind, mirror_loop, ht]

/-- C19: whatever the types of the faults a poll round reports, and whether or
not the option -r was given, the mirror command returns 1 right after that
poll: in the discovery loop of the source, in the discovery loop of the
destination, after the poll of the source in the main loop and after the poll
of the destination in the main loop; a run in which an answer with faults
arrives ends with exit status 1. So the command never goes on running with a
reported fault: in every state it reaches between iterations the last poll of
each handle reported none. -/
theorem C19_any_fault_is_fatal (retry : Bool) (topic : String) (s : MirrorState)
    (a : Arrival) (rest : List (Option Arrival)) (ok : Bool) (hf : a.faults ≠ []) :
    (s.tankClient.should_poll = true →
        discover_source s (some a :: rest)
          = Outcome.halted (Halt.exit 1) { s with tankClient := s.tankClient.poll (some a) })
    ∧ (s.dest.should_poll = true →
        discover_dest s (some a :: rest)
          = Outcome.halted (Halt.exit 1) { s with dest := s.dest.poll (some a) })
    ∧ (s.tankClient.should_poll = true →
        source_phase topic s (some a) ok
          = Outcome.halted (Halt.exit 1) { s with tankClient := s.tankClient.poll (some a) })
    ∧ (s.dest.should_poll = true →
        dest_phase s (some a)
          = Outcome.halted (Halt.exit 1) { s with dest := s.dest.poll (some a) })
    ∧ (∀ idle1 idle2 a2 ticks, ∃ t,
        mirror_cmd retry topic { discovery := answered_env idle1 idle2 a a2, ticks := ticks }
          = Outcome.halted (Halt.exit 1) t)
    ∧ (∀ idle1 idle2 w ticks, ∃ t,
        mirror_cmd retry topic
            { discovery := answered_env idle1 idle2 (discovery_answer w) a, ticks := ticks }
          = Outcome.halted (Halt.exit 1) t)
    ∧ (∀ d es more e s0 s1, mirror topic { discovery := d, ticks := es } = Outcome.running s0 →
        schedule topic s0 e.consumeOk = Outcome.running s1 →
        s1.tankClient.should_poll = true → e.srcArrived = some a →
        ∃ t, mirror_cmd retry topic { discovery := d, ticks := es ++ e :: more }
          = Outcome.halted (Halt.exit 1) t)
    ∧ (∀ d es more e s0 s1 s2,
        mirror topic { discovery := d, ticks := es } = Outcome.running s0 →
        schedule topic s0 e.consumeOk = Outcome.running s1 →
        source_phase topic s1 e.srcArrived e.produceOk = Outcome.running s2 →
        s2.dest.should_poll = true → e.dstArrived = some a →
        ∃ t, mirror_cmd retry topic { discovery := d, ticks := es ++ e :: more }
          = Outcome.halted (Halt.exit 1) t)
    ∧ (∀ env s1, mirror_cmd retry topic env = Outcome.running s1 → no_fault_reported s1) := by
  have h3 : ∀ s : MirrorState, s.tankClient.should_poll = true →
      source_phase topic s (some a) ok
        = Outcome.halted (Halt.exit 1)
            { s with tankClient := s.tankClient.poll (some a) } := by
    intro s hsp
    simp [source_phase, hsp, TankClient.poll, hf]
  have h3' : ∀ (s : MirrorState) (ok : Bool), s.tankClient.should_poll = true →
      source_phase topic s (some a) ok
        = Outcome.halted (Halt.exit 1)
            { s with tankClient := s.tankClient.poll (some a) } := by
    intro s ok hsp
    simp [source_phase, hsp, TankClient.poll, hf]
  have h4 : ∀ s : MirrorState, s.dest.should_poll = true →
      dest_phase s (some a)
        = Outcome.halted (Halt.exit 1) { s with dest := s.dest.poll (some a) } := by
    intro s hsp
    simp [dest_phase, hsp, TankClient.poll, hf]
  refine ⟨?_, ?_, h3 s, h4 s, ?_, ?_, ?_, ?_,
    fun env s1 h => no_fault_reported_mirror topic env s1 h⟩
  · intro hsp
    simp [discover_source, hsp, TankClient.poll, hf]
  · intro hsp
    simp [discover_dest, hsp, TankClient.poll, hf]
  · intro idle1 idle2 a2 ticks
    simp only [mirror_cmd, mirror, mirror_discovery_answered, source_answered, hf, ne_eq,
      not_false_eq_true, if_true, Outcome.bind]
    exact ⟨_, rfl⟩
  · intro idle1 idle2 w ticks
    simp only [mirror_cmd, mirror, mirror_discovery_answered, source_answered,
      dest_answered, discovery_answer, hf, ne_eq, not_true_eq_false, not_false_eq_true,
      if_true, if_false, Outcome.bind]
    exact ⟨_, rfl⟩
  · intro d es more e s0 s1 hrun hsch hsp harr
    have ht : tick topic s0 e = Outcome.halted (Halt.exit 1)
        { s1 with tankClient := s1.tankClient.poll (some a) } := by
      simp only [tick, hsch, Outcome.bind, harr]
      rw [h3' s1 e.produceOk hsp]
    exact ⟨_, mirror_halts_of_tick topic d es more e s0 _ _ hrun ht⟩
  · intro d es more e s0 s1 s2 hrun hsch hsrc hsp harr
    have ht : tick topic s0 e = Outcome.halted (Halt.exit 1)
        { s2 with dest := s2.dest.poll (some a) } := by
      simp only [tick, hsch, Outcome.bind, hsrc]
      rw [harr, h4 s2 hsp]
    exact ⟨_, mirror_halts_of_tick topic d es more e s0 _ _ hrun ht⟩

theorem C19_witness :
    (source_phase "events" (mirror "events" stale_env_before).state (some network_fault) true
        = Outcome.halted (Halt.exit 1)
            { (mirror "events" stale_env_before).state with
              tankClient :=
                (mirror "events" stale_env_before).state.tankClient.poll (some network_fault) })
    ∧ (∀ idle1 idle2 a2 ticks, ∃ t,
        mirror_cmd true "events"
            { discovery := answered_env idle1 idle2 network_fault a2, ticks := ticks }
          = Outcome.halted (Halt.exit 1) t) :=
  ⟨(C19_any_fault_is_fatal true "events" (mirror "events" stale_env_before).state
      network_fault [] true (by decide)).2.2.1 (by rfl),
   (C19_any_fault_is_fatal true "events" (mirror "events" stale_env_before).state
      network_fault [] true (by decide)).2.2.2.2.1⟩

/-! ## What discovery takes from the source -/

theorem schedule_calls_eq (topic : String) (s : MirrorState) (ok : Bool) :
    (schedule topic s ok).state.tankClient.calls
      = if schedule_cond s = true then
          s.tankClient.calls ++
            [Request.consume
              (s.pending.map fun it =>
                ((topic, (deref s.allocator it).id),
                  ((deref s.allocator it).next, 4 * 1024 * 1024))) 4000 0]
        else s.tankClient.calls := by
  by_cases hc : schedule_cond s = true
  · rw [if_pos hc, schedule_calls_of_cond topic s ok hc]
  · rw [if_neg hc, schedule_state_of_not_cond topic s ok hc]
    rfl

/-- What the topology check and the entry into the main loop leave of a state. -/
theorem topology_outcome (T : MirrorState) :
    ((topology_check T).bind fun s5 => Outcome.running { s5 with reqId1 := 0 }).state.allocator
        = T.allocator
      ∧ ((topology_check T).bind fun s5 =>
          Outcome.running { s5 with reqId1 := 0 }).state.map = T.map
      ∧ ((topology_check T).bind fun s5 =>
          Outcome.running { s5 with reqId1 := 0 }).state.pending = T.pending
      ∧ ((topology_check T).bind fun s5 =>
          Outcome.running { s5 with reqId1 := 0 }).state.tankClient = T.tankClient
      ∧ ((topology_check T).bind fun s5 =>
          Outcome.running { s5 with reqId1 := 0 }).state.dest = T.dest
      ∧ ((∃ s, ((topology_check T).bind fun s5 =>
            Outcome.running { s5 with reqId1 := 0 }) = Outcome.running s)
          ↔ (T.pending.isEmpty = false ∧ T.srcPartitionsCnt = T.pending.length))
      ∧ (∀ s, ((topology_check T).bind fun s5 =>
            Outcome.running { s5 with reqId1 := 0 }) = Outcome.running s → s.reqId1 = 0) := by
  simp only [topology_check]
  split
  · rename_i h
    simp [Outcome.bind, Outcome.state, h]
  · rename_i h
    split
    · rename_i h2
      simp [Outcome.bind, Outcome.state, h2]
    · rename_i h2
      refine ⟨rfl, rfl, rfl, rfl, rfl, ?_, ?_⟩
      · simp only [Outcome.bind]
        exact ⟨fun _ => ⟨by simpa using h, by simpa using h2⟩, fun _ => ⟨_, rfl⟩⟩
      · intro s hs
        simp only [Outcome.bind] at hs
        cases hs
        rfl

/-- C20: two runs of discovery in which the destination answers with the same
watermarks and the source with watermark lists of the same length (their
entries may differ, and so may the numbers of idle poll rounds) end in states
with the same contexts, the same map and the same pending list, both enter the
main loop or neither does, and the record of calls of the source client after
the first iteration, which holds the first consume request, is the same. -/
theorem C20_source_watermarks_only_counted (topic : String) (i1 i2 j1 j2 : Nat)
    (w1 w1b w2 : List (Nat × Nat)) (e : TickEnv) (hlen : w1.length = w1b.length) :
    ((mirror_discovery topic
          (answered_env i1 i2 (discovery_answer w1) (discovery_answer w2))).state.allocator
        = (mirror_discovery topic
          (answered_env j1 j2 (discovery_answer w1b) (discovery_answer w2))).state.allocator)
    ∧ ((mirror_discovery topic
          (answered_env i1 i2 (discovery_answer w1) (discovery_answer w2))).state.map
        = (mirror_discovery topic
          (answered_env j1 j2 (discovery_answer w1b) (discovery_answer w2))).state.map)
    ∧ ((mirror_discovery topic
          (answered_env i1 i2 (discovery_answer w1) (discovery_answer w2))).state.pending
        = (mirror_discovery topic
          (answered_env j1 j2 (discovery_answer w1b) (discovery_answer w2))).state.pending)
    ∧ ((∃ s, mirror_discovery topic
          (answered_env i1 i2 (discovery_answer w1) (discovery_answer w2)) = Outcome.running s)
        ↔ (∃ s, mirror_discovery topic
          (answered_env j1 j2 (discovery_answer w1b) (discovery_answer w2))
            = Outcome.running s))
    ∧ (∀ s sb, mirror_discovery topic
          (answered_env i1 i2 (discovery_answer w1) (discovery_answer w2)) = Outcome.running s →
        mirror_discovery topic
          (answered_env j1 j2 (discovery_answer w1b) (discovery_answer w2))
            = Outcome.running sb →
        (tick topic s e).state.tankClient.calls = (tick topic sb e).state.tankClient.calls) := by
  rw [mirror_discovery_watermarks, mirror_discovery_watermarks]
  obtain ⟨a1, a2, a3, a4, a5, a6, a7⟩ := topology_outcome (seed_partitions w2
    { requested_state topic with
      tankClient := (requested_state topic).tankClient.poll (some (discovery_answer w1)),
      srcPartitionsCnt := w1.length % 65536,
      dest := (requested_state topic).dest.poll (some (discovery_answer w2)) })
  obtain ⟨b1, b2, b3, b4, b5, b6, b7⟩ := topology_outcome (seed_partitions w2
    { requested_state topic with
      tankClient := (requested_state topic).tankClient.poll (some (discovery_answer w1b)),
      srcPartitionsCnt := w1b.length % 65536,
      dest := (requested_state topic).dest.poll (some (discovery_answer w2)) })
  obtain ⟨c1, c2, c3⟩ := seed_partitions_fields_congr w2
    { requested_state topic with
      tankClient := (requested_state topic).tankClient.poll (some (discovery_answer w1)),
      srcPartitionsCnt := w1.length % 65536,
      dest := (requested_state topic).dest.poll (some (discovery_answer w2)) }
    { requested_state topic with
      tankClient := (requested_state topic).tankClient.poll (some (discovery_answer w1b)),
      srcPartitionsCnt := w1b.length % 65536,
      dest := (requested_state topic).dest.poll (some (discovery_answer w2)) } rfl rfl rfl
  refine ⟨by rw [a1, b1, c1], by rw [a2, b2, c3], by rw [a3, b3, c2], ?_, ?_⟩
  · rw [a6, b6, c2]
    simp only [seed_partitions_srcPartitionsCnt, hlen]
  · intro s sb hs hsb
    have d1 := a7 s hs
    have d2 := b7 sb hsb
    rw [hs] at a1 a3 a4 a5
    rw [hsb] at b1 b3 b4 b5
    simp only [Outcome.state] at a1 a3 a4 a5 b1 b3 b4 b5
    rw [tick_calls, tick_calls, schedule_calls_eq, schedule_calls_eq]
    simp only [schedule_cond, d1, d2, a1, a3, a4, a5, b1, b3, b4, b5, c1, c2,
      seed_partitions_tankClient, seed_partitions_dest, TankClient.poll_calls]

theorem C20_witness :
    (mirror_discovery "events"
        (answered_env 0 1 (discovery_answer [(0, 40), (2, 41)])
          (discovery_answer [(0, 5), (0, 10)]))).state.allocator
      = (mirror_discovery "events"
        (answered_env 3 0 (discovery_answer [(7, 7), (9, 900)])
          (discovery_answer [(0, 5), (0, 10)]))).state.allocator
    ∧ (mirror_discovery "events"
        (answered_env 0 1 (discovery_answer [(0, 40), (2, 41)])
          (discovery_answer [(0, 5), (0, 10)]))).state.allocator
      = [{ id := 0, pending := true, next := 6 }, { id := 1, pending := true, next := 11 }] :=
  ⟨(C20_source_watermarks_only_counted "events" 0 1 3 0 [(0, 40), (2, 41)]
      [(7, 7), (9, 900)] [(0, 5), (0, 10)] idle_tick (by decide)).1, by rfl⟩

/-! ## The batcher: when a batch is closed -/

theorem batches_of_ne_nil (l : List consumed_msg) (msgs : List msg) (sum : Nat) :
    batches_of l msgs sum ≠ [] := by
  cases l with
  | nil => simp [batches_of]
  | cons m rest =>
    simp only [batches_of]
    split
    · simp
    · exact batches_of_ne_nil rest _ _

theorem batch_estimate_single (m : consumed_msg) :
    batch_estimate [to_msg m] = msg_estimate m := by
  simp [batch_estimate, to_msg, msg_estimate]

/-- The variable `sum` never exceeds the estimate of the messages gathered in
`msgs`, and then every batch but the last was closed at a limit. -/
theorem batches_of_closed_at_limit (l : List consumed_msg) (msgs : List msg) (sum : Nat)
    (hsum : sum ≤ batch_estimate msgs) :
    ∀ b ∈ (batches_of l msgs sum).dropLast,
      b.length = 256 ∨ 4 * 1024 * 1024 < batch_estimate b := by
  induction l generalizing msgs sum with
  | nil =>
    intro b hb
    simp [batches_of] at hb
  | cons m rest ih =>
    intro b hb
    simp only [batches_of] at hb
    split at hb
    · rename_i hc
      rw [List.dropLast_cons_of_ne_nil (batches_of_ne_nil _ _ _)] at hb
      cases hb with
      | head =>
        cases hc with
        | inl h1 => exact Or.inl h1
        | inr h1 => exact Or.inr (by omega)
      | tail _ hb1 =>
        refine ih _ _ ?_ b hb1
        rw [List.nil_append, Nat.zero_add, batch_estimate_single]
        exact le_trans (Nat.mod_le _ _) (msg_addend_le m)
    · refine ih _ _ ?_ b hb
      rw [batch_estimate_append_one]
      have := msg_addend_le m
      exact le_trans (Nat.mod_le _ _) (by omega)

/-- With `sum` below the estimate of `msgs`, and `msgs` or the list still to
come not empty, no batch is empty. -/
theorem batches_of_nonempty (l : List consumed_msg) (msgs : List msg) (sum : Nat)
    (hsum : sum ≤ batch_estimate msgs) (hne : l ≠ [] ∨ msgs ≠ []) :
    ∀ b ∈ batches_of l msgs sum, b ≠ [] := by
  induction l generalizing msgs sum with
  | nil =>
    intro b hb
    simp only [batches_of, List.mem_singleton] at hb
    rw [hb]
    cases hne with
    | inl h => exact absurd rfl h
    | inr h => exact h
  | cons m rest ih =>
    intro b hb
    simp only [batches_of] at hb
    split at hb
    · rename_i hc
      have hmsgs : msgs ≠ [] := by
        intro h0
        rw [h0] at hc hsum
        simp [batch_estimate] at hc hsum
        omega
      cases hb with
      | head => exact hmsgs
      | tail _ hb1 =>
        refine ih _ _ ?_ (Or.inr (by simp)) b hb1
        rw [List.nil_append, Nat.zero_add, batch_estimate_single]
        exact le_trans (Nat.mod_le _ _) (msg_addend_le m)
    · refine ih _ _ ?_ (Or.inr (by simp)) b hb
      rw [batch_estimate_append_one]
      have := msg_addend_le m
      exact le_trans (Nat.mod_le _ _) (by omega)

/-- C25: the batcher closes a batch only at a limit. Of the batches pushed for a
consumed message list, every one but the last holds exactly 256 messages or has
an estimated payload (for each message its key length, its content length
and 32) of more than 4 MiB. -/
theorem C25_batch_closed_only_at_a_limit (tp : topic_partition) (l : List consumed_msg)
    (outputs : List produce_output) :
    ∃ batches : List (List msg),
      batch_msgs tp l [] 0 outputs = outputs ++ batches.map (fun b => (tp, b))
        ∧ ∀ b ∈ batches.dropLast,
            b.length = 256 ∨ 4 * 1024 * 1024 < batch_estimate b :=
  ⟨batches_of l [] 0, batch_msgs_eq tp l [] 0 outputs,
    batches_of_closed_at_limit l [] 0 (Nat.zero_le _)⟩

theorem batch_msgs_nonempty (tp : topic_partition) (l : List consumed_msg)
    (outputs : List produce_output) (hne : l.length ≠ 0)
    (ho : ∀ e ∈ outputs, e.2 ≠ []) : ∀ e ∈ batch_msgs tp l [] 0 outputs, e.2 ≠ [] := by
  intro e he
  rw [batch_msgs_eq, List.mem_append] at he
  cases he with
  | inl h1 => exact ho e h1
  | inr h1 =>
    obtain ⟨b, hb, rfl⟩ := List.mem_map.1 h1
    refine batches_of_nonempty l [] 0 (Nat.zero_le _) (Or.inl ?_) b hb
    intro h0
    rw [h0] at hne
    exact hne rfl

/-- C28: no batch is empty. The batches pushed for a non-empty consumed list all
hold a message; after a consume response was processed every entry of `outputs`
holds a message and belongs to a partition whose entry of the response carries
messages; and the source phase of an iteration either hands the destination
nothing or one produce request, with entries, none with an empty list. -/
theorem C28_no_empty_batch_is_produced (tp : topic_partition) (l : List consumed_msg)
    (outputs : List produce_output) (topic : String) (consumed : List partition_content)
    (s : MirrorState) (arrived : Option Arrival) (ok : Bool) (hne : l ≠ []) :
    (∃ batches : List (List msg),
      batch_msgs tp l [] 0 outputs = outputs ++ batches.map (fun b => (tp, b))
        ∧ ∀ b ∈ batches, b ≠ [])
    ∧ (∀ e ∈ (on_consumed topic consumed { s with outputs := [] }).state.outputs,
        e.2 ≠ [] ∧ ∃ it ∈ consumed, it.msgs ≠ [] ∧ e.1 = (topic, it.partition))
    ∧ ((source_phase topic s arrived ok).state.dest.calls = s.dest.calls
        ∨ ∃ out : List produce_output,
            (source_phase topic s arrived ok).state.dest.calls
                = s.dest.calls ++ [Request.produce out]
              ∧ out ≠ [] ∧ ∀ e ∈ out, e.2 ≠ []) := by
  have hall : ∀ (cs : List partition_content) (t : MirrorState),
      ∀ e ∈ (on_consumed topic cs { t with outputs := [] }).state.outputs, e.2 ≠ [] := by
    intro cs t
    apply on_consumed_outputs_all (fun e => e.2 ≠ [])
    · intro tp1 l1 o1 ho hl
      exact batch_msgs_nonempty tp1 l1 o1 hl ho
    · intro e he
      cases he
  refine ⟨⟨batches_of l [] 0, batch_msgs_eq tp l [] 0 outputs,
    batches_of_nonempty l [] 0 (Nat.zero_le _) (Or.inl hne)⟩, ?_, ?_⟩
  · intro e he
    refine ⟨hall consumed s e he, ?_⟩
    cases on_consumed_outputs_mem topic consumed { s with outputs := [] } e he with
    | inl h1 => cases h1
    | inr h1 => exact h1
  · simp only [source_phase]
    split
    · split
      · exact Or.inl rfl
      · split
        · have hd := on_consumed_dest topic (s.tankClient.poll arrived).consumed
            { s with tankClient := s.tankClient.poll arrived, outputs := [] }
          have ho := hall (s.tankClient.poll arrived).consumed
            { s with tankClient := s.tankClient.poll arrived }
          cases hc : on_consumed topic (s.tankClient.poll arrived).consumed
              { s with tankClient := s.tankClient.poll arrived, outputs := [] } with
          | running s2 =>
            rw [hc] at hd ho
            simp only [Outcome.state] at hd ho
            simp only [Outcome.bind]
            by_cases hout : s2.outputs.length ≠ 0
            · refine Or.inr ⟨s2.outputs, ?_, ?_, ho⟩
              · rw [if_pos hout]
                split <;>
                  simp [Outcome.state, TankClient.produce, TankClient.request, hd] <;>
                  split <;> rfl
              · intro h0
                rw [h0] at hout
                exact hout rfl
            · rw [if_neg hout]
              exact Or.inl (congrArg TankClient.calls hd)
          | halted c s2 =>
            rw [hc] at hd
            exact Or.inl (congrArg TankClient.calls hd)
        · exact Or.inl rfl
    · exact Or.inl rfl

theorem C28_witness :
    (∃ batches : List (List msg),
      batch_msgs ("events", 1)
          [{ seqNum := 11, ts := 1000, key := [], content := [7] }] [] 0 []
        = [] ++ batches.map (fun b => (("events", 1), b))
        ∧ ∀ b ∈ batches, b ≠ [])
    ∧ (∀ e ∈ (on_consumed "events" sample_consumed.consumed
          { (mirror_discovery "events" sample_env.discovery).state with
            outputs := [] }).state.outputs,
        e.2 ≠ [] ∧ ∃ it ∈ sample_consumed.consumed,
          it.msgs ≠ [] ∧ e.1 = ("events", it.partition))
    ∧ ((source_phase "events" (mirror_discovery "events" sample_env.discovery).state
            (some sample_consumed) true).state.dest.calls
          = (mirror_discovery "events" sample_env.discovery).state.dest.calls
        ∨ ∃ out : List produce_output,
            (source_phase "events" (mirror_discovery "events" sample_env.discovery).state
                (some sample_consumed) true).state.dest.calls
                = (mirror_discovery "events" sample_env.discovery).state.dest.calls
                    ++ [Request.produce out]
              ∧ out ≠ [] ∧ ∀ e ∈ out, e.2 ≠ []) :=
  C28_no_empty_batch_is_produced ("events", 1)
    [{ seqNum := 11, ts := 1000, key := [], content := [7] }] [] "events"
    sample_consumed.consumed (mirror_discovery "events" sample_env.discovery).state
    (some sample_consumed) true (by simp)

/-! ## Faults in the other commands -/

/-- C21, at concrete inputs: a poll that reports an UnknownTopic fault ends the
consume command with status 1, as it ends the mirror command; but the
discover_partitions command, the produce command with its messages on the
command line, and both benchmarks end with status 0 after the same report, the
fault still in the queue of the client. -/
theorem C21_fault_ends_some_commands_with_status_0 :
    (∃ s, consume_tick (sample_consume_config false) (consume_start 0)
        (consume_round unknown_topic_fault) = ConsumeOutcome.exited 1 s)
    ∧ (∃ c, discover_partitions_cmd "events" true [some unknown_topic_fault]
          = (Halt.exit 0, c) ∧ c.faults = unknown_topic_fault.faults)
    ∧ (∃ s, produce_inline (sample_produce_config 1) 0 (fun _ => true) [([104, 105], 1000)]
          [some unknown_topic_fault] = (Halt.exit 0, s)
        ∧ s.tankClient.faults = unknown_topic_fault.faults)
    ∧ (∃ c, benchmark_p2c ("events", 0) 128 1 true true [some unknown_topic_fault]
          = (Halt.exit 0, c) ∧ c.faults = unknown_topic_fault.faults)
    ∧ (∃ c, benchmark_p2t ("events", 0) 128 1 true [some unknown_topic_fault]
          = (Halt.exit 0, c) ∧ c.faults = unknown_topic_fault.faults)
    ∧ (∃ c, discover_partitions_cmd "events" true [some network_fault]
          = (Halt.exit 0, c) ∧ c.faults = network_fault.faults) :=
  ⟨⟨_, rfl⟩, ⟨_, rfl, rfl⟩, ⟨_, rfl, rfl⟩, ⟨_, rfl, rfl⟩, ⟨_, rfl, rfl⟩, ⟨_, rfl, rfl⟩⟩

/-! ## The argument `from` of the consume command -/

/-- C23, at concrete inputs: the help text of the consume command names
"beginning" or "start" for the first available message, but line 319 tests for
"first": `start` is refused with status 1 and `first` is taken as sequence
number 0. The other forms are read as the help text says: "beginning" is 0,
"end" and "eof" are 2^64 - 1, in any case of letters, a string of digits is the
number it writes, and any other text is refused. -/
theorem C23_start_is_refused_and_first_accepted :
    parse_from "start" = none
    ∧ parse_from "first" = some 0
    ∧ parse_from "beginning" = some 0
    ∧ parse_from "Beginning" = some 0
    ∧ parse_from "end" = some (2 ^ 64 - 1)
    ∧ parse_from "eof" = some (2 ^ 64 - 1)
    ∧ parse_from "EOF" = some (2 ^ 64 - 1)
    ∧ parse_from "42" = some 42
    ∧ parse_from "18446744073709551615" = some (2 ^ 64 - 1)
    ∧ parse_from "4x2" = none
    ∧ parse_from "" = none := by
  decide

/-! ## Faults in the consume command -/

theorem consume_faults_exited_iff (retry : Bool) (faults : List fault) (s : ConsumeState) :
    (∃ t, consume_faults retry faults s = ConsumeOutcome.exited 1 t)
      ↔ faults ≠ [] ∧ (retry = false ∨ ∃ f ∈ faults, f.type ≠ FaultType.Network) := by
  induction faults generalizing s with
  | nil => simp [consume_faults]
  | cons it rest ih =>
    simp only [consume_faults]
    by_cases hr : retry = true
    · by_cases ht : it.type = FaultType.Network
      · have hc : (retry && it.type == FaultType.Network) = true := by simp [hr, ht]
        rw [if_pos hc, ih]
        constructor
        · rintro ⟨_, h⟩
          refine ⟨by simp, ?_⟩
          rcases h with h | ⟨f, hf, hft⟩
          · exact Or.inl h
          · exact Or.inr ⟨f, by simp [hf], hft⟩
        · rintro ⟨_, h⟩
          rcases h with h | ⟨f, hf, hft⟩
          · rw [hr] at h
            cases h
          · cases hf with
            | head => exact absurd ht hft
            | tail _ hf1 => exact ⟨List.ne_nil_of_mem hf1, Or.inr ⟨f, hf1, hft⟩⟩
      · have hc : ¬ (retry && it.type == FaultType.Network) = true := by simp [ht]
        rw [if_neg hc]
        simp [ht]
    · have hc : ¬ (retry && it.type == FaultType.Network) = true := by simp [hr]
      rw [if_neg hc]
      simp [hr]

theorem consume_faults_retried (faults : List fault) (s : ConsumeState)
    (hnet : ∀ f ∈ faults, f.type = FaultType.Network) (hne : faults ≠ []) :
    consume_faults true faults s
      = ConsumeOutcome.running
          { s with slept := s.slept + 400 * faults.length, pendingResp := 0 } := by
  induction faults generalizing s with
  | nil => exact absurd rfl hne
  | cons it rest ih =>
    have ht : it.type = FaultType.Network := hnet it (by simp)
    rw [consume_faults, if_pos (by simp [ht])]
    cases rest with
    | nil => simp [consume_faults]
    | cons it2 rest2 =>
      rw [ih _ (fun f hf => hnet f (by simp [hf])) (by simp)]
      simp only [List.length_cons, ConsumeOutcome.running.injEq, ConsumeState.mk.injEq,
        true_and, and_true]
      omega

/-- C22: in the consume command the loop over the faults of one poll returns 1
exactly when there is a fault and either the option -r is off or some fault is
not of type Network. With -r on and only Network faults reported, the command
sleeps 400 ms for each of them, ends with no request pending and with `next`
and `minFetchSize` as they were, so the request the next iteration issues asks
for the same sequence number: this holds for the loop over the faults and for a
whole iteration whose poll brings such faults and no messages. -/
theorem C22_consume_retries_only_network_faults (cfg : ConsumeConfig) (s : ConsumeState)
    (faults : List fault) (a : Arrival) (ok : Bool)
    (hretry : cfg.retry = true) (hnet : ∀ f ∈ faults, f.type = FaultType.Network)
    (hne : faults ≠ []) (ha : a.faults = faults) (hc : a.consumed = [])
    (hp : s.pendingResp ≠ 0) :
    (∀ (retry : Bool) (fs : List fault) (t : ConsumeState),
      (∃ u, consume_faults retry fs t = ConsumeOutcome.exited 1 u)
        ↔ fs ≠ [] ∧ (retry = false ∨ ∃ f ∈ fs, f.type ≠ FaultType.Network))
    ∧ consume_faults cfg.retry faults s
        = ConsumeOutcome.running
            { s with slept := s.slept + 400 * faults.length, pendingResp := 0 }
    ∧ consume_tick cfg s (consume_round a)
        = ConsumeOutcome.running
            { s with tankClient := s.tankClient.poll (some a),
                     slept := s.slept + 400 * faults.length, pendingResp := 0 }
    ∧ (consume_request cfg (consume_tick cfg s (consume_round a)).state ok).state.tankClient.calls
        = s.tankClient.calls
            ++ [Request.consume [(cfg.topicPartition, (s.next, s.minFetchSize))] 8000 0] := by
  have htick : consume_tick cfg s (consume_round a)
      = ConsumeOutcome.running
          { s with tankClient := s.tankClient.poll (some a),
                   slept := s.slept + 400 * faults.length, pendingResp := 0 } := by
    have h1 : consume_request cfg s true = ConsumeOutcome.running s := by
      simp [consume_request, hp]
    have h2 := consume_faults_retried faults
      { s with tankClient := s.tankClient.poll (some a) } hnet hne
    simp only [consume_tick, consume_round, h1, hretry]
    rw [show (s.tankClient.poll (some a)).faults = faults from ha, h2]
    simp only
    rw [show (s.tankClient.poll (some a)).consumed = a.consumed from rfl, hc]
    rfl
  refine ⟨consume_faults_exited_iff, ?_, htick, ?_⟩
  · rw [hretry]
    exact consume_faults_retried faults s hnet hne
  · rw [htick]
    cases ok <;>
      simp [ConsumeOutcome.state, consume_request, TankClient.consume, TankClient.request,
        TankClient.poll]

theorem C22_witness :
    (∀ (retry : Bool) (fs : List fault) (t : ConsumeState),
      (∃ u, consume_faults retry fs t = ConsumeOutcome.exited 1 u)
        ↔ fs ≠ [] ∧ (retry = false ∨ ∃ f ∈ fs, f.type ≠ FaultType.Network))
    ∧ consume_faults (sample_consume_config true).retry network_fault.faults consume_pending
        = ConsumeOutcome.running
            { consume_pending with
              slept := consume_pending.slept + 400 * network_fault.faults.length,
              pendingResp := 0 }
    ∧ consume_tick (sample_consume_config true) consume_pending (consume_round network_fault)
        = ConsumeOutcome.running
            { consume_pending with
              tankClient := consume_pending.tankClient.poll (some network_fault),
              slept := consume_pending.slept + 400 * network_fault.faults.length,
              pendingResp := 0 }
    ∧ (consume_request (sample_consume_config true)
          (consume_tick (sample_consume_config true) consume_pending
            (consume_round network_fault)).state true).state.tankClient.calls
        = consume_pending.tankClient.calls
            ++ [Request.consume
                  [((sample_consume_config true).topicPartition,
                    (consume_pending.next, consume_pending.minFetchSize))] 8000 0] :=
  C22_consume_retries_only_network_faults (sample_consume_config true) consume_pending
    network_fault.faults network_fault true rfl (by decide) (by decide) rfl rfl (by decide)

/-! ## The produce command: bundles of the messages on the command line -/

theorem inline_requests_getElem (b : Nat) (hb : 0 < b) (l acc : List msg)
    (hacc : acc.length < b) (i : Nat) :
    (inline_requests b l acc)[i]?
      = if b * i < acc.length + l.length then some (((acc ++ l).drop (b * i)).take b)
        else none := by
  induction l generalizing acc i with
  | nil =>
    simp only [inline_requests, List.append_nil, List.length_nil, Nat.add_zero]
    cases i with
    | zero =>
      by_cases h0 : acc.length ≠ 0
      · have hpos : 0 < acc.length := Nat.pos_of_ne_zero h0
        simp [h0, hpos, List.take_of_length_le (Nat.le_of_lt hacc)]
      · have hz : acc.length = 0 := by omega
        simp [hz]
    | succ j =>
      have hge : ¬ b * (j + 1) < acc.length := by
        have : b ≤ b * (j + 1) := Nat.le_mul_of_pos_right b (Nat.succ_pos j)
        omega
      rw [if_neg hge]
      split <;> simp
  | cons m rest ih =>
    simp only [inline_requests]
    by_cases hc : (acc ++ [m]).length = b
    · rw [if_pos hc]
      have hlen : acc.length + 1 = b := by simpa using hc
      cases i with
      | zero =>
        have hpos : b * 0 < acc.length + (m :: rest).length := by simp
        rw [if_pos hpos]
        simp only [Nat.mul_zero, List.drop_zero, List.getElem?_cons_zero, Option.some.injEq]
        rw [show acc ++ m :: rest = (acc ++ [m]) ++ rest by simp,
          List.take_append_of_le_length (by rw [hc]), List.take_of_length_le (by rw [hc])]
      | succ j =>
        rw [List.getElem?_cons_succ, ih [] hb j]
        have hd : List.drop (b * (j + 1)) (acc ++ m :: rest) = List.drop (b * j) rest := by
          rw [show acc ++ m :: rest = (acc ++ [m]) ++ rest by simp]
          rw [show b * (j + 1) = (acc ++ [m]).length + b * j by rw [hc, Nat.mul_succ]; omega]
          rw [List.drop_append]
        rw [hd]
        have hiff : b * j < ([] : List msg).length + rest.length
            ↔ b * (j + 1) < acc.length + (m :: rest).length := by
          simp only [List.length_nil, Nat.zero_add, List.length_cons, Nat.mul_succ]
          omega
        by_cases hlt : b * j < ([] : List msg).length + rest.length
        · rw [if_pos hlt, if_pos (hiff.1 hlt)]
          simp
        · rw [if_neg hlt, if_neg (fun h => hlt (hiff.2 h))]
    · rw [if_neg hc]
      have hlen : acc.length + 1 < b := by
        have : (acc ++ [m]).length = acc.length + 1 := by simp
        omega
      rw [ih (acc ++ [m]) (by simpa using hlen) i]
      simp only [List.length_append, List.length_cons, List.length_nil, List.append_assoc,
        List.singleton_append]
      have : acc.length + (0 + 1) + rest.length = acc.length + (rest.length + 1) := by omega
      rw [this]

theorem inline_requests_flatten (b : Nat) (l acc : List msg) :
    (inline_requests b l acc).flatten = acc ++ l := by
  induction l generalizing acc with
  | nil =>
    simp only [inline_requests]
    split
    · simp
    · rename_i h
      have : acc = [] := List.eq_nil_of_length_eq_zero (by omega)
      simp [this]
  | cons m rest ih =>
    simp only [inline_requests]
    split
    · simp [ih]
    · simp [ih]

theorem inline_requests_nonempty (b : Nat) (l acc : List msg) :
    ∀ c ∈ inline_requests b l acc, c ≠ [] := by
  induction l generalizing acc with
  | nil =>
    intro c hc
    simp only [inline_requests] at hc
    split at hc
    · rename_i h
      simp only [List.mem_singleton] at hc
      rw [hc]
      intro h0
      rw [h0] at h
      exact h rfl
    · cases hc
  | cons m rest ih =>
    intro c hc
    simp only [inline_requests] at hc
    split at hc
    · cases hc with
      | head => simp
      | tail _ h1 => exact ih [] c h1
    · exact ih _ c hc

theorem inline_requests_length_le (b : Nat) (hb : 0 < b) (l : List msg) :
    (inline_requests b l []).length ≤ l.length := by
  have h := inline_requests_getElem b hb l [] hb l.length
  have hn : ¬ b * l.length < ([] : List msg).length + l.length := by
    simp only [List.length_nil, Nat.zero_add]
    have : l.length ≤ b * l.length := Nat.le_mul_of_pos_left _ hb
    omega
  rw [if_neg hn] at h
  exact List.getElem?_eq_none_iff.1 h

theorem answer_count_cons_none (rest : List (Option Arrival)) :
    answer_count (none :: rest) = answer_count rest := by
  simp [answer_count]

theorem answer_count_cons_some (v : Arrival) (rest : List (Option Arrival)) :
    answer_count (some v :: rest) = answer_count rest + 1 := by
  simp [answer_count]

theorem produce_poll_clean (retry : Bool) (s : ProduceState) (p : Option Arrival)
    (hp : no_fault p = true) :
    produce_poll retry s p = (true, { s with tankClient := s.tankClient.poll p }) := by
  cases p with
  | none => simp [produce_poll, TankClient.poll, produce_faults]
  | some a =>
    have hf : a.faults = [] := by
      simpa [no_fault] using hp
    simp [produce_poll, TankClient.poll, hf, produce_faults]

/-- With no fault reported and an answer for all that is outstanding, the loop
that waits returns `true`, with nothing outstanding and the requests made
untouched; it uses up one answer for each outstanding request. -/
theorem produce_wait_clean (retry : Bool) (polls : List (Option Arrival)) (s : ProduceState)
    (hp : ∀ p ∈ polls, no_fault p = true)
    (hlen : s.tankClient.outstanding.length ≤ answer_count polls) :
    ∃ s1 rest, produce_wait retry polls s = (Flow.ok, s1, rest)
      ∧ s1.tankClient.calls = s.tankClient.calls ∧ s1.tankClient.outstanding = []
      ∧ (∀ p ∈ rest, no_fault p = true)
      ∧ answer_count rest + s.tankClient.outstanding.length = answer_count polls := by
  induction polls generalizing s with
  | nil =>
    have h0 : s.tankClient.outstanding = [] :=
      List.eq_nil_of_length_eq_zero (Nat.le_zero.1 hlen)
    exact ⟨s, [], by simp [produce_wait, TankClient.should_poll, h0], rfl, h0, hp,
      by simp [h0]⟩
  | cons a rest ih =>
    simp only [produce_wait]
    by_cases hs : s.tankClient.should_poll = true
    · rw [if_pos hs, produce_poll_clean retry s a (hp a (by simp))]
      simp only [if_true]
      have hne : s.tankClient.outstanding ≠ [] := by
        intro h0
        simp [TankClient.should_poll, h0] at hs
      have hpos : 0 < s.tankClient.outstanding.length := List.length_pos.2 hne
      cases a with
      | none =>
        rw [answer_count_cons_none] at hlen ⊢
        have r := ih { s with tankClient := s.tankClient.poll none }
          (fun p h => hp p (by simp [h])) hlen
        obtain ⟨s1, q, h1, h2, h3, h4, h5⟩ := r
        exact ⟨s1, q, h1, h2, h3, h4, h5⟩
      | some v =>
        rw [answer_count_cons_some] at hlen ⊢
        have htail : (s.tankClient.poll (some v)).outstanding
            = s.tankClient.outstanding.tail := rfl
        have r := ih { s with tankClient := s.tankClient.poll (some v) }
          (fun p h => hp p (by simp [h])) (by
            show (s.tankClient.poll (some v)).outstanding.length ≤ answer_count rest
            rw [htail, List.length_tail]
            omega)
        obtain ⟨s1, q, h1, h2, h3, h4, h5⟩ := r
        refine ⟨s1, q, h1, h2, h3, h4, ?_⟩
        have h5a : answer_count q + (s.tankClient.poll (some v)).outstanding.length
            = answer_count rest := h5
        rw [htail, List.length_tail] at h5a
        omega
    · rw [if_neg hs]
      have h0 : s.tankClient.outstanding = [] := by
        cases ho : s.tankClient.outstanding with
        | nil => rfl
        | cons x xs => simp [TankClient.should_poll, ho] at hs
      exact ⟨s, a :: rest, rfl, rfl, h0, hp, by simp [h0]⟩

theorem publish_request_spec (cfg : ProduceConfig) (s : ProduceState) :
    (publish_request cfg s true).1 ≠ 0
    ∧ ∃ r, (publish_request cfg s true).2.calls = s.tankClient.calls ++ [r]
        ∧ r.messages = s.msgs ∧ r.produce_partitions = [cfg.topicPartition]
        ∧ (publish_request cfg s true).2.outstanding.length
            = s.tankClient.outstanding.length + 1 := by
  simp only [publish_request]
  split
  · exact ⟨by simp [TankClient.produce_with_base, TankClient.request], _, rfl,
      by simp [Request.messages], by simp [Request.produce_partitions],
      by simp [TankClient.produce_with_base, TankClient.request]⟩
  · exact ⟨by simp [TankClient.produce, TankClient.request], _, rfl,
      by simp [Request.messages], by simp [Request.produce_partitions],
      by simp [TankClient.produce, TankClient.request]⟩

/-- One call of `publish_msgs` when requests can be scheduled, no fault is
reported and answers arrive for all that is outstanding: it returns `true`
after one more request, which carries the messages gathered. -/
theorem publish_msgs_clean (cfg : ProduceConfig) (schedOk : Nat → Bool)
    (polls : List (Option Arrival)) (s : ProduceState)
    (hsched : ∀ n, schedOk n = true) (hp : ∀ p ∈ polls, no_fault p = true)
    (hlen : s.tankClient.outstanding.length + 1 ≤ answer_count polls) :
    ∃ s1 rest r, publish_msgs cfg schedOk polls s = (Flow.ok, s1, rest)
      ∧ s1.tankClient.calls = s.tankClient.calls ++ [r]
      ∧ r.messages = s.msgs ∧ r.produce_partitions = [cfg.topicPartition]
      ∧ (∀ p ∈ rest, no_fault p = true)
      ∧ s1.tankClient.outstanding.length + answer_count polls
          = answer_count rest + s.tankClient.outstanding.length + 1 := by
  obtain ⟨hid, r, hcalls, hmsgs, hparts, hout⟩ := publish_request_spec cfg s
  simp only [publish_msgs, hsched, if_neg hid]
  by_cases hw : (s.pendingAckAcnt + s.msgs.length) % 2 ^ 64 ≥ pollInterval
  · rw [if_pos hw]
    have hwait := produce_wait_clean cfg.retry polls
      { s with tankClient := (publish_request cfg s true).2, baseSeqNum := 0,
               pendingAckAcnt := (s.pendingAckAcnt + s.msgs.length) % 2 ^ 64 } hp
      (by
        show (publish_request cfg s true).2.outstanding.length ≤ answer_count polls
        omega)
    obtain ⟨s1, q, h1, h2, h3, h4, h5⟩ := hwait
    rw [h1]
    refine ⟨{ s1 with pendingAckAcnt := 0 }, q, r, rfl, ?_, hmsgs, hparts, h4, ?_⟩
    · show s1.tankClient.calls = _
      rw [h2]
      exact hcalls
    · show s1.tankClient.outstanding.length + answer_count polls
        = answer_count q + s.tankClient.outstanding.length + 1
      have h5a : answer_count q + (publish_request cfg s true).2.outstanding.length
          = answer_count polls := h5
      rw [h3]
      simp only [List.length_nil]
      omega
  · rw [if_neg hw]
    refine ⟨_, _, r, rfl, hcalls, hmsgs, hparts, hp, ?_⟩
    show (publish_request cfg s true).2.outstanding.length + answer_count polls = _
    rw [hout]
    omega

/-- The loop over the arguments and the lines after it, when requests can be
scheduled, no fault is reported and enough answers arrive: both return `true`, and the
requests made carry the message lists of `inline_requests`. -/
theorem produce_args_clean (cfg : ProduceConfig) (schedOk : Nat → Bool)
    (hsched : ∀ n, schedOk n = true) (args : List (List Nat × Nat))
    (polls : List (Option Arrival)) (s : ProduceState)
    (hp : ∀ p ∈ polls, no_fault p = true)
    (hlen : s.tankClient.outstanding.length
        + (inline_requests cfg.bundleSize (args.map arg_msg) s.msgs).length ≤ answer_count polls) :
    ∃ s1 polls1 s2 polls2 rs,
      produce_args cfg schedOk args polls s = (Flow.ok, s1, polls1)
      ∧ produce_rest cfg schedOk polls1 s1 = (Flow.ok, s2, polls2)
      ∧ s2.tankClient.calls = s.tankClient.calls ++ rs
      ∧ rs.map Request.messages = inline_requests cfg.bundleSize (args.map arg_msg) s.msgs
      ∧ (∀ r ∈ rs, r.produce_partitions = [cfg.topicPartition])
      ∧ (∀ p ∈ polls2, no_fault p = true)
      ∧ s2.tankClient.outstanding.length + answer_count polls
          = answer_count polls2 + s.tankClient.outstanding.length + rs.length := by
  induction args generalizing polls s with
  | nil =>
    simp only [List.map_nil, inline_requests] at hlen ⊢
    simp only [produce_args]
    by_cases h0 : s.msgs.length ≠ 0
    · simp only [if_pos h0] at hlen ⊢
      obtain ⟨s1, rest, r, h1, h2, h3, h4, h5, h6⟩ :=
        publish_msgs_clean cfg schedOk polls s hsched hp (by simpa using hlen)
      have hr : produce_rest cfg schedOk polls s
          = (Flow.ok, { s1 with msgs := [] }, rest) := by
        simp only [produce_rest, if_pos h0, h1]
      refine ⟨s, polls, { s1 with msgs := [] }, rest, [r], rfl, hr, h2, by simp [h3], ?_,
        h5, ?_⟩
      · intro x hx
        simp only [List.mem_singleton] at hx
        rw [hx]
        exact h4
      · simpa using h6
    · simp only [if_neg h0] at hlen ⊢
      have hr : produce_rest cfg schedOk polls s = (Flow.ok, s, polls) := by
        simp only [produce_rest, if_neg h0]
      exact ⟨s, polls, s, polls, [], rfl, hr, by simp, by simp, by simp, hp,
        Nat.add_comm _ _⟩
  | cons arg rest ih =>
    simp only [List.map_cons, inline_requests] at hlen ⊢
    simp only [produce_args]
    by_cases hc : (s.msgs ++ [arg_msg arg]).length = cfg.bundleSize
    · simp only [if_pos hc] at hlen ⊢
      simp only [List.length_cons] at hlen
      obtain ⟨s1, polls1, r, h1, h2, h3, h4, h5, h6⟩ :=
        publish_msgs_clean cfg schedOk polls
          { s with msgs := s.msgs ++ [arg_msg arg] } hsched hp (by
            show s.tankClient.outstanding.length + 1 ≤ answer_count polls
            omega)
      rw [h1]
      simp only
      have h6a : s1.tankClient.outstanding.length + answer_count polls
          = answer_count polls1 + s.tankClient.outstanding.length + 1 := h6
      have r2 := ih polls1 { s1 with msgs := [] } h5 (by
        show s1.tankClient.outstanding.length
          + (inline_requests cfg.bundleSize (rest.map arg_msg) []).length
            ≤ answer_count polls1
        omega)
      obtain ⟨t1, q1, t2, q2, rs, g1, g2, g3, g4, g5, g6, g7⟩ := r2
      refine ⟨t1, q1, t2, q2, r :: rs, g1, g2, ?_, ?_, ?_, g6, ?_⟩
      · rw [g3]
        show s1.tankClient.calls ++ rs = _
        rw [h2]
        simp
      · simp only [List.map_cons, g4]
        rw [h3]
      · intro x hx
        cases hx with
        | head => exact h4
        | tail _ hx1 => exact g5 x hx1
      · have g7a : t2.tankClient.outstanding.length + answer_count polls1
            = answer_count q2 + s1.tankClient.outstanding.length + rs.length := g7
        simp only [List.length_cons]
        omega
    · simp only [if_neg hc] at hlen ⊢
      have r2 := ih polls { s with msgs := s.msgs ++ [arg_msg arg] } hp hlen
      obtain ⟨t1, q1, t2, q2, rs, g1, g2, g3, g4, g5, g6, g7⟩ := r2
      exact ⟨t1, q1, t2, q2, rs, g1, g2, g3, g4, g5, g6, g7⟩

theorem inline_requests_length_le_of_mul (b : Nat) (hb : 0 < b) (l : List msg) (k : Nat)
    (h : l.length ≤ b * k) : (inline_requests b l []).length ≤ k := by
  have hg := inline_requests_getElem b hb l [] hb k
  have hn : ¬ b * k < ([] : List msg).length + l.length := by
    simp only [List.length_nil, Nat.zero_add]
    omega
  rw [if_neg hn] at hg
  exact List.getElem?_eq_none_iff.1 hg

/-- C24: the produce command with messages m_1..m_n on the command line (n at
least 1), bundle size b at least 1, every request scheduled, no fault reported,
and an answer arriving for each request (poll rounds may time out in between):
the command ends with status 0 with nothing outstanding, and the requests it
made carry, in order, the consecutive chunks of b messages: request number i
(from 0) exists exactly when b * i < n and carries the messages from position
b * i on, b of them or as many as are left, each message being the argument as
content, the clock reading taken for it, and no key. Together the requests carry
m_1..m_n, none is empty, and each is for the one partition of the command. -/
theorem C24_inline_messages_sent_in_bundles (cfg : ProduceConfig) (baseSeqNum : Nat)
    (schedOk : Nat → Bool) (args : List (List Nat × Nat)) (polls : List (Option Arrival))
    (hb : 1 ≤ cfg.bundleSize) (hargs : args ≠ []) (hsched : ∀ n, schedOk n = true)
    (hp : ∀ p ∈ polls, no_fault p = true)
    (hlen : args.length ≤ cfg.bundleSize * answer_count polls) :
    ∃ s, produce_inline cfg baseSeqNum schedOk args polls = (Halt.exit 0, s)
      ∧ (∀ i, (s.tankClient.calls.map Request.messages)[i]?
          = if cfg.bundleSize * i < args.length then
              some (((args.map fun a => ({ content := a.1, ts := a.2, key := [] } : msg)).drop
                (cfg.bundleSize * i)).take cfg.bundleSize)
            else none)
      ∧ (s.tankClient.calls.map Request.messages).flatten
          = args.map (fun a => ({ content := a.1, ts := a.2, key := [] } : msg))
      ∧ (∀ r ∈ s.tankClient.calls,
          r.messages ≠ [] ∧ r.produce_partitions = [cfg.topicPartition])
      ∧ s.tankClient.outstanding = [] := by
  have hmap : (args.map fun a => ({ content := a.1, ts := a.2, key := [] } : msg))
      = args.map arg_msg := rfl
  rw [hmap]
  have hb0 : ¬ cfg.bundleSize = 0 := by omega
  have hn0 : ¬ args.length = 0 := by
    intro h0
    exact hargs (List.eq_nil_of_length_eq_zero h0)
  have hreq := inline_requests_length_le_of_mul cfg.bundleSize hb (args.map arg_msg)
    (answer_count polls) (by rw [List.length_map]; exact hlen)
  obtain ⟨s1, polls1, s2, polls2, rs, g1, g2, g3, g4, g5, g6, g7⟩ :=
    produce_args_clean cfg schedOk hsched args polls (produce_start baseSeqNum) hp (by
      show 0 + (inline_requests cfg.bundleSize (args.map arg_msg) []).length
        ≤ answer_count polls
      omega)
  have g7a : s2.tankClient.outstanding.length + answer_count polls
      = answer_count polls2 + 0 + rs.length := g7
  have hrs : rs.length = (inline_requests cfg.bundleSize (args.map arg_msg) []).length := by
    have := congrArg List.length g4
    simpa using this
  obtain ⟨s3, q, w1, w2, w3, -, -⟩ := produce_wait_clean cfg.retry polls2 s2 g6 (by omega)
  have hcalls : s3.tankClient.calls = rs := by
    rw [w2, g3]
    rfl
  refine ⟨s3, ?_, ?_, ?_, ?_, w3⟩
  · simp only [produce_inline, if_neg hb0, if_neg hn0, g1, g2, w1, produce_halt]
  · intro i
    rw [hcalls, g4]
    have h := inline_requests_getElem cfg.bundleSize hb (args.map arg_msg) [] hb i
    simpa using h
  · rw [hcalls, g4, inline_requests_flatten]
    rfl
  · intro r hr
    rw [hcalls] at hr
    refine ⟨?_, g5 r hr⟩
    apply inline_requests_nonempty cfg.bundleSize (args.map arg_msg) []
    show r.messages
      ∈ inline_requests cfg.bundleSize (args.map arg_msg) (produce_start baseSeqNum).msgs
    rw [← g4]
    exact List.mem_map_of_mem _ hr

theorem C24_witness :
    ∃ s, produce_inline (sample_produce_config 2) 0 (fun _ => true) five_args sample_polls
          = (Halt.exit 0, s)
      ∧ (∀ i, (s.tankClient.calls.map Request.messages)[i]?
          = if (sample_produce_config 2).bundleSize * i < five_args.length then
              some (((five_args.map fun a =>
                  ({ content := a.1, ts := a.2, key := [] } : msg)).drop
                ((sample_produce_config 2).bundleSize * i)).take
                  (sample_produce_config 2).bundleSize)
            else none)
      ∧ (s.tankClient.calls.map Request.messages).flatten
          = five_args.map (fun a => ({ content := a.1, ts := a.2, key := [] } : msg))
      ∧ (∀ r ∈ s.tankClient.calls,
          r.messages ≠ [] ∧ r.produce_partitions = [(sample_produce_config 2).topicPartition])
      ∧ s.tankClient.outstanding = [] :=
  C24_inline_messages_sent_in_bundles (sample_produce_config 2) 0 (fun _ => true) five_args
    sample_polls (by decide) (by decide) (fun _ => rfl) (by decide) (by decide)

/-! ## No cursor is dropped from scheduling -/

theorem on_acks_ready_keeps (l : List produce_ack) (s s1 : MirrorState) (q : Nat)
    (hr : on_acks l s = Outcome.running s1) (hq : (deref s.allocator q).pending = true) :
    (deref s1.allocator q).pending = true := by
  induction l generalizing s with
  | nil =>
    cases hr
    exact hq
  | cons x rest ih =>
    rw [on_acks_cons] at hr
    cases hl : s.map.lookup x.partition with
    | none =>
      rw [hl] at hr
      cases hr
    | some p =>
      rw [hl] at hr
      exact ih _ hr (enqueue_ready_keeps s p q hq)

theorem on_acks_ready_of_ack (l : List produce_ack) (s s1 : MirrorState)
    (h : cursor_inv s) (hr : on_acks l s = Outcome.running s1)
    (it : produce_ack) (hit : it ∈ l) :
    (deref s1.allocator it.partition).pending = true := by
  induction l generalizing s with
  | nil => cases hit
  | cons x rest ih =>
    rw [on_acks_cons] at hr
    cases hl : s.map.lookup x.partition with
    | none =>
      rw [hl] at hr
      cases hr
    | some p =>
      rw [hl] at hr
      simp only at hr
      obtain ⟨rfl, hk⟩ := some_eq_of_cursor_inv_lookup s h _ _ hl
      by_cases hx : it = x
      · subst hx
        exact on_acks_ready_keeps rest _ s1 _ hr (enqueue_ready_self s _ hk)
      · have hin : it ∈ rest := by
          cases hit with
          | head => exact absurd rfl hx
          | tail _ h1 => exact h1
        exact ih _ (cursor_inv_enqueue s _ h hk) hr hin

theorem batch_msgs_keeps (tp : topic_partition) (l : List consumed_msg)
    (outputs : List produce_output) : ∀ e ∈ outputs, e ∈ batch_msgs tp l [] 0 outputs := by
  intro e he
  rw [batch_msgs_eq]
  exact List.mem_append_left _ he

theorem batch_msgs_has (tp : topic_partition) (l : List consumed_msg)
    (outputs : List produce_output) : ∃ e ∈ batch_msgs tp l [] 0 outputs, e.1 = tp := by
  rw [batch_msgs_eq]
  cases hb : batches_of l [] 0 with
  | nil => exact absurd hb (batches_of_ne_nil l [] 0)
  | cons b bs => exact ⟨(tp, b), by simp, rfl⟩

theorem on_consumed_outputs_keeps (topic : String) (l : List partition_content)
    (s s1 : MirrorState) (hr : on_consumed topic l s = Outcome.running s1) :
    ∀ e ∈ s.outputs, e ∈ s1.outputs := by
  induction l generalizing s with
  | nil =>
    cases hr
    exact fun e he => he
  | cons it rest ih =>
    rw [on_consumed_cons] at hr
    cases hl : s.map.lookup it.partition with
    | none =>
      rw [hl] at hr
      simp only at hr
      split at hr <;> cases hr
    | some p =>
      rw [hl] at hr
      simp only at hr
      split at hr
      · intro e he
        exact ih _ hr e (batch_msgs_keeps _ _ _ e he)
      · intro e he
        refine ih _ hr e ?_
        show e ∈ (enqueue s p).outputs
        have : (enqueue s p).outputs = s.outputs := by
          simp only [enqueue]
          split <;> rfl
        rw [this]
        exact he

/-- Every entry of a response that carries messages has a batch in `outputs`
after the response was processed. -/
theorem on_consumed_outputs_has (topic : String) (l : List partition_content)
    (s s1 : MirrorState) (hr : on_consumed topic l s = Outcome.running s1)
    (it : partition_content) (hit : it ∈ l) (hne : it.msgs ≠ []) :
    ∃ e ∈ s1.outputs, e.1 = (topic, it.partition) := by
  induction l generalizing s with
  | nil => cases hit
  | cons x rest ih =>
    rw [on_consumed_cons] at hr
    cases hl : s.map.lookup x.partition with
    | none =>
      rw [hl] at hr
      simp only at hr
      split at hr <;> cases hr
    | some p =>
      rw [hl] at hr
      simp only at hr
      by_cases hx : it = x
      · subst hx
        have hlen : it.msgs.length ≠ 0 := by
          intro h0
          exact hne (List.eq_nil_of_length_eq_zero h0)
        rw [if_pos hlen] at hr
        obtain ⟨e, he, h1⟩ := batch_msgs_has (topic, it.partition) it.msgs s.outputs
        exact ⟨e, on_consumed_outputs_keeps topic rest _ s1 hr e he, h1⟩
      · have hin : it ∈ rest := by
          cases hit with
          | head => exact absurd rfl hx
          | tail _ h1 => exact h1
        split at hr
        · exact ih _ hr hin
        · exact ih _ hr hin

theorem requests_inv_schedule (topic : String) (s s1 : MirrorState) (ok : Bool)
    (hl : loop_inv s) (hc : cursor_inv s) (hq : requests_inv s)
    (h : schedule topic s ok = Outcome.running s1) : requests_inv s1 := by
  obtain ⟨i1, i2, i3, i4⟩ := hl
  obtain ⟨j1, j2, j3⟩ := hq
  simp only [schedule] at h
  split at h
  · rename_i hcond
    obtain ⟨hr, -, hd⟩ := (schedule_cond_iff s).1 hcond
    have hsrc := i4 hr
    have hdst := (TankClient.should_poll_eq_false_iff _).1 hd
    rw [schedule_fold] at h
    obtain ⟨f1, -⟩ := fold_set_pending_frame s.pending s.allocator false
    cases ok
    · simp [TankClient.consume, TankClient.request] at h
    · simp only [TankClient.consume, TankClient.request, if_true] at h
      split at h
      · cases h
      · cases h
        refine ⟨?_, ?_, ?_⟩
        · intro _
          simp
        · intro h0
          exact absurd hdst h0
        · intro P hP
          have hP0 : P < s.allocator.length := by
            rw [← f1]
            exact hP
          have hpend : P ∈ s.pending := by
            rcases j3 P hP0 with h1 | h1 | h1
            · exact h1
            · exact absurd hsrc h1.1
            · exact absurd hdst h1.1
          refine Or.inr (Or.inl ⟨by simp, ?_⟩)
          simp only [List.nil_append, List.map_map, List.mem_map, Function.comp]
          exact ⟨P, hpend, hc.2.1 P hP0⟩
  · cases h
    exact ⟨j1, j2, j3⟩

theorem answers_consume (c : TankClient) (v : Arrival) (inputs : List consume_input)
    (w m : Nat) (hlast : c.calls.getLast? = some (Request.consume inputs w m))
    (h : answers c v = true) :
    ∀ inp ∈ inputs, ∃ it ∈ v.consumed, it.partition = inp.1.2 := by
  simp only [answers, hlast, List.all_eq_true, List.any_eq_true, beq_iff_eq] at h
  exact h

theorem answers_produce (c : TankClient) (v : Arrival) (outputs : List produce_output)
    (hlast : c.calls.getLast? = some (Request.produce outputs))
    (h : answers c v = true) :
    ∀ out ∈ outputs, ∃ ack ∈ v.produce_acks, ack.partition = out.1.2 := by
  simp only [answers, hlast, List.all_eq_true, List.any_eq_true, beq_iff_eq] at h
  exact h

/-- After a consume response with an entry for every requested partition was
processed, every partition is pending or has a batch in `outputs`. -/
theorem on_consumed_tracks (topic : String) (v : Arrival) (s s2 : MirrorState)
    (hc : cursor_inv s) (hsrc : s.tankClient.outstanding ≠ [])
    (hdst : s.dest.outstanding = []) (hq : requests_inv s)
    (hans : answers s.tankClient v = true) (c : TankClient)
    (h2 : on_consumed topic v.consumed { s with tankClient := c, outputs := [] }
      = Outcome.running s2) :
    ∀ P, P < s2.allocator.length →
      P ∈ s2.pending ∨ P ∈ s2.outputs.map fun out => out.1.2 := by
  obtain ⟨j1, -, j3⟩ := hq
  have hin := answers_consume _ v _ _ _ (j1 hsrc) hans
  have hc0 : cursor_inv { s with tankClient := c, outputs := [] } :=
    cursor_inv_congr s _ rfl rfl rfl hc
  have r := cursor_inv_on_consumed topic _ _ _ hc0 h2
  intro P hP
  have hP0 : P < s.allocator.length := by
    rw [← r.2.1]
    exact hP
  rcases j3 P hP0 with h1 | h1 | h1
  · refine Or.inl ((r.1.2.2.1 P).1 ?_)
    exact on_consumed_ready_keeps topic _ _ s2 P h2 ((hc.2.2.1 P).2 h1)
  · obtain ⟨inp, hinp, rfl⟩ := List.mem_map.1 h1.2
    obtain ⟨it, hit, hpart⟩ := hin inp hinp
    by_cases hm : it.msgs = []
    · refine Or.inl ((r.1.2.2.1 _).1 ?_)
      rw [← hpart]
      exact on_consumed_ready_of_empty topic _ _ s2 hc0 h2 it hit hm
    · obtain ⟨e, he, h3⟩ := on_consumed_outputs_has topic _ _ s2 h2 it hit hm
      refine Or.inr (List.mem_map.2 ⟨e, he, ?_⟩)
      rw [h3]
      exact hpart
  · exact absurd hdst h1.1

theorem requests_inv_source_phase (topic : String) (s s1 : MirrorState)
    (a : Option Arrival) (ok : Bool) (hl : loop_inv s) (hc : cursor_inv s)
    (hq : requests_inv s)
    (hans : ∀ v, a = some v → s.tankClient.should_poll = true →
      answers s.tankClient v = true)
    (h : source_phase topic s a ok = Outcome.running s1) : requests_inv s1 := by
  obtain ⟨i1, i2, i3, i4⟩ := hl
  have hq0 := hq
  obtain ⟨j1, j2, j3⟩ := hq
  simp only [source_phase] at h
  split at h
  · rename_i hsp
    have hsrc : s.tankClient.outstanding ≠ [] := (TankClient.should_poll_eq_true_iff _).1 hsp
    have hdst : s.dest.outstanding = [] := i3.resolve_left hsrc
    split at h
    · cases h
    · split at h
      · rename_i hcons
        obtain ⟨s2, h2, h3⟩ := Outcome.bind_eq_running _ _ _ h
        obtain ⟨e1, e2, e3⟩ := on_consumed_running _ _ _ _ h2
        cases a with
        | none => simp [TankClient.poll] at hcons
        | some v =>
          have hout : s2.tankClient.outstanding = [] := by
            rw [e1]
            exact tail_eq_nil_of_length_le_one _ i1
          have hd2 : s2.dest.outstanding = [] := by rw [e2]; exact hdst
          have ht := on_consumed_tracks topic v s s2 hc hsrc hdst hq0 (hans v rfl hsp)
            (s.tankClient.poll (some v)) h2
          split at h3
          · cases ok
            · simp [TankClient.produce, TankClient.request] at h3
            · simp only [TankClient.produce, TankClient.request, if_true] at h3
              split at h3
              · cases h3
              · cases h3
                refine ⟨fun h0 => absurd hout h0, fun _ => by simp, ?_⟩
                intro P hP
                rcases ht P hP with h4 | h4
                · exact Or.inl h4
                · exact Or.inr (Or.inr ⟨by simp, h4⟩)
          · rename_i hno
            cases h3
            refine ⟨fun h0 => absurd hout h0, fun h0 => absurd hd2 h0, ?_⟩
            intro P hP
            rcases ht P hP with h4 | h4
            · exact Or.inl h4
            · have hnil : s2.outputs = [] :=
                List.eq_nil_of_length_eq_zero (by simpa using hno)
              rw [hnil] at h4
              cases h4
      · rename_i hcons
        cases h
        cases a with
        | none => exact ⟨j1, j2, j3⟩
        | some v =>
          have hout : s.tankClient.outstanding.tail = [] :=
            tail_eq_nil_of_length_le_one _ i1
          have hin := answers_consume _ v _ _ _ (j1 hsrc) (hans v rfl hsp)
          have hv : v.consumed = [] := by
            apply List.eq_nil_of_length_eq_zero
            simpa [TankClient.poll] using hcons
          refine ⟨fun h0 => absurd hout h0, j2, ?_⟩
          intro P hP
          rcases j3 P hP with h1 | h1 | h1
          · exact Or.inl h1
          · obtain ⟨inp, hinp, -⟩ := List.mem_map.1 h1.2
            obtain ⟨it, hit, -⟩ := hin inp hinp
            rw [hv] at hit
            cases hit
          · exact absurd hdst h1.1
  · cases h
    exact ⟨j1, j2, j3⟩

theorem requests_inv_dest_phase (s s1 : MirrorState) (a : Option Arrival)
    (hl : loop_inv s) (hc : cursor_inv s) (hq : requests_inv s)
    (hans : ∀ v, a = some v → s.dest.should_poll = true → answers s.dest v = true)
    (h : dest_phase s a = Outcome.running s1) : requests_inv s1 := by
  obtain ⟨i1, i2, i3, i4⟩ := hl
  obtain ⟨j1, j2, j3⟩ := hq
  simp only [dest_phase] at h
  split at h
  · rename_i hsp
    have hdst : s.dest.outstanding ≠ [] := (TankClient.should_poll_eq_true_iff _).1 hsp
    have hsrc : s.tankClient.outstanding = [] := i3.resolve_right hdst
    split at h
    · cases h
    · obtain ⟨e1, e2, e3⟩ := on_acks_running _ _ _ h
      have hc0 : cursor_inv { s with dest := s.dest.poll a } :=
        cursor_inv_congr s _ rfl rfl rfl hc
      have r := cursor_inv_on_acks _ _ _ hc0 h
      cases a with
      | none =>
        have hs1 : s1 = { s with dest := s.dest.poll none } := by
          have : on_acks [] { s with dest := s.dest.poll none } = Outcome.running s1 := h
          cases this
          rfl
        rw [hs1]
        exact ⟨j1, j2, j3⟩
      | some v =>
        have hout : s.dest.outstanding.tail = [] := tail_eq_nil_of_length_le_one _ i2
        have hacks := answers_produce _ v _ (j2 hdst) (hans v rfl hsp)
        have hsrc1 : s1.tankClient.outstanding = [] := by
          rw [e1]
          exact hsrc
        have hdst1 : s1.dest.outstanding = [] := by
          rw [e2]
          exact hout
        refine ⟨fun h0 => absurd hsrc1 h0, fun h0 => absurd hdst1 h0, ?_⟩
        intro P hP
        have hP0 : P < s.allocator.length := by
          rw [← r.2.1]
          exact hP
        refine Or.inl ((r.1.2.2.1 P).1 ?_)
        rcases j3 P hP0 with h1 | h1 | h1
        · exact on_acks_ready_keeps _ _ s1 P h ((hc.2.2.1 P).2 h1)
        · exact absurd hsrc h1.1
        · obtain ⟨out, hmem, rfl⟩ := List.mem_map.1 h1.2
          obtain ⟨ack, hack, hpart⟩ := hacks out hmem
          rw [← hpart]
          exact on_acks_ready_of_ack _ _ s1 hc0 h ack hack
  · cases h
    exact ⟨j1, j2, j3⟩

theorem requests_inv_tick (topic : String) (s s1 : MirrorState) (e : TickEnv)
    (hl : loop_inv s) (hc : cursor_inv s) (hq : requests_inv s)
    (hans : tick_answered topic s e = true)
    (h : tick topic s e = Outcome.running s1) : requests_inv s1 := by
  have h0 := h
  simp only [tick] at h
  obtain ⟨s3, h3, h4⟩ := Outcome.bind_eq_running _ _ _ h
  obtain ⟨s2, h2, h5⟩ := Outcome.bind_eq_running _ _ _ h3
  have hb : before_dest_phase topic s e = s3 := by
    simp only [before_dest_phase, h3, Outcome.state]
  simp only [tick_answered, Bool.and_eq_true, h2, Outcome.state, hb] at hans
  have l2 := loop_inv_schedule _ _ _ _ hl h2
  have c2 := (cursor_inv_schedule _ _ _ _ hc h2).1
  have q2 := requests_inv_schedule _ _ _ _ hl hc hq h2
  have q3 := requests_inv_source_phase topic s2 s3 e.srcArrived e.produceOk l2 c2 q2 (by
    intro v hv hsp
    have h1 := hans.1
    rw [hv] at h1
    simpa [hsp] using h1) h5
  have l3 := loop_inv_source_phase _ _ _ _ _ l2 h5
  have c3 := (cursor_inv_source_phase _ _ _ _ _ c2 h5).1
  exact requests_inv_dest_phase s3 s1 e.dstArrived l3 c3 q3 (by
    intro v hv hsp
    have h1 := hans.2
    rw [hv] at h1
    simpa [hsp] using h1) h4

theorem requests_inv_mirror_loop (topic : String) (es : List TickEnv) (s s1 : MirrorState)
    (hl : loop_inv s) (hc : cursor_inv s) (hq : requests_inv s)
    (hans : answered_run topic s es = true)
    (h : mirror_loop topic s es = Outcome.running s1) :
    requests_inv s1 ∧ s1.allocator.length = s.allocator.length := by
  induction es generalizing s with
  | nil =>
    cases h
    exact ⟨hq, rfl⟩
  | cons e rest ih =>
    simp only [mirror_loop] at h
    obtain ⟨s2, h2, h3⟩ := Outcome.bind_eq_running _ _ _ h
    simp only [answered_run, Bool.and_eq_true, h2, Outcome.state] at hans
    have c2 := cursor_inv_tick _ _ _ _ hc h2
    have r := ih s2 (loop_inv_tick _ _ _ _ hl h2) c2.1
      (requests_inv_tick _ _ _ _ hl hc hq hans.1 h2) hans.2 h3
    exact ⟨r.1, by rw [r.2, c2.2.1]⟩

theorem requests_inv_of_discovery (topic : String) (env : DiscoveryEnv) (s : MirrorState)
    (h : mirror_discovery topic env = Outcome.running s) : requests_inv s := by
  obtain ⟨h1, h2, -⟩ := mirror_discovery_running topic env s h
  obtain ⟨w, -, -, ha, -, hp⟩ := mirror_discovery_running_seeded topic env s h
  refine ⟨fun h0 => absurd h1 h0, fun h0 => absurd h2 h0, ?_⟩
  intro P hP
  refine Or.inl ?_
  rw [hp, List.mem_range]
  simpa [ha] using hP

theorem tracked_of_requests_inv (s : MirrorState) (hq : requests_inv s) : tracked s := by
  obtain ⟨j1, j2, j3⟩ := hq
  intro P hP
  rcases j3 P hP with h1 | h1 | h1
  · exact Or.inl h1
  · exact Or.inr (Or.inl ⟨h1.1, _, _, _, j1 h1.1, h1.2⟩)
  · exact Or.inr (Or.inr ⟨h1.1, _, j2 h1.1, h1.2⟩)

/-- C26: under the broker model (the answer to a consume request has an entry
for every partition requested, the answer to a produce request an
acknowledgment for every partition it carried), every state the mirror command
reaches between two iterations of its main loop has each discovered partition
in its `pending` list, or in the outstanding consume request, or in the
outstanding produce request; the contexts are those seeded at discovery. -/
theorem C26_no_cursor_is_dropped (topic : String) (env : MirrorEnv) (s0 s : MirrorState)
    (h0 : mirror_discovery topic env.discovery = Outcome.running s0)
    (hans : answered_run topic s0 env.ticks = true)
    (h : mirror topic env = Outcome.running s) :
    tracked s ∧ s.allocator.length = s0.allocator.length := by
  simp only [mirror, h0, Outcome.bind] at h
  have r := requests_inv_mirror_loop topic env.ticks s0 s (loop_inv_of_discovery _ _ _ h0)
    (cursor_inv_of_discovery _ _ _ h0) (requests_inv_of_discovery _ _ _ h0) hans h
  exact ⟨tracked_of_requests_inv s r.1, r.2⟩

theorem C26_witness :
    tracked (mirror "events" tracked_env).state
      ∧ (mirror "events" tracked_env).state.allocator.length
          = (mirror_discovery "events" tracked_env.discovery).state.allocator.length :=
  C26_no_cursor_is_dropped "events" tracked_env
    (mirror_discovery "events" tracked_env.discovery).state
    (mirror "events" tracked_env).state rfl rfl rfl


end Tank
